import Mathlib

/-! The chat server of chat-server-client: framing, notification queue, message
processor and the handlers of the I/O thread.

A shallow embedding of `server/src/socket.cpp`, `server/src/client.cpp`,
`server/include/queue.hpp`, `server/src/epoll.cpp` and `server/src/server.cpp`.

* A `std::string` / `std::vector<char>` is a `List Byte`.
* The operating system is an explicit part of the socket state: the bytes the
  peer has sent and that were not read yet (`inbox`), what each successive
  `recv(2)` / `send(2)` call is going to do (`reads`, `writes`), and the bytes
  `send(2)` has accepted so far (`wire`).  When the schedule of a direction is
  used up the system calls transfer as much as they are asked for; a `recv(2)`
  on an empty `inbox` returns 0 (the peer has closed its end).
* A C++ exception is the `throw` result; the state it leaves behind is kept.
-/

namespace Chat

/-- One `char` of a buffer. -/
abbrev Byte := Fin 256

/-- A `std::string` or `std::vector<char>`. -/
abbrev Bytes := List Byte

/-- What one call of `recv(2)` / `send(2)` is going to do. -/
inductive SysEvent where
  /-- the call transfers at most `k` bytes (a short read / short write) -/
  | xfer (k : Nat)
  /-- the call returns -1 with `errno` `EAGAIN` / `EWOULDBLOCK` -/
  | again
  /-- the call returns -1 with `errno` `EPIPE` -/
  | epipe
  /-- the call returns -1 with another `errno` -/
  | fail
deriving DecidableEq, Repr

/-- The exceptions of `socket.h` and `client.h`, by cause. -/
inductive Exn where
  /-- `SocketException`: "socket has been closed" (the system call returned 0) -/
  | sock_closed
  /-- `SocketException`: "socket has been unexpectedly closed" (`EPIPE`) -/
  | sock_pipe
  /-- `SocketException`: any other `errno` -/
  | sock_errno
  /-- `ClientException`: "message too long" -/
  | client_too_long
  /-- `ChatServerException`: "unexpected error occured" on a server descriptor -/
  | server
  /-- `EpollExcepton`: `epoll_ctl` failed -/
  | epoll
deriving DecidableEq, Repr

/-- Is the exception a `net::SocketException`? -/
def Exn.isSocketException : Exn → Bool
  | .sock_closed => true
  | .sock_pipe => true
  | .sock_errno => true
  | .client_too_long => false
  | .server => false
  | .epoll => false

/-- Is the exception a `chat::ClientException`? -/
def Exn.isClientException : Exn → Bool
  | .client_too_long => true
  | _ => false

/-- Result of a call on a state `σ`: a value, or an exception, each with the
state left behind; `diverge` is a loop that used up its iteration budget. -/
inductive Res (σ α : Type) where
  | ok (a : α) (s : σ)
  | throw (e : Exn) (s : σ)
  | diverge
deriving DecidableEq, Repr

/-- A `net::Socket` together with the connection behind its descriptor. -/
structure Socket where
  /-- `int sockfd` -/
  sockfd : Int
  /-- bytes sent by the peer and not read yet -/
  inbox : Bytes := []
  /-- what the next calls of `recv(2)` do -/
  reads : List SysEvent := []
  /-- bytes `send(2)` accepted so far -/
  wire : Bytes := []
  /-- what the next calls of `send(2)` do -/
  writes : List SysEvent := []
  /-- does `close(2)` on the descriptor return an error? -/
  close_fails : Bool := false
  /-- number of calls of `close(2)` made through this socket -/
  closes : Nat := 0
deriving DecidableEq, Repr

/-- Value of a system call: `res > 0` with the bytes moved, `res == 0`, or
`res == -1` with the kind of `errno`. -/
inductive SysRes where
  | moved (bs : Bytes)
  | zero
  | eagain
  | epipe
  | efail
deriving DecidableEq, Repr

/-- `size_t buf_size = 512` of `net::Socket`. -/
def buf_size : Nat := 512

/-- The call `::recv(sockfd, tmp, want, MSG_NOSIGNAL)`. A closed descriptor
(`sockfd < 0`) gives `EBADF`. -/
def sysRecv (s : Socket) (want : Nat) : SysRes × Socket :=
  if s.sockfd < 0 then (.efail, s) else
  match s.reads with
  | [] =>
    let bs := s.inbox.take want
    (if bs = [] then .zero else .moved bs, { s with inbox := s.inbox.drop want })
  | .xfer k :: rest =>
    let bs := s.inbox.take (min k want)
    (if bs = [] then .zero else .moved bs,
      { s with inbox := s.inbox.drop (min k want), reads := rest })
  | .again :: rest => (.eagain, { s with reads := rest })
  | .epipe :: rest => (.epipe, { s with reads := rest })
  | .fail :: rest => (.efail, { s with reads := rest })

/-- The call `::send(sockfd, data, data.size(), MSG_NOSIGNAL)`. -/
def sysSend (s : Socket) (data : Bytes) : SysRes × Socket :=
  if s.sockfd < 0 then (.efail, s) else
  match s.writes with
  | [] => (if data = [] then .zero else .moved data, { s with wire := s.wire ++ data })
  | .xfer k :: rest =>
    let bs := data.take k
    (if bs = [] then .zero else .moved bs, { s with wire := s.wire ++ bs, writes := rest })
  | .again :: rest => (.eagain, { s with writes := rest })
  | .epipe :: rest => (.epipe, { s with writes := rest })
  | .fail :: rest => (.efail, { s with writes := rest })

/-- `Socket::recv(buf, max)` of socket.cpp: one `recv(2)` of at most
`min(buf_size, max)` bytes appended to `buf`; the value returned is
`buf.size()`. -/
def Socket.recv (s : Socket) (buf : Bytes) (max : Nat) : Res Socket (Nat × Bytes) :=
  match sysRecv s (min buf_size max) with
  | (.zero, s') => .throw .sock_closed s'
  | (.eagain, s') => .ok (0, buf) s'
  | (.epipe, s') => .throw .sock_pipe s'
  | (.efail, s') => .throw .sock_errno s'
  | (.moved tmp, s') => .ok ((buf ++ tmp).length, buf ++ tmp) s'

/-- The loop `while (recved != size) recved += recv(buf, size);` of
`Socket::recvall`, with an iteration budget. The counter `recved` (an `ssize_t`)
is a `Nat`: it is a sum of buffer sizes, below 2^63 for any stream of fewer
than 2^31 bytes. -/
def recvallLoop : Nat → Socket → Bytes → Nat → Nat → Res Socket (Nat × Bytes)
  | 0, s, buf, size, recved => if recved = size then .ok (recved, buf) s else .diverge
  | fuel + 1, s, buf, size, recved =>
    if recved = size then .ok (recved, buf) s else
    match s.recv buf size with
    | .ok (n, buf') s' => recvallLoop fuel s' buf' size (recved + n)
    | .throw e s' => .throw e s'
    | .diverge => .diverge

/-- `Socket::recvall(buf, size)` of socket.cpp. Every iteration uses up a
scheduled event or at least one byte of the inbox, or throws. -/
def Socket.recvall (s : Socket) (buf : Bytes) (size : Nat) : Res Socket (Nat × Bytes) :=
  recvallLoop (s.reads.length + s.inbox.length + 1) s buf size 0

/-- `Socket::send(buf, offset)` of socket.cpp; the value returned is the
number of bytes `send(2)` accepted. -/
def Socket.send (s : Socket) (buf : Bytes) (offset : Nat) : Res Socket Nat :=
  match sysSend s (buf.drop offset) with
  | (.zero, s') => .throw .sock_closed s'
  | (.eagain, s') => .ok 0 s'
  | (.epipe, s') => .throw .sock_pipe s'
  | (.efail, s') => .throw .sock_errno s'
  | (.moved bs, s') => .ok bs.length s'

/-- The loop `while (sent != buf.size()) sent += send(buf, sent);` of
`Socket::sendall`, with an iteration budget. -/
def sendallLoop : Nat → Socket → Bytes → Nat → Res Socket Nat
  | 0, s, buf, sent => if sent = buf.length then .ok sent s else .diverge
  | fuel + 1, s, buf, sent =>
    if sent = buf.length then .ok sent s else
    match s.send buf sent with
    | .ok n s' => sendallLoop fuel s' buf (sent + n)
    | .throw e s' => .throw e s'
    | .diverge => .diverge

/-- `Socket::sendall(buf)` of socket.cpp. -/
def Socket.sendall (s : Socket) (buf : Bytes) : Res Socket Nat :=
  sendallLoop (s.writes.length + buf.length + 1) s buf 0

/-- `Client::Status`. -/
inductive Status where
  | ONLINE
  | OFFLINE
deriving DecidableEq, Repr

/-- A `chat::Client`: `status`, the socket behind `sock_ptr`, `nick`. -/
structure Client where
  status : Status := .OFFLINE
  sock : Socket
  nick : Bytes := []
deriving DecidableEq, Repr

/-- `const size_t msg_max_size = 65535` of client.h. -/
def msg_max_size : Nat := 65535

/-- The two bytes of `msg_header` after `hdr.size = htons(n)`: `n` is cut to
`uint16_t` and stored in network byte order. -/
def htons_bytes (n : Nat) : Bytes :=
  [Fin.ofNat ((n % 65536) / 256), Fin.ofNat ((n % 65536) % 256)]

/-- `ntohs(hdr.size)` after `std::copy(hdr_buf.cbegin(), hdr_buf.cend(), (char*)&hdr)`:
the first two bytes of `hdr_buf` read in network byte order (`recvall_header_length`
shows that `hdr_buf` holds exactly two bytes whenever `recvall` returned). -/
def ntohs_bytes (hdr_buf : Bytes) : Nat :=
  (hdr_buf.getD 0 0).val * 256 + (hdr_buf.getD 1 0).val

/-- `Client::send_message(msg)` of client.cpp. -/
def Client.send_message (c : Client) (msg : Bytes) : Res Client Unit :=
  if msg.length > msg_max_size then .throw .client_too_long c else
  let hdr_buf := htons_bytes msg.length
  let msg_buf := msg
  match c.sock.sendall hdr_buf with
  | .throw e s => .throw e { c with sock := s }
  | .diverge => .diverge
  | .ok _ s =>
    match s.sendall msg_buf with
    | .throw e s' => .throw e { c with sock := s' }
    | .diverge => .diverge
    | .ok _ s' => .ok () { c with sock := s' }

/-- `Client::recv_message()` of client.cpp. -/
def Client.recv_message (c : Client) : Res Client Bytes :=
  match c.sock.recvall [] 2 with
  | .throw e s => .throw e { c with sock := s }
  | .diverge => .diverge
  | .ok (_, hdr_buf) s =>
    let size := ntohs_bytes hdr_buf
    match s.recvall [] size with
    | .throw e s' => .throw e { c with sock := s' }
    | .diverge => .diverge
    | .ok (_, msg_buf) s' => .ok msg_buf { c with sock := s' }

/-- A connected client whose peer has sent `inbox`, read as `reads` dictates. -/
def clientOn (inbox : Bytes) (reads : List SysEvent) : Client :=
  { sock := { sockfd := 5, inbox := inbox, reads := reads } }

/-- The bytes `send_message` puts on the wire for `body`. -/
def frame (body : Bytes) : Bytes := htons_bytes body.length ++ body

/-- Relation between the buffer and the counter `recved` inside the loop of
`Socket::recvall`: nothing read yet; or one chunk read, counted once; or several
chunks read, the earlier ones counted more than once. -/
def ReadInv (buf : Bytes) (recved : Nat) : Prop :=
  (buf = [] ∧ recved = 0) ∨
  (1 ≤ buf.length ∧ buf.length ≤ buf_size ∧ recved = buf.length) ∨
  (2 ≤ buf.length ∧ buf.length < recved)

/-- `n` successive calls of `Client::recv_message`, the bodies in order; the
first exception ends the run. -/
def recv_messages : Nat → Client → Res Client (List Bytes)
  | 0, c => .ok [] c
  | n + 1, c =>
    match c.recv_message with
    | .throw e c' => .throw e c'
    | .diverge => .diverge
    | .ok b c' =>
      match recv_messages n c' with
      | .ok bs c'' => .ok (b :: bs) c''
      | .throw e c'' => .throw e c''
      | .diverge => .diverge

/-- Successive calls of `Client::send_message`, one per body; the first
exception ends the run. -/
def send_messages : List Bytes → Client → Res Client Unit
  | [], c => .ok () c
  | b :: bs, c =>
    match c.send_message b with
    | .ok _ c' => send_messages bs c'
    | .throw e c' => .throw e c'
    | .diverge => .diverge

/-- An event that lets `send(2)` go on: bytes are accepted, or `EAGAIN`. -/
def SysEvent.benign : SysEvent → Bool
  | .xfer k => decide (1 ≤ k)
  | .again => true
  | .epipe => false
  | .fail => false

/-- The descriptor is open and no scheduled `send(2)` fails. -/
def Socket.writable (s : Socket) : Prop :=
  0 ≤ s.sockfd ∧ ∀ e ∈ s.writes, e.benign = true

instance (s : Socket) : Decidable s.writable := by
  unfold Socket.writable; infer_instance

/-! ## `concurrent::Queue` (queue.hpp)

Every method holds the mutex for its whole body, so a method is one step on
the pair (items, eventfd counter). A thread that waits where nothing can wake
it up in a run of one thread is the `blocks` result. The eventfd counter is a
64-bit kernel counter whose limit of 2^64 - 2 no queue held in memory reaches;
it is a `Nat` here. -/

/-- A `concurrent::Queue<T>`: `data_queue` (front first) and the counter of the
eventfd behind `event_fd`, created by `eventfd(0, EFD_SEMAPHORE)`. -/
structure Queue (α : Type) where
  data_queue : List α := []
  event_counter : Nat := 0
deriving DecidableEq, Repr

/-- Where a thread waits for good. -/
inductive Wait where
  /-- in `data_cond.wait`, the queue being empty -/
  | data_cond
  /-- in `read(event_fd)`, the counter being zero -/
  | event_fd
deriving DecidableEq, Repr

/-- Result of a queue method. -/
inductive QRes (α β : Type) where
  | done (v : β) (q : Queue α)
  | blocks (w : Wait)
deriving DecidableEq, Repr

/-- `Queue::increment_event_counter`: `write(event_fd, 1)`. -/
def Queue.increment_event_counter {α : Type} (q : Queue α) : Queue α :=
  { q with event_counter := q.event_counter + 1 }

/-- `Queue::decrement_event_counter`: `read(event_fd)`; in semaphore mode the
read takes 1 off a non-zero counter and blocks on a zero one. -/
def Queue.decrement_event_counter {α : Type} (q : Queue α) : QRes α Unit :=
  if q.event_counter = 0 then .blocks .event_fd
  else .done () { q with event_counter := q.event_counter - 1 }

/-- `Queue::push(value)`. -/
def Queue.push {α : Type} (q : Queue α) (value : α) : Queue α :=
  Queue.increment_event_counter { q with data_queue := q.data_queue ++ [value] }

/-- `bool Queue::try_pop(T& dst)`: the value returned and `dst` afterwards. -/
def Queue.try_pop {α : Type} (q : Queue α) (dst : α) : QRes α (Bool × α) :=
  match q.data_queue with
  | [] => .done (false, dst) q
  | front :: rest =>
    match Queue.decrement_event_counter { q with data_queue := rest } with
    | .done _ q' => .done (true, front) q'
    | .blocks w => .blocks w

/-- `void Queue::wait_pop(T& dst)`: `dst` afterwards. -/
def Queue.wait_pop {α : Type} (q : Queue α) (_dst : α) : QRes α α :=
  match q.data_queue with
  | [] => .blocks .data_cond
  | front :: rest =>
    match Queue.decrement_event_counter { q with data_queue := rest } with
    | .done _ q' => .done front q'
    | .blocks w => .blocks w

/-- `std::shared_ptr<T> Queue::try_pop()`: `none` is the null pointer. -/
def Queue.try_pop_ptr {α : Type} (q : Queue α) : QRes α (Option α) :=
  match q.data_queue with
  | [] => .done none q
  | front :: rest =>
    match Queue.decrement_event_counter { q with data_queue := rest } with
    | .done _ q' => .done (some front) q'
    | .blocks w => .blocks w

/-- `std::shared_ptr<T> Queue::wait_pop()`. -/
def Queue.wait_pop_ptr {α : Type} (q : Queue α) : QRes α α :=
  match q.data_queue with
  | [] => .blocks .data_cond
  | front :: rest =>
    match Queue.decrement_event_counter { q with data_queue := rest } with
    | .done _ q' => .done front q'
    | .blocks w => .blocks w

/-- `Queue::empty()`. -/
def Queue.empty {α : Type} (q : Queue α) : Bool := q.data_queue.isEmpty

/-- `Queue::size()`. -/
def Queue.size {α : Type} (q : Queue α) : Nat := q.data_queue.length

/-- The descriptor of `get_eventfd()` polls readable: its counter is non-zero. -/
def Queue.readable {α : Type} (q : Queue α) : Prop := 0 < q.event_counter

instance {α : Type} (q : Queue α) : Decidable q.readable := by
  unfold Queue.readable; infer_instance

/-- A call of a queue method; the reference-out pops carry the caller's `dst`. -/
inductive QOp (α : Type) where
  | push (value : α)
  | try_pop (dst : α)
  | wait_pop (dst : α)
  | try_pop_ptr
  | wait_pop_ptr
deriving DecidableEq, Repr

/-- One call: the queue afterwards and the item popped, if the pop succeeded
(`dst` after a `try_pop` that returned true, `dst` after `wait_pop`, the pointee
of a non-null result). -/
def Queue.step {α : Type} (q : Queue α) : QOp α → QRes α (Option α)
  | .push v => .done none (q.push v)
  | .try_pop dst =>
    match q.try_pop dst with
    | .done (ok, dst') q' => .done (if ok then some dst' else none) q'
    | .blocks w => .blocks w
  | .wait_pop dst =>
    match q.wait_pop dst with
    | .done dst' q' => .done (some dst') q'
    | .blocks w => .blocks w
  | .try_pop_ptr => q.try_pop_ptr
  | .wait_pop_ptr =>
    match q.wait_pop_ptr with
    | .done v q' => .done (some v) q'
    | .blocks w => .blocks w

/-- A sequence of calls, one after the other: the queue afterwards and the
items popped, in the order of the pops. -/
def Queue.run {α : Type} (q : Queue α) : List (QOp α) → QRes α (List α)
  | [] => .done [] q
  | op :: ops =>
    match q.step op with
    | .blocks w => .blocks w
    | .done r q' =>
      match Queue.run q' ops with
      | .blocks w => .blocks w
      | .done out q'' => .done (r.toList ++ out) q''

/-- The values pushed by a sequence of calls, in order. -/
def pushed {α : Type} : List (QOp α) → List α
  | [] => []
  | .push v :: ops => v :: pushed ops
  | _ :: ops => pushed ops

/-- No `wait_pop` of the sequence is called on an empty queue, the queue holding
`n` items at the start. -/
def noWaitOnEmpty {α : Type} : List (QOp α) → Nat → Bool
  | [], _ => true
  | .push _ :: ops, n => noWaitOnEmpty ops (n + 1)
  | .try_pop _ :: ops, n => noWaitOnEmpty ops (n - 1)
  | .try_pop_ptr :: ops, n => noWaitOnEmpty ops (n - 1)
  | .wait_pop _ :: ops, n => decide (0 < n) && noWaitOnEmpty ops (n - 1)
  | .wait_pop_ptr :: ops, n => decide (0 < n) && noWaitOnEmpty ops (n - 1)

/-! ## `chat::ChatServer`, the message processor (server.cpp)

`clients` is the `std::unordered_map<std::string, ClientPtr>` as the list of
its entries in iteration order. A `ClientPtr` and a `MessagePtr` may be
null. -/

/-- The bytes of a string literal of the source. -/
def ascii (s : String) : Bytes := s.toList.map (fun ch => Fin.ofNat ch.toNat)

/-- `ChatServer::Message`: text, source nick, destination nicks. -/
structure Message where
  msg : Bytes
  src : Bytes
  dsts : List Bytes := []
deriving DecidableEq, Repr

/-- `Message::add_destination`: `dsts.push_back(dst)`. -/
def Message.add_destination (m : Message) (dst : Bytes) : Message :=
  { m with dsts := m.dsts ++ [dst] }

/-- `std::unique_ptr<Client>`; `none` is the null pointer. -/
abbrev ClientPtr := Option Client

/-- `std::shared_ptr<Message>`; `none` is the null pointer. -/
abbrev MessagePtr := Option Message

/-- The event mask `int events` of a handler, by bit: `events & Event::X` is
non-zero exactly when the field `X` is true. -/
structure Events where
  IN : Bool := false
  RDHUP : Bool := false
  HUP : Bool := false
  ERR : Bool := false
deriving DecidableEq, Repr

/-- The handlers `ChatServer` binds; a socket handler carries its `data`. -/
inductive Handler where
  | on_client_connect
  | on_queue_available
  | on_socket_data_available (data : Bytes)
deriving DecidableEq, Repr

/-- An `io::Epoll`: the `handlers` map by descriptor, in iteration order. -/
structure Epoll where
  handlers : List (Int × Handler) := []
  /-- does `epoll_ctl(2)` return -1? -/
  ctl_fails : Bool := false
deriving DecidableEq, Repr

/-- `handlers[fd] = h` on the `handlers` map. -/
def setHandler : List (Int × Handler) → Int → Handler → List (Int × Handler)
  | [], fd, h => [(fd, h)]
  | (k, old) :: rest, fd, h =>
    if k = fd then (k, h) :: rest else (k, old) :: setHandler rest fd h

/-- `Epoll::add_handler(fd, event_mask, func, data)` of epoll.cpp. -/
def Epoll.add_handler (ep : Epoll) (fd : Int) (_event_mask : Events) (h : Handler) :
    Res Epoll Unit :=
  if ep.ctl_fails then .throw .epoll ep
  else .ok () { ep with handlers := setHandler ep.handlers fd h }

/-- `Epoll::del_handler(fd)` of epoll.cpp: `epoll_ctl(EPOLL_CTL_DEL)`; the
`handlers` map is left as it is. -/
def Epoll.del_handler (ep : Epoll) (_fd : Int) : Res Epoll Unit :=
  if ep.ctl_fails then .throw .epoll ep else .ok () ep

/-- The state of a `ChatServer` that its handlers read and write. -/
structure ChatServer where
  clients : List (Bytes × ClientPtr) := []
  in_queue : Queue MessagePtr := {}
  out_queue : Queue MessagePtr := {}
  epoll : Epoll := {}
deriving DecidableEq, Repr

/-- How a handler of the server ends. -/
inductive Outcome (σ : Type) where
  /-- it returns, leaving the state `s` -/
  | done (s : σ)
  /-- it waits in `wait_pop` -/
  | blocks
  /-- it dereferences a null pointer -/
  | undefined
deriving DecidableEq, Repr

/-- `Client::status_str.at(status)`. -/
def status_str : Status → Bytes
  | .ONLINE => ascii "online"
  | .OFFLINE => ascii "offline"

/-- `out << std::left << std::setw(10) << nick`: the nick, then spaces up to
10 characters; a longer nick is written whole. -/
def setw_left (width : Nat) (nick : Bytes) : Bytes :=
  nick ++ List.replicate (width - nick.length) (0x20 : Byte)

/-- The loop of `ChatServer::get_status_list` over the entries not yet visited,
`out` being the text written so far; `none` when an entry is a null pointer. -/
def get_status_list_loop : List (Bytes × ClientPtr) → Bytes → Option Bytes
  | [], out => some out
  | (_, none) :: _, _ => none
  | (nick, some client) :: rest, out =>
    get_status_list_loop rest
      (out ++ setw_left 10 nick ++ ascii ": " ++ status_str client.status ++ ascii "\n")

/-- `ChatServer::get_status_list()`. -/
def ChatServer.get_status_list (srv : ChatServer) : Option Bytes :=
  get_status_list_loop srv.clients []

/-- `ChatServer::on_list(msg_ptr)`, `msg_ptr` pointing to a message. -/
def ChatServer.on_list (srv : ChatServer) (msg_ptr : Message) : Outcome ChatServer :=
  match srv.get_status_list with
  | none => .undefined
  | some text =>
    let resp_msg_ptr : Message := { msg := text, src := msg_ptr.src }
    let resp_msg_ptr := resp_msg_ptr.add_destination msg_ptr.src
    .done { srv with out_queue := srv.out_queue.push (some resp_msg_ptr) }

/-- The loop of `ChatServer::on_send` over the entries not yet visited; `none`
when the entry whose status is read is a null pointer. -/
def on_send_loop : List (Bytes × ClientPtr) → Message → Message → Option Message
  | [], _, resp_msg_ptr => some resp_msg_ptr
  | (nick, client) :: rest, msg_ptr, resp_msg_ptr =>
    if nick ≠ msg_ptr.src then
      match client with
      | none => none
      | some c =>
        if c.status = .ONLINE then
          on_send_loop rest msg_ptr (resp_msg_ptr.add_destination nick)
        else on_send_loop rest msg_ptr resp_msg_ptr
    else on_send_loop rest msg_ptr resp_msg_ptr

/-- `ChatServer::on_send(msg_ptr)`, `msg_ptr` pointing to a message; the text is `boost::format("%1%: %2%")` of the
source and the message. -/
def ChatServer.on_send (srv : ChatServer) (msg_ptr : Message) : Outcome ChatServer :=
  let resp_msg_ptr : Message :=
    { msg := msg_ptr.src ++ ascii ": " ++ msg_ptr.msg, src := msg_ptr.src }
  match on_send_loop srv.clients msg_ptr resp_msg_ptr with
  | none => .undefined
  | some resp_msg_ptr =>
    .done { srv with out_queue := srv.out_queue.push (some resp_msg_ptr) }

/-- One turn of the loop of `ChatServer::message_handler`, `msg_ptr` being the
local variable of that name: `in_queue.wait_pop(msg_ptr)`, then `on_list` or
`on_send`. The state and `msg_ptr` afterwards. -/
def ChatServer.message_handler_turn (srv : ChatServer) (msg_ptr : MessagePtr) :
    Outcome (ChatServer × MessagePtr) :=
  match srv.in_queue.wait_pop msg_ptr with
  | .blocks _ => .blocks
  | .done none _ => .undefined
  | .done (some m) in_queue' =>
    let srv' := { srv with in_queue := in_queue' }
    match (if m.msg = ascii "list" then srv'.on_list m else srv'.on_send m) with
    | .done srv'' => .done (srv'', some m)
    | .blocks => .blocks
    | .undefined => .undefined

/-- The loop `while (!stop_flag)` of `ChatServer::message_handler`, `turns` turns
of it. -/
def message_handler_loop : Nat → ChatServer → MessagePtr → Outcome (ChatServer × MessagePtr)
  | 0, srv, msg_ptr => .done (srv, msg_ptr)
  | turns + 1, srv, msg_ptr =>
    match srv.message_handler_turn msg_ptr with
    | .done (srv', msg_ptr') => message_handler_loop turns srv' msg_ptr'
    | .blocks => .blocks
    | .undefined => .undefined

/-- `ChatServer::message_handler()`, `turns` turns of its loop; `msg_ptr` starts
as the null pointer. -/
def ChatServer.message_handler (srv : ChatServer) (turns : Nat) :
    Outcome (ChatServer × MessagePtr) :=
  message_handler_loop turns srv none

/-- No entry of the registry is a null pointer. -/
def ChatServer.noNull (srv : ChatServer) : Prop :=
  ∀ p ∈ srv.clients, p.2 ≠ none

instance (srv : ChatServer) : Decidable srv.noNull := by
  unfold ChatServer.noNull; infer_instance

/-- The keys of the registry. -/
def ChatServer.nicks (srv : ChatServer) : List Bytes := srv.clients.map Prod.fst

/-- Does the pointer point to a client whose status is ONLINE? -/
def isOnline : ClientPtr → Bool
  | some c => decide (c.status = .ONLINE)
  | none => false

/-- The registered nicks, in iteration order, that are ONLINE and differ from `src`. -/
def onlineOthers (clients : List (Bytes × ClientPtr)) (src : Bytes) : List Bytes :=
  (clients.filter (fun p => decide (p.1 ≠ src) && isOnline p.2)).map Prod.fst

/-- A connected client `nick` on descriptor `fd`. -/
def onlineClient (nick : String) (fd : Int) : Bytes × ClientPtr :=
  (ascii nick, some { status := .ONLINE, sock := { sockfd := fd }, nick := ascii nick })

/-- A disconnected client `nick`. -/
def offlineClient (nick : String) : Bytes × ClientPtr :=
  (ascii nick, some { status := .OFFLINE, sock := { sockfd := -1 }, nick := ascii nick })

/-- A server with alice and bob ONLINE and carol OFFLINE, `in_queue` holding `inbox`. -/
def sampleServer (inbox : List MessagePtr) : ChatServer :=
  { clients := [onlineClient "alice" 5, onlineClient "bob" 6, offlineClient "carol"],
    in_queue := { data_queue := inbox, event_counter := inbox.length } }

/-! ## Connections and the handlers of the I/O thread (client.cpp, epoll.cpp, server.cpp)

The environment decides whether `close(2)` and `epoll_ctl(2)` succeed
(`close_fails`, `ctl_fails`). The pointer `data` a socket handler is registered
with points to the Connection that the registry holds under a nick; it is that
nick here. The position a new key takes in the iteration order of the registry
is not fixed by `std::unordered_map`; the end is used. -/

/-- `Socket::close()` of socket.cpp. -/
def Socket.close (s : Socket) : Res Socket Unit :=
  if s.sockfd > 0 then
    if s.close_fails then .throw .sock_errno { s with closes := s.closes + 1 }
    else .ok () { s with sockfd := -1, closes := s.closes + 1 }
  else .ok () s

/-- `Client::connect()` of client.cpp. -/
def Client.connect (c : Client) : Res Client Unit :=
  match c.recv_message with
  | .ok nick c' => .ok () { c' with nick := nick, status := .ONLINE }
  | .throw e c' => .throw e c'
  | .diverge => .diverge

/-- `Client::disconnect()` of client.cpp. -/
def Client.disconnect (c : Client) : Res Client Unit :=
  match c.sock.close with
  | .ok _ s => .ok () { c with status := .OFFLINE, sock := s }
  | .throw e s => .throw e { c with status := .OFFLINE, sock := s }
  | .diverge => .diverge

/-- `Client::~Client()`: `disconnect()`; the object as it is destroyed, or
`none` when the destructor throws and `std::terminate` is called. -/
def Client.destroy (c : Client) : Option Client :=
  match c.disconnect with
  | .ok _ c' => some c'
  | .throw _ _ => none
  | .diverge => none

/-- `clients.find(key)`: the mapped pointer, if the key is there. -/
def lookupClient : List (Bytes × ClientPtr) → Bytes → Option ClientPtr
  | [], _ => none
  | (k, v) :: rest, key => if k = key then some v else lookupClient rest key

/-- `clients[key] = v`. -/
def setClient : List (Bytes × ClientPtr) → Bytes → ClientPtr → List (Bytes × ClientPtr)
  | [], key, v => [(key, v)]
  | (k, old) :: rest, key, v =>
    if k = key then (k, v) :: rest else (k, old) :: setClient rest key v

/-- How a handler of the I/O thread ends. -/
inductive Ran (σ : Type) where
  /-- it returns, leaving `s` -/
  | returned (s : σ)
  /-- an exception leaves it, the state being `s` -/
  | threw (e : Exn) (s : σ)
  /-- it does not come back from a call -/
  | stuck
  /-- a destructor throws: `std::terminate` -/
  | aborted
  /-- it dereferences a null or dangling pointer -/
  | undefined
deriving DecidableEq, Repr

/-- One call `clients[dst]->send_message(msg)` made by `on_queue_available`:
the destination, the status of the Connection when the call was made, the
message, and the exception the call threw, if any. -/
structure Attempt where
  dst : Bytes
  status : Status
  msg : Bytes
  failure : Option Exn
deriving DecidableEq, Repr

/-- The body of the loop `for (const std::string& dst: dsts)` of
`ChatServer::on_queue_available`: `clients[dst]->send_message(msg)` in a `try`
whose handlers, for `ClientException` and for `SocketException`, call
`clients[dst]->disconnect()`. -/
def send_to (clients : List (Bytes × ClientPtr)) (dst msg : Bytes) :
    Ran (List (Bytes × ClientPtr) × Attempt) :=
  match lookupClient clients dst with
  | none => .undefined
  | some none => .undefined
  | some (some client) =>
    match client.send_message msg with
    | .diverge => .stuck
    | .ok _ client' =>
      .returned (setClient clients dst (some client'), ⟨dst, client.status, msg, none⟩)
    | .throw e client' =>
      if e.isClientException || e.isSocketException then
        match client'.disconnect with
        | .diverge => .stuck
        | .ok _ client'' =>
          .returned (setClient clients dst (some client''), ⟨dst, client.status, msg, some e⟩)
        | .throw e' client'' =>
          .threw e' (setClient clients dst (some client''), ⟨dst, client.status, msg, some e⟩)
      else .threw e (setClient clients dst (some client'), ⟨dst, client.status, msg, some e⟩)

/-- The loop `for (const std::string& dst: dsts)` of
`ChatServer::on_queue_available`; `done` are the calls made so far. -/
def send_loop : List Bytes → Bytes → List (Bytes × ClientPtr) → List Attempt →
    Ran (List (Bytes × ClientPtr) × List Attempt)
  | [], _, clients, done => .returned (clients, done)
  | dst :: dsts, msg, clients, done =>
    match send_to clients dst msg with
    | .returned (clients', a) => send_loop dsts msg clients' (done ++ [a])
    | .threw e (clients', a) => .threw e (clients', done ++ [a])
    | .stuck => .stuck
    | .aborted => .aborted
    | .undefined => .undefined

/-- `ChatServer::on_queue_available(events, data)`: the state afterwards and the
calls of `send_message` it made. -/
def ChatServer.on_queue_available (srv : ChatServer) (events : Events) :
    Ran (ChatServer × List Attempt) :=
  if events.ERR || events.HUP then .threw .server (srv, [])
  else
    match srv.out_queue.try_pop none with
    | .blocks _ => .stuck
    | .done (false, _) out_queue' => .returned ({ srv with out_queue := out_queue' }, [])
    | .done (true, none) _ => .undefined
    | .done (true, some m) out_queue' =>
      match send_loop m.dsts m.msg srv.clients [] with
      | .returned (clients', calls) =>
        .returned ({ srv with out_queue := out_queue', clients := clients' }, calls)
      | .threw e (clients', calls) =>
        .threw e ({ srv with out_queue := out_queue', clients := clients' }, calls)
      | .stuck => .stuck
      | .aborted => .aborted
      | .undefined => .undefined

/-- The end of `on_client_connect` after a failed handshake: the handler of the
exception calls `client_ptr->disconnect()`, then `client_ptr` goes out of scope
and the Connection is destroyed. The Connections destroyed are returned. -/
def drop_connection (srv : ChatServer) (client : Client) : Ran (ChatServer × List Client) :=
  match client.disconnect with
  | .diverge => .stuck
  | .ok _ client' =>
    match client'.destroy with
    | some gone => .returned (srv, [gone])
    | none => .aborted
  | .throw e client' =>
    match client'.destroy with
    | some gone => .threw e (srv, [gone])
    | none => .aborted

/-- `ChatServer::on_client_connect(events, data)`; `accepted` is the socket
`server_sock.accept()` returns, `none` when it throws. The state afterwards and
the Connections destroyed on the way. -/
def ChatServer.on_client_connect (srv : ChatServer) (events : Events)
    (accepted : Option Socket) : Ran (ChatServer × List Client) :=
  if events.ERR || events.HUP then .threw .server (srv, [])
  else
    match accepted with
    | none => .threw .sock_errno (srv, [])
    | some client_sock =>
      let sock_fd := client_sock.sockfd
      let client_ptr : Client := { sock := client_sock }
      match client_ptr.connect with
      | .diverge => .stuck
      | .throw e client =>
        if e.isClientException || e.isSocketException then drop_connection srv client
        else
          match client.destroy with
          | some gone => .threw e (srv, [gone])
          | none => .aborted
      | .ok _ client =>
        match srv.epoll.add_handler sock_fd { IN := true, RDHUP := true }
            (.on_socket_data_available client.nick) with
        | .diverge => .stuck
        | .throw e epoll' =>
          match client.destroy with
          | some gone => .threw e ({ srv with epoll := epoll' }, [gone])
          | none => .aborted
        | .ok _ epoll' =>
          let srv' := { srv with epoll := epoll',
                                 clients := setClient srv.clients client.nick (some client) }
          match lookupClient srv.clients client.nick with
          | some (some displaced) =>
            match displaced.destroy with
            | some gone => .returned (srv', [gone])
            | none => .aborted
          | _ => .returned (srv', [])

/-- `client_ptr->disconnect()` on the Connection the registry holds under `key`. -/
def disconnect_at (srv : ChatServer) (key : Bytes) (client : Client) : Ran ChatServer :=
  match client.disconnect with
  | .diverge => .stuck
  | .ok _ client' => .returned { srv with clients := setClient srv.clients key (some client') }
  | .throw e client' =>
    .threw e { srv with clients := setClient srv.clients key (some client') }

/-- `ChatServer::on_socket_data_available(events, data)`, `data` pointing to the
Connection the registry holds under the nick `data`. -/
def ChatServer.on_socket_data_available (srv : ChatServer) (events : Events) (data : Bytes) :
    Ran ChatServer :=
  match lookupClient srv.clients data with
  | none => .undefined
  | some none => .undefined
  | some (some client_ptr) =>
    if events.ERR then disconnect_at srv data client_ptr
    else if events.HUP || events.RDHUP then disconnect_at srv data client_ptr
    else
      match client_ptr.recv_message with
      | .diverge => .stuck
      | .ok text client' =>
        .returned { srv with
          clients := setClient srv.clients data (some client'),
          in_queue := srv.in_queue.push (some { msg := text, src := client'.nick }) }
      | .throw e client' =>
        if e.isClientException || e.isSocketException then
          disconnect_at { srv with clients := setClient srv.clients data (some client') }
            data client'
        else .threw e { srv with clients := setClient srv.clients data (some client') }

/-- One line of the status listing as the specification words it: the nick
padded on the right with spaces to 10 characters, then ": ", then "online" or
"offline", then a newline. -/
def status_line (nick : Bytes) (status : Status) : Bytes :=
  nick ++ List.replicate (10 - nick.length) (0x20 : Byte) ++ [0x3A, 0x20]
    ++ (match status with
        | .ONLINE => ascii "online"
        | .OFFLINE => ascii "offline")
    ++ [0x0A]

/-- The status listing as the specification words it: one line per entry of the
registry, in iteration order. -/
def status_listing : List (Bytes × ClientPtr) → Bytes
  | [] => []
  | (nick, some client) :: rest => status_line nick client.status ++ status_listing rest
  | (_, none) :: rest => status_listing rest

/-- The socket after a `close()` that did not throw. -/
def Socket.closed (s : Socket) : Socket :=
  if s.sockfd > 0 then { s with sockfd := -1, closes := s.closes + 1 } else s

/-- The Connection after a `disconnect()` that did not throw. -/
def Client.disconnected (c : Client) : Client :=
  { c with status := .OFFLINE, sock := c.sock.closed }

/-- The Connection after one turn of the loop of `on_queue_available` on it:
`send_message(msg)` and, after a failure, `disconnect()`. -/
def deliver (msg : Bytes) (c : Client) : Client :=
  match c.send_message msg with
  | .ok _ c' => c'
  | .throw _ c' => c'.disconnected
  | .diverge => c

/-- The exception `send_message(msg)` throws on the Connection, if any. -/
def deliverFailure (msg : Bytes) (c : Client) : Option Exn :=
  match c.send_message msg with
  | .throw e _ => some e
  | _ => none

/-- Only the output side of the socket differs between `s` and `s'`. -/
def OnlyOut (s s' : Socket) : Prop :=
  s' = { s with wire := s'.wire, writes := s'.writes }

/-- The state a call leaves behind, if it comes back. -/
def Res.state? {σ α : Type} : Res σ α → Option σ
  | .ok _ s => some s
  | .throw _ s => some s
  | .diverge => none

/-- The pointer is not null and `close(2)` succeeds on the socket of the Connection. -/
def soundEntry : ClientPtr → Bool
  | some c => !c.sock.close_fails
  | none => false

/-- The registry holds no null pointer and `close(2)` succeeds on every socket. -/
def Sound (clients : List (Bytes × ClientPtr)) : Prop :=
  ∀ p ∈ clients, soundEntry p.2 = true

instance (clients : List (Bytes × ClientPtr)) : Decidable (Sound clients) := by
  unfold Sound; infer_instance

/-- A connected client `nick` on descriptor `fd` whose next `send(2)` fails with `EPIPE`. -/
def brokenClient (nick : String) (fd : Int) : Bytes × ClientPtr :=
  (ascii nick, some { status := .ONLINE, sock := { sockfd := fd, writes := [.epipe] },
                      nick := ascii nick })

/-- The sample server with one envelope in `out_queue`: "alice: hi" for bob and carol. -/
def sampleQueued : ChatServer :=
  { sampleServer [] with
    out_queue := { data_queue := [some ⟨ascii "alice: hi", ascii "alice",
                                        [ascii "bob", ascii "carol"]⟩],
                   event_counter := 1 } }

/-- A server with alice, bob (whose next send fails), carol (OFFLINE) and dave, one
envelope in `out_queue`: "alice: hi" for bob, carol and dave. -/
def sampleBroken : ChatServer :=
  { clients := [onlineClient "alice" 5, brokenClient "bob" 6, offlineClient "carol",
                onlineClient "dave" 7],
    out_queue := { data_queue := [some ⟨ascii "alice: hi", ascii "alice",
                                        [ascii "bob", ascii "carol", ascii "dave"]⟩],
                   event_counter := 1 } }

/-- Only the input side of the socket differs between `s` and `s'`. -/
def OnlyIn (s s' : Socket) : Prop :=
  s' = { s with inbox := s'.inbox, reads := s'.reads }

/-- The sample server with the socket handlers of alice (descriptor 5) and bob
(descriptor 6) in the `handlers` map of its `Epoll`. -/
def sampleRegistered : ChatServer :=
  { sampleServer [] with
    epoll := { handlers := [(5, .on_socket_data_available (ascii "alice")),
                            (6, .on_socket_data_available (ascii "bob"))] } }

/-- A handler of the server runs to its end from the state `s` and leaves `s'`:
`on_client_connect`, `on_socket_data_available`, one turn of `message_handler`,
or `on_queue_available`. -/
inductive Step : ChatServer → ChatServer → Prop where
  | client_connect (s : ChatServer) (events : Events) (accepted : Option Socket)
      (s' : ChatServer) (gone : List Client) :
      s.on_client_connect events accepted = .returned (s', gone) → Step s s'
  | socket_data (s : ChatServer) (events : Events) (data : Bytes) (s' : ChatServer) :
      s.on_socket_data_available events data = .returned s' → Step s s'
  | message_turn (s : ChatServer) (msg_ptr : MessagePtr) (s' : ChatServer)
      (msg_ptr' : MessagePtr) :
      s.message_handler_turn msg_ptr = .done (s', msg_ptr') → Step s s'
  | queue_available (s : ChatServer) (events : Events) (s' : ChatServer)
      (calls : List Attempt) :
      s.on_queue_available events = .returned (s', calls) → Step s s'

/-- The states the handlers, taken as sequential steps, reach from a server
with an empty registry and empty queues. -/
inductive Reachable : ChatServer → Prop where
  | start (epoll : Epoll) : Reachable { epoll := epoll }
  | step {s s' : ChatServer} : Reachable s → Step s s' → Reachable s'

/-- Every entry of the registry points to a Connection whose nick is the key. -/
def EntriesOk (clients : List (Bytes × ClientPtr)) : Prop :=
  ∀ p ∈ clients, ∃ c : Client, p.2 = some c ∧ c.nick = p.1

/-- The registry covers the queues: entries are well formed, every envelope of
`in_queue` comes from a registered nick and every destination of every envelope
of `out_queue` is a registered nick. -/
def Registered (s : ChatServer) : Prop :=
  EntriesOk s.clients ∧
  (∀ mp ∈ s.in_queue.data_queue, ∃ m : Message, mp = some m ∧ m.src ∈ s.nicks) ∧
  (∀ mp ∈ s.out_queue.data_queue, ∃ m : Message, mp = some m ∧ ∀ d ∈ m.dsts, d ∈ s.nicks)

/-- The server after alice has connected on descriptor 5, her frame "hi" still unread. -/
def reached1 : ChatServer :=
  { clients := [(ascii "alice", some ⟨.ONLINE, { sockfd := 5, inbox := frame (ascii "hi") },
                                      ascii "alice"⟩)],
    epoll := { handlers := [(5, .on_socket_data_available (ascii "alice"))] } }

/-- Then bob has connected on descriptor 6. -/
def reached2 : ChatServer :=
  { clients := [(ascii "alice", some ⟨.ONLINE, { sockfd := 5, inbox := frame (ascii "hi") },
                                      ascii "alice"⟩),
                onlineClient "bob" 6],
    epoll := { handlers := [(5, .on_socket_data_available (ascii "alice")),
                            (6, .on_socket_data_available (ascii "bob"))] } }

/-- Then the frame of alice has been read into `in_queue`. -/
def reached3 : ChatServer :=
  { clients := [onlineClient "alice" 5, onlineClient "bob" 6],
    in_queue := { data_queue := [some ⟨ascii "hi", ascii "alice", []⟩], event_counter := 1 },
    epoll := { handlers := [(5, .on_socket_data_available (ascii "alice")),
                            (6, .on_socket_data_available (ascii "bob"))] } }

/-- Then the processor has answered it with a broadcast for bob in `out_queue`. -/
def reached4 : ChatServer :=
  { clients := [onlineClient "alice" 5, onlineClient "bob" 6],
    out_queue := { data_queue := [some ⟨ascii "alice: hi", ascii "alice", [ascii "bob"]⟩],
                   event_counter := 1 },
    epoll := { handlers := [(5, .on_socket_data_available (ascii "alice")),
                            (6, .on_socket_data_available (ascii "bob"))] } }

/-- The envelope the processor answers `e` with, the registry being `clients`:
the status listing for the source when the body is "list", the broadcast
otherwise. -/
def response (clients : List (Bytes × ClientPtr)) (e : Message) : Message :=
  if e.msg = ascii "list" then
    { msg := status_listing clients, src := e.src, dsts := [e.src] }
  else
    { msg := e.src ++ ascii ": " ++ e.msg, src := e.src, dsts := onlineOthers clients e.src }

/-- The Connection after the turns of the loop of `on_queue_available` for the
messages `msgs`, in order. -/
def deliverAll : List Bytes → Client → Client
  | [], c => c
  | m :: ms, c => deliverAll ms (deliver m c)

/-! ## Schedules of the threads over the two queues -/

theorem ntohs_htons (n : Nat) (h : n ≤ 65535) : ntohs_bytes (htons_bytes n) = n := by
  simp only [ntohs_bytes, htons_bytes, List.getD_cons_zero, List.getD_cons_succ, Fin.ofNat]
  omega

/-- What `recv(2)` does when it moves bytes or reports `EAGAIN`. -/
theorem sysRecv_cases (s : Socket) (want : Nat) :
    (∀ bs s', sysRecv s want = (.moved bs, s') →
      bs ≠ [] ∧ bs.length ≤ want ∧ bs ++ s'.inbox = s.inbox ∧
      s'.reads.length + s'.inbox.length < s.reads.length + s.inbox.length) ∧
    (∀ s', sysRecv s want = (.eagain, s') →
      s'.inbox = s.inbox ∧ s'.reads.length < s.reads.length) := by
  unfold sysRecv
  by_cases hfd : s.sockfd < 0
  · simp [hfd]
  · simp only [hfd, if_false]
    rcases hr : s.reads with _ | ⟨e, rest⟩
    · by_cases ht : List.take want s.inbox = []
      · simp [ht]
      · have hpos : 0 < (List.take want s.inbox).length := List.length_pos.mpr ht
        simp only [List.length_take] at hpos
        simp only [ht, if_false]
        constructor
        · intro bs s' h
          simp only [Prod.mk.injEq, SysRes.moved.injEq] at h
          obtain ⟨hb, hs⟩ := h
          subst hb hs
          refine ⟨ht, ?_, ?_, ?_⟩
          · simp only [List.length_take]; omega
          · simp
          · simp only [List.length_drop, List.length_nil]; omega
        · intro s' h
          simp at h
    · cases e with
      | xfer k =>
        by_cases ht : List.take (min k want) s.inbox = []
        · simp [ht]
        · simp only [ht, if_false]
          constructor
          · intro bs s' h
            simp only [Prod.mk.injEq, SysRes.moved.injEq] at h
            obtain ⟨hb, hs⟩ := h
            subst hb hs
            refine ⟨ht, ?_, ?_, ?_⟩
            · simp only [List.length_take]; omega
            · simp
            · simp only [List.length_drop, List.length_cons]; omega
          · intro s' h
            simp at h
      | again =>
        constructor
        · intro bs s' h
          simp at h
        · intro s' h
          simp only [Prod.mk.injEq, true_and] at h
          subst h
          simp
      | epipe => simp
      | fail => simp

/-- What one successful `Socket::recv` does: nothing at all (`EAGAIN`, value 0), or
it appends a non-empty chunk of at most `min(512, max)` inbox bytes to `buf` and
returns the new `buf.size()`. Either way the socket gets closer to its end. -/
theorem recv_ok_cases {s s' : Socket} {buf buf' : Bytes} {max n : Nat}
    (h : s.recv buf max = .ok (n, buf') s') :
    ((n = 0 ∧ buf' = buf ∧ s'.inbox = s.inbox) ∨
      (∃ tmp : Bytes, tmp ≠ [] ∧ tmp.length ≤ min buf_size max ∧ buf' = buf ++ tmp ∧
        n = buf'.length ∧ tmp ++ s'.inbox = s.inbox)) ∧
    s'.reads.length + s'.inbox.length < s.reads.length + s.inbox.length := by
  have hc := sysRecv_cases s (min buf_size max)
  unfold Socket.recv at h
  rcases hsys : sysRecv s (min buf_size max) with ⟨r, t⟩
  rw [hsys] at h
  cases r with
  | moved bs =>
    simp only [Res.ok.injEq, Prod.mk.injEq] at h
    obtain ⟨⟨hn, hb⟩, hs⟩ := h
    subst hs
    obtain ⟨h1, h2, h3, h4⟩ := hc.1 bs t hsys
    exact ⟨Or.inr ⟨bs, h1, h2, hb.symm, by rw [← hn, hb], h3⟩, h4⟩
  | eagain =>
    simp only [Res.ok.injEq, Prod.mk.injEq] at h
    obtain ⟨⟨hn, hb⟩, hs⟩ := h
    subst hs
    obtain ⟨h1, h2⟩ := hc.2 t hsys
    exact ⟨Or.inl ⟨hn.symm, hb.symm, h1⟩, by rw [h1]; omega⟩
  | zero => simp at h
  | epipe => simp at h
  | efail => simp at h

theorem recvallLoop_ok : ∀ (fuel : Nat) (s : Socket) (buf : Bytes) (size recved n : Nat)
    (buf' : Bytes) (s' : Socket),
    recvallLoop fuel s buf size recved = .ok (n, buf') s' → ReadInv buf recved →
    n = size ∧ ReadInv buf' n ∧ buf' ++ s'.inbox = buf ++ s.inbox := by
  intro fuel
  induction fuel with
  | zero =>
    intro s buf size recved n buf' s' h hinv
    unfold recvallLoop at h
    by_cases he : recved = size
    · simp only [he, if_true, Res.ok.injEq, Prod.mk.injEq] at h
      obtain ⟨⟨h1, h2⟩, h3⟩ := h
      subst h1 h2 h3 he
      exact ⟨rfl, hinv, rfl⟩
    · simp [he] at h
  | succ fuel ih =>
    intro s buf size recved n buf' s' h hinv
    unfold recvallLoop at h
    by_cases he : recved = size
    · simp only [he, if_true, Res.ok.injEq, Prod.mk.injEq] at h
      obtain ⟨⟨h1, h2⟩, h3⟩ := h
      subst h1 h2 h3 he
      exact ⟨rfl, hinv, rfl⟩
    · simp only [he, if_false] at h
      rcases hr : s.recv buf size with ⟨⟨m, b1⟩, s1⟩ | ⟨e, s1⟩ | _
      · rw [hr] at h
        simp only at h
        obtain ⟨hcase, -⟩ := recv_ok_cases hr
        have hinv1 : ReadInv b1 (recved + m) := by
          rcases hcase with ⟨hm, hb, -⟩ | ⟨tmp, hne, hlen, hb, hm, -⟩
          · subst hm hb
            simpa using hinv
          · have hpos : 0 < tmp.length := List.length_pos.mpr hne
            have hl : b1.length = buf.length + tmp.length := by rw [hb]; simp
            unfold ReadInv at hinv ⊢
            rcases hinv with ⟨h1, h2⟩ | ⟨h1, h2, h3⟩ | ⟨h1, h2⟩
            · subst h1
              simp only [List.length_nil, Nat.zero_add] at hl
              right; left
              refine ⟨by omega, by omega, by omega⟩
            · right; right
              omega
            · right; right
              omega
        obtain ⟨r1, r2, r3⟩ := ih s1 b1 size (recved + m) n buf' s' h hinv1
        refine ⟨r1, r2, ?_⟩
        rw [r3]
        rcases hcase with ⟨-, hb, hi⟩ | ⟨tmp, -, -, hb, -, hi⟩
        · rw [hb, hi]
        · rw [hb, ← hi, List.append_assoc]
      · rw [hr] at h
        simp at h
      · rw [hr] at h
        simp at h

theorem recvallLoop_total : ∀ (fuel : Nat) (s : Socket) (buf : Bytes) (size recved : Nat),
    s.reads.length + s.inbox.length < fuel →
    recvallLoop fuel s buf size recved ≠ .diverge := by
  intro fuel
  induction fuel with
  | zero => intro s buf size recved h; omega
  | succ fuel ih =>
    intro s buf size recved hf
    unfold recvallLoop
    by_cases he : recved = size
    · simp [he]
    · simp only [he, if_false]
      rcases hr : s.recv buf size with ⟨⟨m, b1⟩, s1⟩ | ⟨e, s1⟩ | _
      · simp only
        obtain ⟨-, hlt⟩ := recv_ok_cases hr
        exact ih s1 b1 size (recved + m) (by omega)
      · simp
      · unfold Socket.recv at hr
        split at hr <;> simp at hr

/-- `Socket::recvall` always comes back: with a value or with an exception. -/
theorem recvall_total (s : Socket) (buf : Bytes) (size : Nat) :
    s.recvall buf size ≠ .diverge :=
  recvallLoop_total _ s buf size 0 (by omega)

/-- When `recvall(buf, size)` returns on an empty `buf`, the value is `size`,
the buffer is a prefix of the inbox, and `ReadInv` relates the two. -/
theorem recvall_ok {s s' : Socket} {size n : Nat} {buf' : Bytes}
    (h : s.recvall [] size = .ok (n, buf') s') :
    n = size ∧ ReadInv buf' size ∧ buf' ++ s'.inbox = s.inbox := by
  obtain ⟨h1, h2, h3⟩ := recvallLoop_ok _ s [] size 0 n buf' s' h (Or.inl ⟨rfl, rfl⟩)
  subst h1
  exact ⟨rfl, h2, by simpa using h3⟩

/-- The header buffer holds exactly two bytes whenever `recvall(hdr_buf, 2)` returns. -/
theorem recvall_header_length {s s' : Socket} {n : Nat} {hdr_buf : Bytes}
    (h : s.recvall [] 2 = .ok (n, hdr_buf) s') : hdr_buf.length = 2 := by
  obtain ⟨-, hinv, -⟩ := recvall_ok h
  unfold ReadInv at hinv
  rcases hinv with ⟨-, h2⟩ | ⟨-, -, h3⟩ | ⟨h1, h2⟩
  · omega
  · omega
  · omega

/-- A body of more than 512 bytes never comes back whole: when `recvall`
returns for `size > 512` the buffer holds fewer than `size` bytes. -/
theorem recvall_large_short {s s' : Socket} {size n : Nat} {buf' : Bytes}
    (hsize : buf_size < size) (h : s.recvall [] size = .ok (n, buf') s') :
    buf'.length < size := by
  obtain ⟨-, hinv, -⟩ := recvall_ok h
  unfold ReadInv at hinv
  rcases hinv with ⟨-, h2⟩ | ⟨-, h2, h3⟩ | ⟨-, h2⟩
  · omega
  · omega
  · omega

theorem recvallLoop_exit (fuel : Nat) (s : Socket) (buf : Bytes) (size : Nat) :
    recvallLoop fuel s buf size size = .ok (size, buf) s := by
  cases fuel <;> simp [recvallLoop]

/-- Where the loop of `recvall` is right: on an open socket with no short read
scheduled, a request of at most 512 bytes that the stream holds is served by
one read and returns exactly those bytes. -/
theorem recvall_whole (s : Socket) (x rest : Bytes) (hfd : 0 ≤ s.sockfd)
    (hreads : s.reads = []) (hin : s.inbox = x ++ rest) (hlen : x.length ≤ buf_size) :
    s.recvall [] x.length = .ok (x.length, x) { s with inbox := rest } := by
  obtain ⟨fd, inbox, reads, wire, writes, cf, cl⟩ := s
  simp only at hfd hreads hin
  subst hreads hin
  have hfd' : ¬ fd < 0 := by omega
  cases x with
  | nil => simp [Socket.recvall, recvallLoop]
  | cons b x =>
    have hmin : min buf_size (b :: x).length = (b :: x).length := Nat.min_eq_right hlen
    have htake : List.take (b :: x).length (b :: x ++ rest) = b :: x := by
      rw [List.take_append_eq_append_take]; simp
    have hdrop : List.drop (b :: x).length (b :: x ++ rest) = rest := by
      rw [List.drop_append_eq_append_drop]; simp
    have hrecv : Socket.recv ⟨fd, b :: x ++ rest, [], wire, writes, cf, cl⟩ [] (b :: x).length
        = .ok ((b :: x).length, b :: x) ⟨fd, rest, [], wire, writes, cf, cl⟩ := by
      simp only [Socket.recv, sysRecv, hfd', if_false, hmin, htake, hdrop]
      simp
    unfold Socket.recvall
    simp only [List.length_nil, Nat.zero_add]
    rw [recvallLoop]
    simp only [hrecv, Nat.zero_add, recvallLoop_exit]
    simp

/-- Where `recv_message` is right: a frame whose body has at most 512 bytes,
read without short reads, comes back whole and the stream is left at the next
frame. -/
theorem recv_message_whole (c : Client) (b rest : Bytes) (hfd : 0 ≤ c.sock.sockfd)
    (hreads : c.sock.reads = []) (hin : c.sock.inbox = frame b ++ rest)
    (hlen : b.length ≤ buf_size) :
    c.recv_message = .ok b { c with sock := { c.sock with inbox := rest } } := by
  have hmax : b.length ≤ 65535 := by simp only [buf_size] at hlen; omega
  have h1 := recvall_whole c.sock (htons_bytes b.length) (b ++ rest) hfd hreads
    (by rw [hin, frame, List.append_assoc]) (by simp [htons_bytes, buf_size])
  have h2 := recvall_whole { c.sock with inbox := b ++ rest } b rest hfd hreads rfl hlen
  have hl : (htons_bytes b.length).length = 2 := rfl
  rw [hl] at h1
  unfold Client.recv_message
  simp only [h1, ntohs_htons _ hmax, h2]

/-- One `Socket::send` on a writable socket with bytes left to send: it returns
the number `n` of bytes accepted, exactly those bytes are appended to the wire,
and the loop of `sendall` gets closer to its end. -/
theorem send_writable {s : Socket} {buf : Bytes} {sent : Nat}
    (hw : s.writable) (hlt : sent < buf.length) :
    ∃ n s', s.send buf sent = .ok n s' ∧ sent + n ≤ buf.length ∧
      s'.wire = s.wire ++ (buf.drop sent).take n ∧ s'.writable ∧
      s'.writes.length + (buf.length - (sent + n)) < s.writes.length + (buf.length - sent) := by
  obtain ⟨hfd, hev⟩ := hw
  have hfd' : ¬ s.sockfd < 0 := by omega
  have hdl : (buf.drop sent).length = buf.length - sent := List.length_drop _ _
  have hne : buf.drop sent ≠ [] := by
    intro h; rw [h] at hdl; simp at hdl; omega
  unfold Socket.send sysSend
  simp only [hfd', if_false]
  rcases hr : s.writes with _ | ⟨e, rest⟩
  · simp only [hne, if_false]
    refine ⟨(buf.drop sent).length, _, rfl, by omega, by simp, ⟨hfd, by simp [hr]⟩, ?_⟩
    simp only [hr, List.length_nil]; omega
  · have hrest : ∀ e ∈ rest, e.benign = true := fun e he => hev e (by simp [hr, he])
    have he : e.benign = true := hev e (by simp [hr])
    cases e with
    | xfer k =>
      simp only [SysEvent.benign, decide_eq_true_eq] at he
      have ht : List.take k (buf.drop sent) ≠ [] := by
        intro h
        have := congrArg List.length h
        simp only [List.length_take, List.length_nil] at this
        omega
      simp only [ht, if_false]
      refine ⟨(List.take k (buf.drop sent)).length, _, rfl, ?_, ?_, ⟨hfd, hrest⟩, ?_⟩
      · simp only [List.length_take]; omega
      · show s.wire ++ List.take k (List.drop sent buf) = _
        congr 1
        rw [List.take_eq_take]
        simp only [List.length_take]
        omega
      · simp only [List.length_take, List.length_cons]; omega
    | again =>
      refine ⟨0, _, rfl, by omega, by simp, ⟨hfd, hrest⟩, ?_⟩
      simp only [List.length_cons]; omega
    | epipe => simp [SysEvent.benign] at he
    | fail => simp [SysEvent.benign] at he

theorem sendallLoop_writable : ∀ (fuel : Nat) (s : Socket) (buf : Bytes) (sent : Nat),
    s.writable → sent ≤ buf.length → s.writes.length + (buf.length - sent) < fuel →
    ∃ s', sendallLoop fuel s buf sent = .ok buf.length s' ∧
      s'.wire = s.wire ++ buf.drop sent ∧ s'.writable := by
  intro fuel
  induction fuel with
  | zero => intro s buf sent _ _ h; omega
  | succ fuel ih =>
    intro s buf sent hw hle hf
    unfold sendallLoop
    by_cases he : sent = buf.length
    · subst he
      exact ⟨s, by simp, by simp, hw⟩
    · simp only [he, if_false]
      obtain ⟨n, s1, h1, h2, h3, h4, h5⟩ := send_writable hw (show sent < buf.length by omega)
      rw [h1]
      simp only
      obtain ⟨s2, g1, g2, g3⟩ := ih s1 buf (sent + n) h4 h2 (by omega)
      refine ⟨s2, g1, ?_, g3⟩
      rw [g2, h3, List.append_assoc]
      congr 1
      rw [← List.drop_drop, List.take_append_drop]

/-- `Socket::sendall` on a writable socket appends exactly `buf` to the wire. -/
theorem sendall_writable {s : Socket} (buf : Bytes) (hw : s.writable) :
    ∃ s', s.sendall buf = .ok buf.length s' ∧ s'.wire = s.wire ++ buf ∧ s'.writable := by
  unfold Socket.sendall
  obtain ⟨s', h1, h2, h3⟩ :=
    sendallLoop_writable (s.writes.length + buf.length + 1) s buf 0 hw (by omega) (by omega)
  exact ⟨s', h1, by simpa using h2, h3⟩

/-- One successful `Socket::send` appends to the wire the `n` bytes of `buf`
from `sent` on. -/
theorem send_ok_wire {s s' : Socket} {buf : Bytes} {sent n : Nat}
    (h : s.send buf sent = .ok n s') :
    s'.wire = s.wire ++ (buf.drop sent).take n ∧ n ≤ buf.length - sent := by
  have hdl : (buf.drop sent).length = buf.length - sent := List.length_drop _ _
  unfold Socket.send sysSend at h
  by_cases hfd : s.sockfd < 0
  · simp [hfd] at h
  · simp only [hfd, if_false] at h
    rcases hr : s.writes with _ | ⟨e, rest⟩
    · simp only [hr] at h
      by_cases hd : buf.drop sent = []
      · simp [hd] at h
      · simp only [hd, if_false, Res.ok.injEq] at h
        obtain ⟨hn, hs⟩ := h
        subst hn hs
        exact ⟨by simp, by omega⟩
    · cases e with
      | xfer k =>
        simp only [hr] at h
        by_cases hd : List.take k (buf.drop sent) = []
        · simp [hd] at h
        · simp only [hd, if_false, Res.ok.injEq] at h
          obtain ⟨hn, hs⟩ := h
          subst hn hs
          refine ⟨?_, ?_⟩
          · show s.wire ++ List.take k (List.drop sent buf) = _
            congr 1
            rw [List.take_eq_take]
            simp only [List.length_take]
            omega
          · simp only [List.length_take]; omega
      | again =>
        simp only [hr, Res.ok.injEq] at h
        obtain ⟨hn, hs⟩ := h
        subst hn hs
        exact ⟨by simp, by omega⟩
      | epipe => simp [hr] at h
      | fail => simp [hr] at h

theorem sendallLoop_ok_wire : ∀ (fuel : Nat) (s : Socket) (buf : Bytes) (sent n : Nat)
    (s' : Socket), sendallLoop fuel s buf sent = .ok n s' → sent ≤ buf.length →
    s'.wire = s.wire ++ buf.drop sent := by
  intro fuel
  induction fuel with
  | zero =>
    intro s buf sent n s' h hle
    unfold sendallLoop at h
    by_cases he : sent = buf.length
    · simp only [he, if_true, Res.ok.injEq] at h
      rw [← h.2, he]; simp
    · simp [he] at h
  | succ fuel ih =>
    intro s buf sent n s' h hle
    unfold sendallLoop at h
    by_cases he : sent = buf.length
    · simp only [he, if_true, Res.ok.injEq] at h
      rw [← h.2, he]; simp
    · simp only [he, if_false] at h
      rcases hr : s.send buf sent with ⟨m, s1⟩ | ⟨e, s1⟩ | _
      · rw [hr] at h
        simp only at h
        obtain ⟨hw, hm⟩ := send_ok_wire hr
        rw [ih s1 buf (sent + m) n s' h (by omega), hw, List.append_assoc]
        congr 1
        rw [← List.drop_drop, List.take_append_drop]
      · rw [hr] at h; simp at h
      · rw [hr] at h; simp at h

/-- A `send_message` that returns has put exactly `frame msg` on the wire. -/
theorem send_message_ok_wire {c c' : Client} {msg : Bytes}
    (h : c.send_message msg = .ok () c') :
    c'.sock.wire = c.sock.wire ++ frame msg ∧ msg.length ≤ 65535 := by
  unfold Client.send_message at h
  by_cases hl : msg.length > msg_max_size
  · simp [hl] at h
  · simp only [hl, if_false] at h
    rcases h1 : c.sock.sendall (htons_bytes msg.length) with ⟨n1, s1⟩ | ⟨e, s1⟩ | _
    · rw [h1] at h
      simp only at h
      rcases h2 : s1.sendall msg with ⟨n2, s2⟩ | ⟨e, s2⟩ | _
      · rw [h2] at h
        simp only [Res.ok.injEq, true_and] at h
        subst h
        have w1 := sendallLoop_ok_wire _ _ _ _ _ _ h1 (Nat.zero_le _)
        have w2 := sendallLoop_ok_wire _ _ _ _ _ _ h2 (Nat.zero_le _)
        simp only [List.drop_zero] at w1 w2
        refine ⟨?_, ?_⟩
        · show s2.wire = _
          rw [w2, w1, frame, List.append_assoc]
        · simp only [msg_max_size] at hl; omega
      · rw [h2] at h; simp at h
      · rw [h2] at h; simp at h
    · rw [h1] at h; simp at h
    · rw [h1] at h; simp at h

/-! ## Framing: the claims -/

/-- C1 (round-trip, defect in `Socket::recv` / `Socket::recvall`): a body of more
than 512 bytes is never returned by `Client::recv_message`, whatever the
sizes of the underlying reads: when `send_message b` has succeeded on an
empty wire and the receiving stream holds exactly the bytes it wrote, the call
of `recv_message` does not return `b`. -/
theorem recv_message_large_body_lost (sender sender' c c' : Client) (b : Bytes)
    (hlarge : 512 < b.length)
    (hsend : sender.send_message b = .ok () sender')
    (hwire : sender.sock.wire = [])
    (hin : c.sock.inbox = sender'.sock.wire) :
    c.recv_message ≠ .ok b c' := by
  obtain ⟨hw, hmax⟩ := send_message_ok_wire hsend
  rw [hwire, List.nil_append] at hw
  rw [hw] at hin
  intro h
  unfold Client.recv_message at h
  rcases hh : c.sock.recvall [] 2 with ⟨⟨n, hdr⟩, s1⟩ | ⟨e, s1⟩ | _
  · rw [hh] at h
    simp only at h
    have hlen := recvall_header_length hh
    obtain ⟨-, -, hcons⟩ := recvall_ok hh
    rw [hin, frame] at hcons
    have hhdr : (htons_bytes b.length).length = 2 := rfl
    obtain ⟨h1, h2⟩ := List.append_inj hcons (by rw [hlen, hhdr])
    rw [h1, ntohs_htons _ hmax] at h
    rcases hb : s1.recvall [] b.length with ⟨⟨m, body⟩, s2⟩ | ⟨e, s2⟩ | _
    · rw [hb] at h
      simp only [Res.ok.injEq] at h
      have := recvall_large_short (by simpa [buf_size] using hlarge) hb
      rw [h.1] at this
      omega
    · rw [hb] at h; simp at h
    · rw [hb] at h; simp at h
  · rw [hh] at h; simp at h
  · rw [hh] at h; simp at h

set_option maxRecDepth 100000 in
/-- C1 at a body of 513 bytes: `send_message` writes 02 01 and the body; read
back with reads as large as `recv` asks for, `recv_message` ends in the
"socket has been closed" exception. -/
theorem recv_message_large_body_lost_witness :
    ({ sock := { sockfd := 4 } } : Client).send_message (List.replicate 513 7)
        = .ok () { sock := { sockfd := 4, wire := 0x02 :: 0x01 :: List.replicate 513 7 } } ∧
    (clientOn (0x02 :: 0x01 :: List.replicate 513 7) []).recv_message
        = .throw .sock_closed (clientOn [] []) ∧
    ∀ c', (clientOn (0x02 :: 0x01 :: List.replicate 513 7) []).recv_message
        ≠ .ok (List.replicate 513 7) c' :=
  ⟨by decide, by decide,
   fun c' => recv_message_large_body_lost { sock := { sockfd := 4 } }
      { sock := { sockfd := 4, wire := 0x02 :: 0x01 :: List.replicate 513 7 } }
      (clientOn (0x02 :: 0x01 :: List.replicate 513 7) []) c' (List.replicate 513 7)
      (by rw [List.length_replicate]; decide) (by decide) rfl rfl⟩

/-- C2 (encode contract of `Client::send_message`): for a body of at most 65535
bytes, on an open socket whose writes do not fail, the call succeeds and the
bytes put on the wire are the two length bytes `|body| div 256`, `|body| mod 256`
followed by the body unchanged; for a longer body the call throws the
`ClientException` and the client, its wire included, is left as it was. -/
theorem send_message_contract (c : Client) (body : Bytes) :
    (body.length ≤ 65535 → c.sock.writable →
      ∃ (c' : Client) (hi lo : Byte), c.send_message body = .ok () c' ∧
        hi.val = body.length / 256 ∧ lo.val = body.length % 256 ∧
        c'.sock.wire = c.sock.wire ++ hi :: lo :: body) ∧
    (65535 < body.length → c.send_message body = .throw .client_too_long c) := by
  constructor
  · intro hlen hw
    obtain ⟨s1, h1, w1, hw1⟩ := sendall_writable (htons_bytes body.length) hw
    obtain ⟨s2, h2, w2, -⟩ := sendall_writable body hw1
    refine ⟨{ c with sock := s2 }, Fin.ofNat ((body.length % 65536) / 256),
      Fin.ofNat ((body.length % 65536) % 256), ?_, ?_, ?_, ?_⟩
    · unfold Client.send_message
      have : ¬ body.length > msg_max_size := by simp only [msg_max_size]; omega
      simp only [this, if_false, h1, h2]
    · simp only [Fin.ofNat]; omega
    · simp only [Fin.ofNat]; omega
    · simp only [w2, w1, htons_bytes, List.append_assoc, List.cons_append, List.nil_append]
  · intro hlen
    unfold Client.send_message
    have : body.length > msg_max_size := by simp only [msg_max_size]; omega
    simp only [this, if_true]

/-- C2 at the body "hi", written as `00 02 68 69`, and at a body of 65536 bytes. -/
theorem send_message_contract_witness :
    (({ sock := { sockfd := 5 } } : Client).send_message [0x68, 0x69]
        = .ok () { sock := { sockfd := 5, wire := [0x00, 0x02, 0x68, 0x69] } }) ∧
    (∃ (c' : Client) (hi lo : Byte),
        ({ sock := { sockfd := 5, writes := [.xfer 1, .again, .xfer 2] } } : Client).send_message
          [0x68, 0x69] = .ok () c' ∧
        hi.val = 0 ∧ lo.val = 2 ∧ c'.sock.wire = [] ++ hi :: lo :: [0x68, 0x69]) ∧
    (({ sock := { sockfd := 5 } } : Client).send_message (List.replicate 65536 0)
        = .throw .client_too_long { sock := { sockfd := 5 } }) :=
  ⟨by decide,
   (send_message_contract { sock := { sockfd := 5, writes := [.xfer 1, .again, .xfer 2] } }
      [0x68, 0x69]).1 (by decide) (by decide),
   (send_message_contract { sock := { sockfd := 5 } } (List.replicate 65536 0)).2
      (by rw [List.length_replicate]; decide)⟩

set_option maxRecDepth 100000 in
/-- C3 (frame boundary, same defect as C1): `send_message` of "abc" and of "de"
writes 00 03 61 62 63 00 02 64 65; the stream arrives with the three body bytes
of the first frame split over two reads. The first `recv_message` returns "ab"
and leaves the byte "c" of the first frame in the stream, where the second call
takes it for a header byte and ends in an exception. With a first body of 513
bytes and reads as large as asked for, the read of the first body takes every
byte of the second frame and then throws. -/
theorem recv_messages_boundary_broken :
    send_messages [[0x61, 0x62, 0x63], [0x64, 0x65]] { sock := { sockfd := 4 } }
      = .ok () { sock := { sockfd := 4,
                           wire := [0x00, 0x03, 0x61, 0x62, 0x63, 0x00, 0x02, 0x64, 0x65] } } ∧
    recv_messages 1 (clientOn [0x00, 0x03, 0x61, 0x62, 0x63, 0x00, 0x02, 0x64, 0x65]
        [.xfer 2, .xfer 1, .xfer 1])
      = .ok [[0x61, 0x62]] (clientOn [0x63, 0x00, 0x02, 0x64, 0x65] []) ∧
    recv_messages 2 (clientOn [0x00, 0x03, 0x61, 0x62, 0x63, 0x00, 0x02, 0x64, 0x65]
        [.xfer 2, .xfer 1, .xfer 1])
      = .throw .sock_closed (clientOn [] []) ∧
    send_messages [List.replicate 513 7, [0x64, 0x65]] { sock := { sockfd := 4 } }
      = .ok () { sock :=
          { sockfd := 4,
            wire := 0x02 :: 0x01 :: (List.replicate 513 7 ++ [0x00, 0x02, 0x64, 0x65]) } } ∧
    recv_messages 2
        (clientOn (0x02 :: 0x01 :: (List.replicate 513 7 ++ [0x00, 0x02, 0x64, 0x65])) [])
      = .throw .sock_closed (clientOn [] []) := by
  decide

/-- C4 (short reads, defect in `Socket::recv` / `Socket::recvall`): asked for 3
bytes of the stream "abc" that arrive one byte per read, `recvall` returns the
value 3 after the second read, with a buffer that holds only "ab"; the byte
"c" is still in the stream. -/
theorem recvall_short_reads_truncate :
    ({ sockfd := 5, inbox := [0x61, 0x62, 0x63], reads := [.xfer 1, .xfer 1, .xfer 1] }
        : Socket).recvall [] 3
      = .ok (3, [0x61, 0x62]) { sockfd := 5, inbox := [0x63], reads := [.xfer 1] } := by
  decide

set_option maxRecDepth 100000 in
/-- C5 (mid-frame end of stream, same defect as C4): the header announces 3 body
bytes, only "ab" arrives (one byte per read) and the stream ends; `recv_message`
returns the body "ab" and throws nothing. With reads as large as asked for, a
header announcing 1025 bytes followed by 513 bytes and the end of the stream
gives a body of 513 bytes. -/
theorem recv_message_truncated_body :
    (clientOn [0x00, 0x03, 0x61, 0x62] [.xfer 2, .xfer 1, .xfer 1]).recv_message
      = .ok [0x61, 0x62] (clientOn [] []) ∧
    (clientOn ([0x04, 0x01] ++ List.replicate 513 7) []).recv_message
      = .ok (List.replicate 513 7) (clientOn [] []) := by
  decide

/-! ## `concurrent::Queue`: supporting lemmas and claims -/

/-- One call on a queue whose counter equals its size: a push appends, a pop
on a non-empty queue takes the front, a `try_pop` on an empty queue does
nothing, a `wait_pop` on an empty queue waits; the counter follows the size. -/
theorem Queue.step_spec {α : Type} (q : Queue α) (op : QOp α)
    (hq : q.event_counter = q.data_queue.length) :
    (noWaitOnEmpty [op] q.data_queue.length = true →
      ∃ r q', q.step op = .done r q' ∧ q'.event_counter = q'.data_queue.length ∧
        r.toList ++ q'.data_queue = q.data_queue ++ pushed [op] ∧
        ∀ ops, noWaitOnEmpty (op :: ops) q.data_queue.length
          = noWaitOnEmpty ops q'.data_queue.length) ∧
    (noWaitOnEmpty [op] q.data_queue.length = false → q.step op = .blocks .data_cond) := by
  obtain ⟨dq, ec⟩ := q
  simp only at hq
  subst hq
  cases op with
  | push v =>
    refine ⟨fun _ => ⟨none, _, rfl, ?_, ?_, ?_⟩, ?_⟩
    · simp [Queue.push, Queue.increment_event_counter]
    · simp [Queue.push, Queue.increment_event_counter, pushed]
    · intro ops; simp [Queue.push, Queue.increment_event_counter, noWaitOnEmpty]
    · simp [noWaitOnEmpty]
  | try_pop dst =>
    cases dq with
    | nil =>
      refine ⟨fun _ => ⟨none, _, rfl, rfl, ?_, ?_⟩, ?_⟩
      · simp [pushed]
      · intro ops; simp [noWaitOnEmpty]
      · simp [noWaitOnEmpty]
    | cons x rest =>
      refine ⟨fun _ => ⟨some x, ⟨rest, rest.length⟩, ?_, rfl, ?_, ?_⟩, ?_⟩
      · simp [Queue.step, Queue.try_pop, Queue.decrement_event_counter]
      · simp [pushed]
      · intro ops; simp [noWaitOnEmpty]
      · simp [noWaitOnEmpty]
  | try_pop_ptr =>
    cases dq with
    | nil =>
      refine ⟨fun _ => ⟨none, _, rfl, rfl, ?_, ?_⟩, ?_⟩
      · simp [pushed]
      · intro ops; simp [noWaitOnEmpty]
      · simp [noWaitOnEmpty]
    | cons x rest =>
      refine ⟨fun _ => ⟨some x, ⟨rest, rest.length⟩, ?_, rfl, ?_, ?_⟩, ?_⟩
      · simp [Queue.step, Queue.try_pop_ptr, Queue.decrement_event_counter]
      · simp [pushed]
      · intro ops; simp [noWaitOnEmpty]
      · simp [noWaitOnEmpty]
  | wait_pop dst =>
    cases dq with
    | nil =>
      refine ⟨?_, fun _ => rfl⟩
      simp [noWaitOnEmpty]
    | cons x rest =>
      refine ⟨fun _ => ⟨some x, ⟨rest, rest.length⟩, ?_, rfl, ?_, ?_⟩, ?_⟩
      · simp [Queue.step, Queue.wait_pop, Queue.decrement_event_counter]
      · simp [pushed]
      · intro ops; simp [noWaitOnEmpty]
      · simp [noWaitOnEmpty]
  | wait_pop_ptr =>
    cases dq with
    | nil =>
      refine ⟨?_, fun _ => rfl⟩
      simp [noWaitOnEmpty]
    | cons x rest =>
      refine ⟨fun _ => ⟨some x, ⟨rest, rest.length⟩, ?_, rfl, ?_, ?_⟩, ?_⟩
      · simp [Queue.step, Queue.wait_pop_ptr, Queue.decrement_event_counter]
      · simp [pushed]
      · intro ops; simp [noWaitOnEmpty]
      · simp [noWaitOnEmpty]

theorem pushed_cons {α : Type} (op : QOp α) (ops : List (QOp α)) :
    pushed (op :: ops) = pushed [op] ++ pushed ops := by
  cases op <;> simp [pushed]

/-- A sequence of calls on a queue whose counter equals its size: unless a
`wait_pop` meets an empty queue, the run ends, the counter equals the size
again, and the items popped followed by the items left are the items held at
the start followed by the items pushed. -/
theorem Queue.run_spec {α : Type} (ops : List (QOp α)) :
    ∀ q : Queue α, q.event_counter = q.data_queue.length →
    (noWaitOnEmpty ops q.data_queue.length = true →
      ∃ out q', q.run ops = .done out q' ∧ q'.event_counter = q'.data_queue.length ∧
        out ++ q'.data_queue = q.data_queue ++ pushed ops) ∧
    (noWaitOnEmpty ops q.data_queue.length = false → q.run ops = .blocks .data_cond) := by
  induction ops with
  | nil =>
    intro q hq
    exact ⟨fun _ => ⟨[], q, rfl, hq, by simp [pushed]⟩, by simp [noWaitOnEmpty]⟩
  | cons op ops ih =>
    intro q hq
    obtain ⟨hstep, hblock⟩ := Queue.step_spec q op hq
    by_cases h1 : noWaitOnEmpty [op] q.data_queue.length = true
    · obtain ⟨r, q1, e1, e2, e3, e4⟩ := hstep h1
      obtain ⟨ihok, ihblock⟩ := ih q1 e2
      constructor
      · intro hadm
        rw [e4 ops] at hadm
        obtain ⟨out, q2, f1, f2, f3⟩ := ihok hadm
        refine ⟨r.toList ++ out, q2, ?_, f2, ?_⟩
        · simp only [Queue.run, e1, f1]
        · rw [List.append_assoc, f3, ← List.append_assoc, e3, pushed_cons op ops,
            List.append_assoc]
      · intro hadm
        rw [e4 ops] at hadm
        simp only [Queue.run, e1, ihblock hadm]
    · have h1' : noWaitOnEmpty [op] q.data_queue.length = false := by simpa using h1
      have hb := hblock h1'
      have hfalse : noWaitOnEmpty (op :: ops) q.data_queue.length = false := by
        cases op <;> simp_all [noWaitOnEmpty]
      constructor
      · intro hadm; rw [hfalse] at hadm; exact absurd hadm (by simp)
      · intro _; simp only [Queue.run, hb]

/-- C6 (queue semaphore invariant): start from the empty queue with counter 0 and
make any sequence of calls in which no `wait_pop` meets an empty queue. The
run ends; afterwards the eventfd counter equals `size()`; with `k` items pushed
and `j` items popped, `j ≤ k` and `size() = k - j`; the notify descriptor is
readable when `j < k` and not readable when `j = k`. A sequence in which a
`wait_pop` meets the empty queue waits on the condition variable, never on the
eventfd. A `try_pop` (either form) on an empty queue returns false / null and
changes neither the items nor the counter. -/
theorem queue_counter_equals_size {α : Type} (ops : List (QOp α)) :
    (noWaitOnEmpty ops 0 = true →
      ∃ (out : List α) (q : Queue α), Queue.run {} ops = .done out q ∧
        q.event_counter = q.size ∧
        out.length ≤ (pushed ops).length ∧
        q.size = (pushed ops).length - out.length ∧
        (out.length < (pushed ops).length → q.readable) ∧
        (out.length = (pushed ops).length → ¬ q.readable)) ∧
    (noWaitOnEmpty ops 0 = false → Queue.run ({} : Queue α) ops = .blocks .data_cond) ∧
    (∀ (n : Nat) (dst : α),
      Queue.try_pop { data_queue := [], event_counter := n } dst
        = .done (false, dst) { data_queue := [], event_counter := n } ∧
      Queue.try_pop_ptr ({ data_queue := [], event_counter := n } : Queue α)
        = .done none { data_queue := [], event_counter := n }) := by
  obtain ⟨hok, hblock⟩ := Queue.run_spec ops ({} : Queue α) rfl
  refine ⟨?_, hblock, fun n dst => ⟨rfl, rfl⟩⟩
  intro hadm
  obtain ⟨out, q, h1, h2, h3⟩ := hok hadm
  have hlen : out.length + q.data_queue.length = (pushed ops).length := by
    have := congrArg List.length h3
    simpa using this
  refine ⟨out, q, h1, h2, by omega, ?_, ?_, ?_⟩
  · simp only [Queue.size]; omega
  · intro h; simp only [Queue.readable]; omega
  · intro h; simp only [Queue.readable]; omega

/-- C6 on three pushes interleaved with pops of every form, and on a failed pop. -/
theorem queue_counter_equals_size_witness :
    (∃ (out : List Nat) (q : Queue Nat),
      Queue.run {} [.push 11, .push 12, .try_pop 0, .try_pop_ptr, .try_pop 7, .push 13] = .done out q ∧
        q.event_counter = q.size ∧
        out.length ≤ (pushed [QOp.push 11, .push 12, .try_pop 0, .try_pop_ptr, .try_pop 7,
          .push 13]).length ∧
        q.size = (pushed [QOp.push 11, .push 12, .try_pop 0, .try_pop_ptr, .try_pop 7,
          .push 13]).length - out.length ∧
        (out.length < (pushed [QOp.push 11, .push 12, .try_pop 0, .try_pop_ptr, .try_pop 7,
          .push 13]).length → q.readable) ∧
        (out.length = (pushed [QOp.push 11, .push 12, .try_pop 0, .try_pop_ptr, .try_pop 7,
          .push 13]).length → ¬ q.readable)) ∧
    Queue.run {} [.push 11, .push 12, .try_pop 0, .try_pop_ptr, .try_pop 7, .push 13]
      = .done [11, 12] { data_queue := [13], event_counter := 1 } ∧
    Queue.run ({} : Queue Nat) [.push 11, .wait_pop 0, .wait_pop_ptr] = .blocks .data_cond :=
  ⟨(queue_counter_equals_size
      [.push 11, .push 12, .try_pop 0, .try_pop_ptr, .try_pop 7, .push 13]).1 (by decide),
   by decide,
   (queue_counter_equals_size [.push 11, .wait_pop 0, .wait_pop_ptr]).2.1 (by decide)⟩

/-- C7 (queue FIFO): for any sequence of calls on an initially empty queue in
which no `wait_pop` meets an empty queue, the run ends and the items returned
by the successful pops (of all four forms), in the order of the pops, followed
by the items still queued, are exactly the items pushed, in the order of the
pushes: each pushed item comes out once, in push order. A `try_pop` on an
empty queue returns false and leaves `dst` as it was; the pointer form returns
null. -/
theorem queue_fifo {α : Type} (ops : List (QOp α)) :
    (noWaitOnEmpty ops 0 = true →
      ∃ (out : List α) (q : Queue α), Queue.run {} ops = .done out q ∧
        out ++ q.data_queue = pushed ops) ∧
    (∀ (q : Queue α) (dst : α), q.data_queue = [] →
      q.try_pop dst = .done (false, dst) q ∧ q.try_pop_ptr = .done none q) := by
  obtain ⟨hok, -⟩ := Queue.run_spec ops ({} : Queue α) rfl
  constructor
  · intro hadm
    obtain ⟨out, q, h1, -, h3⟩ := hok hadm
    exact ⟨out, q, h1, by simpa using h3⟩
  · intro q dst hq
    obtain ⟨dq, ec⟩ := q
    simp only at hq
    subst hq
    exact ⟨rfl, rfl⟩

/-- C7 on four pushes and one pop of each form, and on a failed `try_pop`. -/
theorem queue_fifo_witness :
    (∃ (out : List Nat) (q : Queue Nat),
      Queue.run {} [.push 11, .push 12, .wait_pop 0, .push 13, .try_pop_ptr, .wait_pop_ptr,
          .push 14, .try_pop 0, .try_pop 5] = .done out q ∧
        out ++ q.data_queue = pushed [QOp.push 11, .push 12, .wait_pop 0, .push 13,
          .try_pop_ptr, .wait_pop_ptr, .push 14, .try_pop 0, .try_pop 5]) ∧
    Queue.run {} [.push 11, .push 12, .wait_pop 0, .push 13, .try_pop_ptr, .wait_pop_ptr,
        .push 14, .try_pop 0, .try_pop 5]
      = .done [11, 12, 13, 14] { data_queue := [], event_counter := 0 } ∧
    (Queue.try_pop ({} : Queue Nat) 5 = .done (false, 5) {} ∧
      Queue.try_pop_ptr ({} : Queue Nat) = .done none {}) :=
  ⟨(queue_fifo [.push 11, .push 12, .wait_pop 0, .push 13, .try_pop_ptr, .wait_pop_ptr,
      .push 14, .try_pop 0, .try_pop 5]).1 (by decide),
   by decide,
   (queue_fifo ([] : List (QOp Nat))).2 {} 5 rfl⟩

/-! ## The message processor: supporting lemmas and claims -/

theorem on_send_loop_spec : ∀ (clients : List (Bytes × ClientPtr)) (m resp : Message),
    (∀ p ∈ clients, p.2 ≠ none) →
    on_send_loop clients m resp
      = some { resp with dsts := resp.dsts ++ onlineOthers clients m.src } := by
  intro clients
  induction clients with
  | nil => intro m resp _; simp [on_send_loop, onlineOthers]
  | cons p rest ih =>
    intro m resp hnn
    obtain ⟨nick, cp⟩ := p
    have hrest : ∀ p ∈ rest, p.2 ≠ none := fun p hp => hnn p (List.mem_cons_of_mem _ hp)
    have hcp : cp ≠ none := hnn (nick, cp) (List.mem_cons_self _ _)
    cases cp with
    | none => exact absurd rfl hcp
    | some c =>
      unfold on_send_loop
      by_cases hn : nick = m.src
      · simp only [hn, ne_eq, not_true_eq_false, if_false]
        rw [ih m resp hrest]
        simp [onlineOthers, List.filter_cons]
      · simp only [ne_eq, hn, not_false_eq_true, if_true]
        by_cases hs : c.status = .ONLINE
        · simp only [hs, if_true]
          rw [ih m _ hrest]
          simp [onlineOthers, List.filter_cons, hn, isOnline, hs, Message.add_destination]
        · simp only [hs, if_false]
          rw [ih m resp hrest]
          simp [onlineOthers, List.filter_cons, hn, isOnline, hs]

/-- What `on_send` does on a registry without null entries: it pushes one
message, with text `src ++ ": " ++ msg`, source `src` and the destinations
`onlineOthers`. -/
theorem on_send_spec (srv : ChatServer) (m : Message) (hnn : srv.noNull) :
    srv.on_send m = .done { srv with out_queue := srv.out_queue.push (some
      { msg := m.src ++ ascii ": " ++ m.msg, src := m.src,
        dsts := onlineOthers srv.clients m.src }) } := by
  unfold ChatServer.on_send
  simp only [on_send_loop_spec srv.clients m _ hnn, List.nil_append]

theorem mem_onlineOthers (clients : List (Bytes × ClientPtr)) (src n : Bytes) :
    n ∈ onlineOthers clients src ↔
      n ≠ src ∧ ∃ c : Client, (n, some c) ∈ clients ∧ c.status = .ONLINE := by
  unfold onlineOthers
  simp only [List.mem_map, List.mem_filter, Bool.and_eq_true, decide_eq_true_eq, Prod.exists]
  constructor
  · rintro ⟨a, cp, ⟨hmem, hne, hon⟩, rfl⟩
    cases cp with
    | none => simp [isOnline] at hon
    | some c =>
      simp only [isOnline, decide_eq_true_eq] at hon
      exact ⟨hne, c, hmem, hon⟩
  · rintro ⟨hne, c, hmem, hon⟩
    exact ⟨n, some c, ⟨hmem, hne, by simp [isOnline, hon]⟩, rfl⟩

theorem onlineOthers_sublist (clients : List (Bytes × ClientPtr)) (src : Bytes) :
    (onlineOthers clients src).Sublist (clients.map Prod.fst) :=
  (List.filter_sublist _).map _

theorem get_status_list_loop_some : ∀ (clients : List (Bytes × ClientPtr)) (out : Bytes),
    (∀ p ∈ clients, p.2 ≠ none) → ∃ text, get_status_list_loop clients out = some text := by
  intro clients
  induction clients with
  | nil => intro out _; exact ⟨out, rfl⟩
  | cons p rest ih =>
    intro out hnn
    obtain ⟨nick, cp⟩ := p
    have hrest : ∀ p ∈ rest, p.2 ≠ none := fun p hp => hnn p (List.mem_cons_of_mem _ hp)
    have hcp : cp ≠ none := hnn (nick, cp) (List.mem_cons_self _ _)
    cases cp with
    | none => exact absurd rfl hcp
    | some c =>
      unfold get_status_list_loop
      exact ih _ hrest

/-- C8 (broadcast destinations, no self-echo): for every registry without null
entries and every envelope, `on_send` pushes exactly one envelope to
`out_queue`; a nick is among its destinations if and only if it differs from
the source and is registered with a Connection whose status is ONLINE; the
destinations follow the iteration order of the registry, each nick once when
the keys of the registry are distinct; the source is not among them. -/
theorem on_send_destinations (srv : ChatServer) (m : Message) (hnn : srv.noNull) :
    ∃ resp : Message,
      srv.on_send m = .done { srv with out_queue :=
        { data_queue := srv.out_queue.data_queue ++ [some resp],
          event_counter := srv.out_queue.event_counter + 1 } } ∧
      (∀ n : Bytes, n ∈ resp.dsts ↔
        n ≠ m.src ∧ ∃ c : Client, (n, some c) ∈ srv.clients ∧ c.status = .ONLINE) ∧
      resp.dsts.Sublist srv.nicks ∧
      (srv.nicks.Nodup → resp.dsts.Nodup) ∧
      m.src ∉ resp.dsts := by
  refine ⟨_, on_send_spec srv m hnn, ?_, ?_, ?_, ?_⟩
  · intro n; exact mem_onlineOthers srv.clients m.src n
  · exact onlineOthers_sublist srv.clients m.src
  · intro hnd; exact (onlineOthers_sublist srv.clients m.src).nodup hnd
  · intro h
    exact ((mem_onlineOthers srv.clients m.src m.src).1 h).1 rfl

/-- C8 with alice and bob ONLINE and carol OFFLINE: a message of alice goes to bob only. -/
theorem on_send_destinations_witness :
    (∃ resp : Message,
      (sampleServer []).on_send { msg := ascii "hi", src := ascii "alice" }
        = .done { sampleServer [] with out_queue :=
            { data_queue := (sampleServer []).out_queue.data_queue ++ [some resp],
              event_counter := (sampleServer []).out_queue.event_counter + 1 } } ∧
      (∀ n : Bytes, n ∈ resp.dsts ↔
        n ≠ (⟨ascii "hi", ascii "alice", []⟩ : Message).src ∧
          ∃ c : Client, (n, some c) ∈ (sampleServer []).clients ∧ c.status = .ONLINE) ∧
      resp.dsts.Sublist (sampleServer []).nicks ∧
      ((sampleServer []).nicks.Nodup → resp.dsts.Nodup) ∧
      (⟨ascii "hi", ascii "alice", []⟩ : Message).src ∉ resp.dsts) ∧
    (sampleServer []).on_send { msg := ascii "hi", src := ascii "alice" }
      = .done { sampleServer [] with out_queue :=
          { data_queue := [some { msg := ascii "alice: hi", src := ascii "alice",
                                  dsts := [ascii "bob"] }],
            event_counter := 1 } } :=
  ⟨on_send_destinations (sampleServer []) { msg := ascii "hi", src := ascii "alice" }
      (by decide),
   by decide⟩

/-- C9 (broadcast body format): for every registry without null entries, every
source nick `s` and every body `m`, the empty body included, the envelope
`on_send` pushes to `out_queue` has the text `s ++ ": " ++ m`, that is `s`, the
bytes 3A 20 and `m`, of `|s| + 2 + |m|` bytes, and the source `s`. -/
theorem on_send_body (srv : ChatServer) (m : Message) (hnn : srv.noNull) :
    ∃ resp : Message,
      srv.on_send m = .done { srv with out_queue :=
        { data_queue := srv.out_queue.data_queue ++ [some resp],
          event_counter := srv.out_queue.event_counter + 1 } } ∧
      resp.msg = m.src ++ [0x3A, 0x20] ++ m.msg ∧
      resp.msg.length = m.src.length + 2 + m.msg.length ∧
      resp.src = m.src := by
  refine ⟨_, on_send_spec srv m hnn, ?_, ?_, rfl⟩
  · have : ascii ": " = [0x3A, 0x20] := by decide
    simp only [this]
  · have : ascii ": " = [0x3A, 0x20] := by decide
    simp only [this, List.length_append, List.length_cons, List.length_nil]

/-- C9 for alice sending "hi" (text "alice: hi", 9 bytes) and sending the empty
body (text "alice: ", 7 bytes). -/
theorem on_send_body_witness :
    (∃ resp : Message,
      (sampleServer []).on_send { msg := ascii "hi", src := ascii "alice" }
        = .done { sampleServer [] with out_queue :=
            { data_queue := (sampleServer []).out_queue.data_queue ++ [some resp],
              event_counter := (sampleServer []).out_queue.event_counter + 1 } } ∧
      resp.msg = ascii "alice" ++ [0x3A, 0x20] ++ ascii "hi" ∧
      resp.msg.length = (ascii "alice").length + 2 + (ascii "hi").length ∧
      resp.src = ascii "alice") ∧
    (sampleServer []).on_send { msg := ascii "hi", src := ascii "alice" }
      = .done { sampleServer [] with out_queue :=
          { data_queue := [some { msg := [0x61, 0x6C, 0x69, 0x63, 0x65, 0x3A, 0x20, 0x68, 0x69],
                                  src := ascii "alice", dsts := [ascii "bob"] }],
            event_counter := 1 } } ∧
    (sampleServer []).on_send { msg := [], src := ascii "alice" }
      = .done { sampleServer [] with out_queue :=
          { data_queue := [some { msg := [0x61, 0x6C, 0x69, 0x63, 0x65, 0x3A, 0x20],
                                  src := ascii "alice", dsts := [ascii "bob"] }],
            event_counter := 1 } } :=
  ⟨on_send_body (sampleServer []) { msg := ascii "hi", src := ascii "alice" } (by decide),
   by decide, by decide⟩

theorem get_status_list_loop_eq : ∀ (clients : List (Bytes × ClientPtr)) (out : Bytes),
    (∀ p ∈ clients, p.2 ≠ none) →
    get_status_list_loop clients out = some (out ++ status_listing clients) := by
  intro clients
  induction clients with
  | nil => intro out _; simp [get_status_list_loop, status_listing]
  | cons p rest ih =>
    intro out hnn
    obtain ⟨nick, cp⟩ := p
    have hrest : ∀ p ∈ rest, p.2 ≠ none := fun p hp => hnn p (List.mem_cons_of_mem _ hp)
    have hcp : cp ≠ none := hnn (nick, cp) (List.mem_cons_self _ _)
    cases cp with
    | none => exact absurd rfl hcp
    | some c =>
      unfold get_status_list_loop
      rw [ih _ hrest]
      have h1 : ascii ": " = [0x3A, 0x20] := by decide
      have h2 : ascii "\n" = [0x0A] := by decide
      cases hs : c.status <;>
        simp [status_listing, status_line, setw_left, status_str, hs, h1, h2]

/-- C11 (status listing format): for every registry without null entries,
`get_status_list` returns the concatenation, over the entries in iteration
order, of one line per entry: the nick, then spaces up to 10 characters (a
nick of up to 10 characters is padded to exactly 10, a longer one is written
whole), then ": ", then "online" for ONLINE and "offline" for OFFLINE, then a
newline. -/
theorem get_status_list_format (srv : ChatServer) (hnn : srv.noNull) :
    srv.get_status_list = some (status_listing srv.clients) ∧
    (∀ (nick : Bytes) (client : Client) (rest : List (Bytes × ClientPtr)),
      status_listing ((nick, some client) :: rest)
        = nick ++ List.replicate (10 - nick.length) 0x20 ++ ascii ": "
          ++ (if client.status = .ONLINE then ascii "online" else ascii "offline")
          ++ ascii "\n" ++ status_listing rest) ∧
    (∀ nick : Bytes, nick.length ≤ 10 →
      (nick ++ List.replicate (10 - nick.length) (0x20 : Byte)).length = 10) := by
  refine ⟨?_, ?_, ?_⟩
  · have := get_status_list_loop_eq srv.clients [] hnn
    simpa [ChatServer.get_status_list] using this
  · intro nick client rest
    have h1 : ascii ": " = [0x3A, 0x20] := by decide
    have h2 : ascii "\n" = [0x0A] := by decide
    cases hs : client.status <;> simp [status_listing, status_line, hs, h1, h2]
  · intro nick hlen
    simp only [List.length_append, List.length_replicate]
    omega

/-- C11 with alice and bob both ONLINE: the lines are "alice     : online\n" and
"bob       : online\n". -/
theorem get_status_list_format_witness :
    (ChatServer.get_status_list { clients := [onlineClient "alice" 5, onlineClient "bob" 6] }
        = some (status_listing [onlineClient "alice" 5, onlineClient "bob" 6]) ∧
      (∀ (nick : Bytes) (client : Client) (rest : List (Bytes × ClientPtr)),
        status_listing ((nick, some client) :: rest)
          = nick ++ List.replicate (10 - nick.length) 0x20 ++ ascii ": "
            ++ (if client.status = .ONLINE then ascii "online" else ascii "offline")
            ++ ascii "\n" ++ status_listing rest) ∧
      (∀ nick : Bytes, nick.length ≤ 10 →
        (nick ++ List.replicate (10 - nick.length) (0x20 : Byte)).length = 10)) ∧
    ChatServer.get_status_list { clients := [onlineClient "alice" 5, onlineClient "bob" 6] }
      = some (ascii "alice     : online\nbob       : online\n") ∧
    ChatServer.get_status_list
        { clients := [onlineClient "a-nick-of-17-char" 5, offlineClient "carol"] }
      = some (ascii "a-nick-of-17-char: online\ncarol     : offline\n") :=
  ⟨get_status_list_format { clients := [onlineClient "alice" 5, onlineClient "bob" 6] }
      (by decide),
   by decide, by decide⟩

/-! ## Connections: supporting lemmas -/

theorem OnlyOut.out_refl (s : Socket) : OnlyOut s s := by
  cases s; rfl

theorem OnlyOut.out_trans {a b c : Socket} (h1 : OnlyOut a b) (h2 : OnlyOut b c) : OnlyOut a c := by
  unfold OnlyOut at *
  rw [h2, h1]

theorem sysSend_onlyOut (s : Socket) (data : Bytes) : OnlyOut s (sysSend s data).2 := by
  unfold sysSend
  by_cases hfd : s.sockfd < 0
  · simp only [hfd, if_true]; exact OnlyOut.out_refl s
  · simp only [hfd, if_false]
    rcases hr : s.writes with _ | ⟨e, rest⟩
    · simp only [OnlyOut]
    · cases e <;> simp only [OnlyOut]

theorem send_onlyOut {s : Socket} {buf : Bytes} {sent : Nat} :
    ∀ s' ∈ (s.send buf sent).state?, OnlyOut s s' := by
  intro s' hs'
  have h := sysSend_onlyOut s (buf.drop sent)
  unfold Socket.send at hs'
  rcases hsys : sysSend s (buf.drop sent) with ⟨r, t⟩
  rw [hsys] at hs' h
  cases r <;> simp only [Res.state?, Option.mem_def, Option.some.injEq] at hs' <;>
    (subst hs'; exact h)

theorem sendallLoop_onlyOut : ∀ (fuel : Nat) (s : Socket) (buf : Bytes) (sent : Nat),
    ∀ s' ∈ (sendallLoop fuel s buf sent).state?, OnlyOut s s' := by
  intro fuel
  induction fuel with
  | zero =>
    intro s buf sent s' hs'
    unfold sendallLoop at hs'
    by_cases he : sent = buf.length
    · simp only [he, if_true, Res.state?, Option.mem_def, Option.some.injEq] at hs'
      subst hs'; exact OnlyOut.out_refl s
    · simp [he, Res.state?] at hs'
  | succ fuel ih =>
    intro s buf sent s' hs'
    unfold sendallLoop at hs'
    by_cases he : sent = buf.length
    · simp only [he, if_true, Res.state?, Option.mem_def, Option.some.injEq] at hs'
      subst hs'; exact OnlyOut.out_refl s
    · simp only [he, if_false] at hs'
      rcases hr : s.send buf sent with ⟨m, s1⟩ | ⟨e, s1⟩ | _
      · rw [hr] at hs'
        simp only at hs'
        have h1 : OnlyOut s s1 := send_onlyOut s1 (by rw [hr]; rfl)
        exact h1.out_trans (ih s1 buf (sent + m) s' hs')
      · rw [hr] at hs'
        simp only [Res.state?, Option.mem_def, Option.some.injEq] at hs'
        subst hs'
        exact send_onlyOut s1 (by rw [hr]; rfl)
      · rw [hr] at hs'; simp [Res.state?] at hs'

/-- One successful `Socket::send` with bytes left brings the loop of `sendall`
closer to its end. -/
theorem send_ok_measure {s s' : Socket} {buf : Bytes} {sent n : Nat}
    (h : s.send buf sent = .ok n s') (hlt : sent < buf.length) :
    s'.writes.length + (buf.length - (sent + n)) < s.writes.length + (buf.length - sent) := by
  have hdl : (buf.drop sent).length = buf.length - sent := List.length_drop _ _
  unfold Socket.send sysSend at h
  by_cases hfd : s.sockfd < 0
  · simp [hfd] at h
  · simp only [hfd, if_false] at h
    rcases hr : s.writes with _ | ⟨e, rest⟩
    · simp only [hr] at h
      by_cases hd : buf.drop sent = []
      · simp [hd] at h
      · simp only [hd, if_false, Res.ok.injEq] at h
        obtain ⟨hn, hs⟩ := h
        subst hn hs
        simp only [List.length_nil]
        omega
    · cases e with
      | xfer k =>
        simp only [hr] at h
        by_cases hd : List.take k (buf.drop sent) = []
        · simp [hd] at h
        · simp only [hd, if_false, Res.ok.injEq] at h
          obtain ⟨hn, hs⟩ := h
          subst hn hs
          simp only [List.length_cons, List.length_take]
          omega
      | again =>
        simp only [hr, Res.ok.injEq] at h
        obtain ⟨hn, hs⟩ := h
        subst hn hs
        simp only [List.length_cons]
        omega
      | epipe => simp [hr] at h
      | fail => simp [hr] at h

theorem sendallLoop_total : ∀ (fuel : Nat) (s : Socket) (buf : Bytes) (sent : Nat),
    sent ≤ buf.length → s.writes.length + (buf.length - sent) < fuel →
    sendallLoop fuel s buf sent ≠ .diverge := by
  intro fuel
  induction fuel with
  | zero => intro s buf sent _ h; omega
  | succ fuel ih =>
    intro s buf sent hle hf
    unfold sendallLoop
    by_cases he : sent = buf.length
    · simp [he]
    · simp only [he, if_false]
      rcases hr : s.send buf sent with ⟨m, s1⟩ | ⟨e, s1⟩ | _
      · simp only
        have hm := send_ok_measure hr (by omega)
        have hw := (send_ok_wire hr).2
        exact ih s1 buf (sent + m) (by omega) (by omega)
      · simp
      · unfold Socket.send at hr
        split at hr <;> simp at hr

/-- `Socket::sendall` always comes back. -/
theorem sendall_total (s : Socket) (buf : Bytes) : s.sendall buf ≠ .diverge :=
  sendallLoop_total _ s buf 0 (Nat.zero_le _) (by omega)

/-- The exceptions `Socket::send` throws are `SocketException`s. -/
theorem send_throw_kind {s s' : Socket} {buf : Bytes} {sent : Nat} {e : Exn}
    (h : s.send buf sent = .throw e s') : e.isSocketException = true := by
  unfold Socket.send at h
  split at h <;> simp at h <;> (rw [← h.1]; rfl)

theorem sendallLoop_throw_kind : ∀ (fuel : Nat) (s : Socket) (buf : Bytes) (sent : Nat)
    (e : Exn) (s' : Socket), sendallLoop fuel s buf sent = .throw e s' →
    e.isSocketException = true := by
  intro fuel
  induction fuel with
  | zero =>
    intro s buf sent e s' h
    unfold sendallLoop at h
    by_cases he : sent = buf.length <;> simp [he] at h
  | succ fuel ih =>
    intro s buf sent e s' h
    unfold sendallLoop at h
    by_cases he : sent = buf.length
    · simp [he] at h
    · simp only [he, if_false] at h
      rcases hr : s.send buf sent with ⟨m, s1⟩ | ⟨e1, s1⟩ | _
      · rw [hr] at h
        exact ih s1 buf (sent + m) e s' h
      · rw [hr] at h
        simp only [Res.throw.injEq] at h
        rw [← h.1]
        exact send_throw_kind hr
      · rw [hr] at h; simp at h

theorem sendall_onlyOut (s : Socket) (buf : Bytes) :
    ∀ s' ∈ (s.sendall buf).state?, OnlyOut s s' :=
  sendallLoop_onlyOut _ s buf 0

/-- Whatever `send_message` does, it leaves the status, the nick and the input
side of the socket as they were. -/
theorem send_message_frame (c : Client) (msg : Bytes) :
    ∀ c' ∈ (c.send_message msg).state?,
      c'.status = c.status ∧ c'.nick = c.nick ∧ OnlyOut c.sock c'.sock := by
  intro c' hc'
  unfold Client.send_message at hc'
  by_cases hl : msg.length > msg_max_size
  · simp only [hl, if_true, Res.state?, Option.mem_def, Option.some.injEq] at hc'
    subst hc'
    exact ⟨rfl, rfl, OnlyOut.out_refl _⟩
  · simp only [hl, if_false] at hc'
    rcases h1 : c.sock.sendall (htons_bytes msg.length) with ⟨n1, s1⟩ | ⟨e, s1⟩ | _
    · have o1 : OnlyOut c.sock s1 := sendall_onlyOut _ _ s1 (by rw [h1]; rfl)
      rw [h1] at hc'
      simp only at hc'
      rcases h2 : s1.sendall msg with ⟨n2, s2⟩ | ⟨e, s2⟩ | _
      · have o2 : OnlyOut s1 s2 := sendall_onlyOut _ _ s2 (by rw [h2]; rfl)
        rw [h2] at hc'
        simp only [Res.state?, Option.mem_def, Option.some.injEq] at hc'
        subst hc'
        exact ⟨rfl, rfl, o1.out_trans o2⟩
      · have o2 : OnlyOut s1 s2 := sendall_onlyOut _ _ s2 (by rw [h2]; rfl)
        rw [h2] at hc'
        simp only [Res.state?, Option.mem_def, Option.some.injEq] at hc'
        subst hc'
        exact ⟨rfl, rfl, o1.out_trans o2⟩
      · rw [h2] at hc'; simp [Res.state?] at hc'
    · have o1 : OnlyOut c.sock s1 := sendall_onlyOut _ _ s1 (by rw [h1]; rfl)
      rw [h1] at hc'
      simp only [Res.state?, Option.mem_def, Option.some.injEq] at hc'
      subst hc'
      exact ⟨rfl, rfl, o1⟩
    · rw [h1] at hc'; simp [Res.state?] at hc'

/-- `Client::send_message` always comes back. -/
theorem send_message_total (c : Client) (msg : Bytes) : c.send_message msg ≠ .diverge := by
  unfold Client.send_message
  by_cases hl : msg.length > msg_max_size
  · simp [hl]
  · simp only [hl, if_false]
    rcases h1 : c.sock.sendall (htons_bytes msg.length) with ⟨n1, s1⟩ | ⟨e, s1⟩ | _
    · simp only
      rcases h2 : s1.sendall msg with ⟨n2, s2⟩ | ⟨e, s2⟩ | _
      · simp
      · simp
      · exact absurd h2 (sendall_total _ _)
    · simp
    · exact absurd h1 (sendall_total _ _)

/-- `Client::send_message` throws the `ClientException` or a `SocketException`. -/
theorem send_message_throw_kind {c c' : Client} {msg : Bytes} {e : Exn}
    (h : c.send_message msg = .throw e c') :
    (e.isClientException || e.isSocketException) = true := by
  unfold Client.send_message at h
  by_cases hl : msg.length > msg_max_size
  · simp only [hl, if_true, Res.throw.injEq] at h
    rw [← h.1]; rfl
  · simp only [hl, if_false] at h
    rcases h1 : c.sock.sendall (htons_bytes msg.length) with ⟨n1, s1⟩ | ⟨e1, s1⟩ | _
    · rw [h1] at h
      simp only at h
      rcases h2 : s1.sendall msg with ⟨n2, s2⟩ | ⟨e2, s2⟩ | _
      · rw [h2] at h; simp at h
      · rw [h2] at h
        simp only [Res.throw.injEq] at h
        rw [← h.1, sendallLoop_throw_kind _ _ _ _ _ _ h2, Bool.or_true]
      · rw [h2] at h; simp at h
    · rw [h1] at h
      simp only [Res.throw.injEq] at h
      rw [← h.1, sendallLoop_throw_kind _ _ _ _ _ _ h1, Bool.or_true]
    · rw [h1] at h; simp at h

/-- On a closed descriptor `send_message` throws before anything is written: the
Connection is left exactly as it was. -/
theorem send_message_closed (c : Client) (msg : Bytes) (hfd : c.sock.sockfd < 0) :
    ∃ e, c.send_message msg = .throw e c ∧ (e = .client_too_long ∨ e = .sock_errno) := by
  unfold Client.send_message
  by_cases hl : msg.length > msg_max_size
  · exact ⟨.client_too_long, by simp [hl], Or.inl rfl⟩
  · refine ⟨.sock_errno, ?_, Or.inr rfl⟩
    have hs : c.sock.sendall (htons_bytes msg.length) = .throw .sock_errno c.sock := by
      simp [Socket.sendall, sendallLoop, htons_bytes, Socket.send, sysSend, hfd]
    simp only [hl, if_false, hs]

/-- On a writable socket a message of at most 65535 bytes is sent: its frame is
appended to the wire and the socket stays writable. -/
theorem send_message_writable (c : Client) (msg : Bytes) (hlen : msg.length ≤ 65535)
    (hw : c.sock.writable) :
    ∃ c', c.send_message msg = .ok () c' ∧ c'.sock.wire = c.sock.wire ++ frame msg ∧
      c'.sock.writable := by
  obtain ⟨s1, h1, w1, hw1⟩ := sendall_writable (htons_bytes msg.length) hw
  obtain ⟨s2, h2, w2, hw2⟩ := sendall_writable msg hw1
  refine ⟨{ c with sock := s2 }, ?_, ?_, hw2⟩
  · unfold Client.send_message
    have : ¬ msg.length > msg_max_size := by simp only [msg_max_size]; omega
    simp only [this, if_false, h1, h2]
  · show s2.wire = _
    rw [w2, w1, frame, List.append_assoc]

theorem close_ok (s : Socket) (h : s.close_fails = false) : s.close = .ok () s.closed := by
  unfold Socket.close Socket.closed
  by_cases hfd : s.sockfd > 0 <;> simp [hfd, h]

/-- `disconnect()` on a Connection whose `close(2)` succeeds. -/
theorem disconnect_ok (c : Client) (h : c.sock.close_fails = false) :
    c.disconnect = .ok () c.disconnected := by
  unfold Client.disconnect Client.disconnected
  rw [close_ok _ h]

theorem closed_closed (s : Socket) : s.closed.closed = s.closed := by
  unfold Socket.closed
  by_cases hfd : s.sockfd > 0 <;> simp [hfd]

theorem closed_close_fails (s : Socket) : s.closed.close_fails = s.close_fails := by
  unfold Socket.closed
  by_cases hfd : s.sockfd > 0 <;> simp [hfd]

theorem disconnected_disconnected (c : Client) : c.disconnected.disconnected = c.disconnected := by
  simp [Client.disconnected, closed_closed]

theorem onlyOut_close_fails {s s' : Socket} (h : OnlyOut s s') :
    s'.close_fails = s.close_fails := by
  unfold OnlyOut at h; rw [h]

theorem onlyOut_sockfd {s s' : Socket} (h : OnlyOut s s') : s'.sockfd = s.sockfd := by
  unfold OnlyOut at h; rw [h]

/-- What a turn of the loop of `on_queue_available` does to a Connection:
case by case on the result of `send_message`. -/
theorem deliver_cases (msg : Bytes) (c : Client) :
    (∃ c', c.send_message msg = .ok () c' ∧ deliver msg c = c' ∧ deliverFailure msg c = none) ∨
    (∃ e c', c.send_message msg = .throw e c' ∧ deliver msg c = c'.disconnected ∧
      deliverFailure msg c = some e) := by
  rcases h : c.send_message msg with ⟨u, c'⟩ | ⟨e, c'⟩ | _
  · exact Or.inl ⟨c', rfl, by simp [deliver, h], by simp [deliverFailure, h]⟩
  · exact Or.inr ⟨e, c', rfl, by simp [deliver, h], by simp [deliverFailure, h]⟩
  · exact absurd h (send_message_total c msg)

theorem deliver_close_fails (msg : Bytes) (c : Client) :
    (deliver msg c).sock.close_fails = c.sock.close_fails := by
  rcases deliver_cases msg c with ⟨c', h, hd, -⟩ | ⟨e, c', h, hd, -⟩
  · rw [hd]
    exact onlyOut_close_fails (send_message_frame c msg c' (by rw [h]; rfl)).2.2
  · rw [hd]
    simp only [Client.disconnected, closed_close_fails]
    exact onlyOut_close_fails (send_message_frame c msg c' (by rw [h]; rfl)).2.2

theorem deliver_nick (msg : Bytes) (c : Client) : (deliver msg c).nick = c.nick := by
  rcases deliver_cases msg c with ⟨c', h, hd, -⟩ | ⟨e, c', h, hd, -⟩
  · rw [hd]; exact (send_message_frame c msg c' (by rw [h]; rfl)).2.1
  · rw [hd]; exact (send_message_frame c msg c' (by rw [h]; rfl)).2.1

/-- A Connection that is OFFLINE stays OFFLINE. -/
theorem deliver_offline (msg : Bytes) (c : Client) (h : c.status = .OFFLINE) :
    (deliver msg c).status = .OFFLINE := by
  rcases deliver_cases msg c with ⟨c', hs, hd, -⟩ | ⟨e, c', hs, hd, -⟩
  · rw [hd, (send_message_frame c msg c' (by rw [hs]; rfl)).1, h]
  · rw [hd]; rfl

/-- A failed send leaves the Connection OFFLINE. -/
theorem deliver_failed (msg : Bytes) (c : Client) (h : deliverFailure msg c ≠ none) :
    (deliver msg c).status = .OFFLINE := by
  rcases deliver_cases msg c with ⟨c', hs, hd, hf⟩ | ⟨e, c', hs, hd, -⟩
  · exact absurd hf h
  · rw [hd]; rfl

/-- A Connection that is OFFLINE with its socket closed is left exactly as it is
by a turn of the loop, and the send fails. -/
theorem deliver_closed (msg : Bytes) (c : Client) (hst : c.status = .OFFLINE)
    (hfd : c.sock.sockfd < 0) :
    deliver msg c = c ∧ ∃ e, deliverFailure msg c = some e ∧
      (e = .client_too_long ∨ e = .sock_errno) := by
  obtain ⟨e, he, hk⟩ := send_message_closed c msg hfd
  refine ⟨?_, e, by simp [deliverFailure, he], hk⟩
  simp only [deliver, he, Client.disconnected, Socket.closed]
  have : ¬ c.sock.sockfd > 0 := by omega
  simp only [this, if_false]
  cases c
  simp only at hst
  simp [hst]

/-! ## The registry: supporting lemmas -/

theorem lookup_set_same (cl : List (Bytes × ClientPtr)) (k : Bytes) (v : ClientPtr) :
    lookupClient (setClient cl k v) k = some v := by
  induction cl with
  | nil => simp [setClient, lookupClient]
  | cons p rest ih =>
    obtain ⟨k', v'⟩ := p
    by_cases h : k' = k
    · simp [setClient, lookupClient, h]
    · simp [setClient, lookupClient, h, ih]

theorem lookup_set_other (cl : List (Bytes × ClientPtr)) (k k' : Bytes) (v : ClientPtr)
    (hne : k' ≠ k) : lookupClient (setClient cl k v) k' = lookupClient cl k' := by
  induction cl with
  | nil => simp [setClient, lookupClient, Ne.symm hne]
  | cons p rest ih =>
    obtain ⟨k1, v1⟩ := p
    by_cases h : k1 = k
    · subst h
      simp [setClient, lookupClient, Ne.symm hne]
    · by_cases h' : k1 = k'
      · subst h'
        simp [setClient, lookupClient, h]
      · simp [setClient, lookupClient, h, h', ih]

theorem lookup_ne_none_iff (cl : List (Bytes × ClientPtr)) (k : Bytes) :
    lookupClient cl k ≠ none ↔ k ∈ cl.map Prod.fst := by
  induction cl with
  | nil => simp [lookupClient]
  | cons p rest ih =>
    obtain ⟨k1, v1⟩ := p
    by_cases h : k1 = k
    · simp [lookupClient, h]
    · have h' : ¬ k = k1 := fun e => h e.symm
      simp only [lookupClient, h, if_false, List.map_cons, List.mem_cons, h', false_or]
      exact ih

theorem lookup_mem {cl : List (Bytes × ClientPtr)} {k : Bytes} {v : ClientPtr}
    (h : lookupClient cl k = some v) : (k, v) ∈ cl := by
  induction cl with
  | nil => simp [lookupClient] at h
  | cons p rest ih =>
    obtain ⟨k1, v1⟩ := p
    by_cases hk : k1 = k
    · simp only [lookupClient, hk, if_true, Option.some.injEq] at h
      subst hk h
      exact List.mem_cons_self _ _
    · simp only [lookupClient, hk, if_false] at h
      exact List.mem_cons_of_mem _ (ih h)

/-- Assigning to a key that is there leaves the keys and their order as they are. -/
theorem keys_set (cl : List (Bytes × ClientPtr)) (k : Bytes) (v : ClientPtr)
    (h : lookupClient cl k ≠ none) : (setClient cl k v).map Prod.fst = cl.map Prod.fst := by
  induction cl with
  | nil => simp [lookupClient] at h
  | cons p rest ih =>
    obtain ⟨k1, v1⟩ := p
    by_cases hk : k1 = k
    · simp [setClient, hk]
    · simp only [lookupClient, hk, if_false] at h
      simp [setClient, hk, ih h]

/-- Assigning to a key that is not there appends it. -/
theorem keys_set_new (cl : List (Bytes × ClientPtr)) (k : Bytes) (v : ClientPtr)
    (h : lookupClient cl k = none) : (setClient cl k v).map Prod.fst = cl.map Prod.fst ++ [k] := by
  induction cl with
  | nil => simp [setClient]
  | cons p rest ih =>
    obtain ⟨k1, v1⟩ := p
    by_cases hk : k1 = k
    · simp [lookupClient, hk] at h
    · simp only [lookupClient, hk, if_false] at h
      simp [setClient, hk, ih h]

theorem mem_set {cl : List (Bytes × ClientPtr)} {k : Bytes} {v : ClientPtr}
    {p : Bytes × ClientPtr} (h : p ∈ setClient cl k v) : p ∈ cl ∨ p = (k, v) := by
  induction cl with
  | nil => simp [setClient] at h; exact Or.inr h
  | cons q rest ih =>
    obtain ⟨k1, v1⟩ := q
    by_cases hk : k1 = k
    · simp only [setClient, hk, if_true, List.mem_cons] at h
      rcases h with h | h
      · exact Or.inr h
      · exact Or.inl (List.mem_cons_of_mem _ h)
    · simp only [setClient, hk, if_false, List.mem_cons] at h
      rcases h with h | h
      · exact Or.inl (by rw [h]; exact List.mem_cons_self _ _)
      · rcases ih h with h' | h'
        · exact Or.inl (List.mem_cons_of_mem _ h')
        · exact Or.inr h'

theorem sound_set {cl : List (Bytes × ClientPtr)} (hs : Sound cl) (k : Bytes) (c : Client)
    (hc : c.sock.close_fails = false) : Sound (setClient cl k (some c)) := by
  intro p hp
  rcases mem_set hp with h | h
  · exact hs p h
  · rw [h]; simp [soundEntry, hc]

theorem sound_lookup {cl : List (Bytes × ClientPtr)} (hs : Sound cl) {k : Bytes}
    (h : lookupClient cl k ≠ none) :
    ∃ c : Client, lookupClient cl k = some (some c) ∧ c.sock.close_fails = false := by
  rcases hl : lookupClient cl k with _ | v
  · exact absurd hl h
  · have hv := hs (k, v) (lookup_mem hl)
    cases v with
    | none => simp [soundEntry] at hv
    | some c => exact ⟨c, rfl, by simpa [soundEntry] using hv⟩

/-! ## `on_queue_available`: supporting lemmas -/

/-- One turn of the loop of `on_queue_available` on a sound registry whose key
`dst` is there: the call returns, the Connection under `dst` has gone through
`deliver`, and the call is recorded. -/
theorem send_to_spec {clients : List (Bytes × ClientPtr)} {dst : Bytes} {c : Client}
    (msg : Bytes) (hl : lookupClient clients dst = some (some c))
    (hcf : c.sock.close_fails = false) :
    send_to clients dst msg = .returned (setClient clients dst (some (deliver msg c)),
      ⟨dst, c.status, msg, deliverFailure msg c⟩) := by
  unfold send_to
  rw [hl]
  simp only
  rcases deliver_cases msg c with ⟨c', h, hd, hf⟩ | ⟨e, c', h, hd, hf⟩
  · rw [h, hd, hf]
  · have hk := send_message_throw_kind h
    have hcf' : c'.sock.close_fails = false := by
      rw [onlyOut_close_fails (send_message_frame c msg c' (by rw [h]; rfl)).2.2, hcf]
    rw [h]
    simp only [hk, if_true, disconnect_ok c' hcf', hd, hf]

/-- The loop of `on_queue_available` on a sound registry that holds every
destination: it returns; the registry stays sound, its keys are unchanged;
one call is recorded per destination, in order; each Connection has gone
through `deliver` once per occurrence of its nick among the destinations;
each recorded call is one of those turns. -/
theorem send_loop_spec : ∀ (ds : List Bytes) (msg : Bytes) (clients : List (Bytes × ClientPtr))
    (done : List Attempt), Sound clients → (∀ d ∈ ds, lookupClient clients d ≠ none) →
    ∃ clients' tr, send_loop ds msg clients done = .returned (clients', done ++ tr) ∧
      Sound clients' ∧ clients'.map Prod.fst = clients.map Prod.fst ∧
      tr.map Attempt.dst = ds ∧ (∀ a ∈ tr, a.msg = msg) ∧
      (∀ k c, lookupClient clients k = some (some c) →
        lookupClient clients' k = some (some ((deliver msg)^[ds.count k] c))) ∧
      (∀ a ∈ tr, ∃ c i, lookupClient clients a.dst = some (some c) ∧ i < ds.count a.dst ∧
        a.status = ((deliver msg)^[i] c).status ∧
        a.failure = deliverFailure msg ((deliver msg)^[i] c)) := by
  intro ds
  induction ds with
  | nil =>
    intro msg clients done hs _
    exact ⟨clients, [], by simp [send_loop], hs, rfl, rfl, by simp, by simp, by simp⟩
  | cons d rest ih =>
    intro msg clients done hs hkeys
    obtain ⟨cd, hcd, hcf⟩ := sound_lookup hs (hkeys d (List.mem_cons_self _ _))
    have hstep := send_to_spec msg hcd hcf
    have hne : lookupClient clients d ≠ none := by rw [hcd]; simp
    have hkeys1 : (setClient clients d (some (deliver msg cd))).map Prod.fst
        = clients.map Prod.fst := keys_set _ _ _ hne
    have hs1 : Sound (setClient clients d (some (deliver msg cd))) :=
      sound_set hs d _ (by rw [deliver_close_fails, hcf])
    have hrest : ∀ d' ∈ rest,
        lookupClient (setClient clients d (some (deliver msg cd))) d' ≠ none := by
      intro d' hd'
      rw [lookup_ne_none_iff, hkeys1, ← lookup_ne_none_iff]
      exact hkeys d' (List.mem_cons_of_mem _ hd')
    obtain ⟨clients', tr, h1, h2, h3, h4, h5, h6, h7⟩ :=
      ih msg _ (done ++ [⟨d, cd.status, msg, deliverFailure msg cd⟩]) hs1 hrest
    refine ⟨clients', ⟨d, cd.status, msg, deliverFailure msg cd⟩ :: tr, ?_, h2, ?_, ?_, ?_,
      ?_, ?_⟩
    · simp only [send_loop, hstep, h1, List.append_assoc, List.singleton_append]
    · rw [h3, hkeys1]
    · simp [h4]
    · intro a ha
      rcases List.mem_cons.1 ha with h | h
      · rw [h]
      · exact h5 a h
    · intro k c hk
      by_cases hkd : k = d
      · subst hkd
        rw [hcd] at hk
        simp only [Option.some.injEq] at hk
        subst hk
        rw [h6 k (deliver msg cd) (lookup_set_same _ _ _), List.count_cons_self,
          Function.iterate_succ_apply]
      · rw [List.count_cons_of_ne hkd]
        apply h6
        rw [lookup_set_other _ _ _ _ hkd, hk]
    · intro a ha
      rcases List.mem_cons.1 ha with h | h
      · subst h
        exact ⟨cd, 0, hcd, by simp, rfl, rfl⟩
      · obtain ⟨c1, i, g1, g2, g3, g4⟩ := h7 a h
        by_cases hkd : a.dst = d
        · rw [hkd, lookup_set_same] at g1
          simp only [Option.some.injEq] at g1
          subst g1
          refine ⟨cd, i + 1, by rw [hkd, hcd], ?_, ?_, ?_⟩
          · rw [hkd, List.count_cons_self]; rw [hkd] at g2; omega
          · rw [g3, Function.iterate_succ_apply]
          · rw [g4, Function.iterate_succ_apply]
        · rw [lookup_set_other _ _ _ _ hkd] at g1
          refine ⟨c1, i, g1, ?_, g3, g4⟩
          rw [List.count_cons_of_ne hkd]
          exact g2

/-- `on_queue_available` on a sound registry that holds every destination of the
envelope at the front of `out_queue`: the handler returns, the envelope is off
the queue, and the loop has done what `send_loop_spec` says. -/
theorem on_queue_available_spec (srv : ChatServer) (events : Events) (m : Message)
    (rest : List MessagePtr) (herr : events.ERR = false) (hhup : events.HUP = false)
    (hq : srv.out_queue.data_queue = some m :: rest)
    (hc : srv.out_queue.event_counter = srv.out_queue.size)
    (hs : Sound srv.clients) (hk : ∀ d ∈ m.dsts, lookupClient srv.clients d ≠ none) :
    ∃ clients' tr,
      srv.on_queue_available events = .returned
        ({ srv with out_queue := { data_queue := rest, event_counter := rest.length },
                    clients := clients' }, tr) ∧
      Sound clients' ∧ clients'.map Prod.fst = srv.clients.map Prod.fst ∧
      tr.map Attempt.dst = m.dsts ∧ (∀ a ∈ tr, a.msg = m.msg) ∧
      (∀ k c, lookupClient srv.clients k = some (some c) →
        lookupClient clients' k = some (some ((deliver m.msg)^[m.dsts.count k] c))) ∧
      (∀ a ∈ tr, ∃ c i, lookupClient srv.clients a.dst = some (some c) ∧
        i < m.dsts.count a.dst ∧ a.status = ((deliver m.msg)^[i] c).status ∧
        a.failure = deliverFailure m.msg ((deliver m.msg)^[i] c)) := by
  obtain ⟨clients', tr, h1, h2, h3, h4, h5, h6, h7⟩ :=
    send_loop_spec m.dsts m.msg srv.clients [] hs hk
  refine ⟨clients', tr, ?_, h2, h3, h4, h5, h6, h7⟩
  obtain ⟨clients, iq, ⟨dq, ec⟩, ep⟩ := srv
  simp only [Queue.size] at hq hc
  subst hq
  subst hc
  have hpop : Queue.try_pop (⟨some m :: rest, (some m :: rest).length⟩ : Queue MessagePtr)
      none = .done (true, some m) ⟨rest, rest.length⟩ := by
    simp [Queue.try_pop, Queue.decrement_event_counter]
  simp only [List.nil_append] at h1
  simp only [ChatServer.on_queue_available, herr, hhup, Bool.or_self, hpop, h1]
  simp

theorem iterate_deliver_offline (msg : Bytes) (n : Nat) (c : Client)
    (h : c.status = .OFFLINE) : ((deliver msg)^[n] c).status = .OFFLINE := by
  induction n generalizing c with
  | zero => simpa using h
  | succ n ih =>
    rw [Function.iterate_succ_apply]
    exact ih _ (deliver_offline msg c h)

/-! ## `on_queue_available`: the claims -/

/-- C13, counterexample: with carol OFFLINE (her socket closed) among the
destinations of the envelope, `on_queue_available` calls `send_message` on her
Connection all the same; the call throws a `SocketException`, which the handler
catches. -/
theorem on_queue_available_calls_offline :
    sampleQueued.on_queue_available { IN := true } = .returned
      ({ sampleServer [] with
          clients := [onlineClient "alice" 5,
            (ascii "bob", some { status := .ONLINE, nick := ascii "bob",
                                 sock := { sockfd := 6, wire := frame (ascii "alice: hi") } }),
            offlineClient "carol"] },
        [⟨ascii "bob", .ONLINE, ascii "alice: hi", none⟩,
         ⟨ascii "carol", .OFFLINE, ascii "alice: hi", some .sock_errno⟩]) ∧
    ¬ (∀ a ∈ [(⟨ascii "bob", .ONLINE, ascii "alice: hi", none⟩ : Attempt),
              ⟨ascii "carol", .OFFLINE, ascii "alice: hi", some .sock_errno⟩],
        a.status = .ONLINE) := by
  decide

/-- C13, amended: for every envelope popped by `on_queue_available` (registry
sound, every destination registered), `send_message` is called once per
destination, in order, with the body of the envelope, whatever the status of
the Connection. For a destination whose Connection is OFFLINE with its socket
closed, every such call is made on an OFFLINE Connection and throws (the
`SocketException` of a closed descriptor, or the `ClientException` of a body
that is too long) before a byte is written; the handler returns and that
Connection is exactly as it was. -/
theorem on_queue_available_calls_all (srv : ChatServer) (events : Events) (m : Message)
    (rest : List MessagePtr) (herr : events.ERR = false) (hhup : events.HUP = false)
    (hq : srv.out_queue.data_queue = some m :: rest)
    (hc : srv.out_queue.event_counter = srv.out_queue.size)
    (hs : Sound srv.clients) (hk : ∀ d ∈ m.dsts, lookupClient srv.clients d ≠ none) :
    ∃ clients' calls,
      srv.on_queue_available events = .returned
        ({ srv with out_queue := { data_queue := rest, event_counter := rest.length },
                    clients := clients' }, calls) ∧
      calls.map Attempt.dst = m.dsts ∧ (∀ a ∈ calls, a.msg = m.msg) ∧
      (∀ (d : Bytes) (c : Client), lookupClient srv.clients d = some (some c) →
        c.status = .OFFLINE → c.sock.sockfd < 0 →
        lookupClient clients' d = some (some c) ∧
        ∀ a ∈ calls, a.dst = d → a.status = .OFFLINE ∧
          (a.failure = some .sock_errno ∨ a.failure = some .client_too_long)) := by
  obtain ⟨clients', tr, h1, -, -, h4, h5, h6, h7⟩ :=
    on_queue_available_spec srv events m rest herr hhup hq hc hs hk
  refine ⟨clients', tr, h1, h4, h5, ?_⟩
  intro d c hl hst hfd
  have hfix : ∀ n, (deliver m.msg)^[n] c = c :=
    fun n => Function.iterate_fixed (deliver_closed m.msg c hst hfd).1 n
  refine ⟨by rw [h6 d c hl, hfix], ?_⟩
  intro a ha had
  obtain ⟨c0, i, g1, -, g3, g4⟩ := h7 a ha
  rw [had, hl] at g1
  simp only [Option.some.injEq] at g1
  subst g1
  rw [hfix] at g3 g4
  obtain ⟨e, he, hk'⟩ := (deliver_closed m.msg c hst hfd).2
  refine ⟨by rw [g3, hst], ?_⟩
  rw [g4, he]
  rcases hk' with h | h
  · exact Or.inr (by rw [h])
  · exact Or.inl (by rw [h])

/-- C13, amended, on the sample server: carol, OFFLINE and closed, is called and
left as she was. -/
theorem on_queue_available_calls_all_witness :
    ∃ clients' calls,
      sampleQueued.on_queue_available { IN := true } = .returned
        ({ sampleQueued with
            out_queue := { data_queue := [], event_counter := ([] : List MessagePtr).length },
            clients := clients' }, calls) ∧
      calls.map Attempt.dst = [ascii "bob", ascii "carol"] ∧
      (∀ a ∈ calls, a.msg = ascii "alice: hi") ∧
      (∀ (d : Bytes) (c : Client), lookupClient sampleQueued.clients d = some (some c) →
        c.status = .OFFLINE → c.sock.sockfd < 0 →
        lookupClient clients' d = some (some c) ∧
        ∀ a ∈ calls, a.dst = d → a.status = .OFFLINE ∧
          (a.failure = some .sock_errno ∨ a.failure = some .client_too_long)) :=
  on_queue_available_calls_all sampleQueued { IN := true }
    ⟨ascii "alice: hi", ascii "alice", [ascii "bob", ascii "carol"]⟩ [] rfl rfl rfl rfl
    (by decide) (by decide)

/-- C14 (isolation of send failures): for every envelope handled by
`on_queue_available` (registry sound, every destination registered), the
handler returns, so that no failure of a send leaves it; `send_message` is
called with the body of the envelope once for every destination, in the order
of the list, those before and those after a failed one included; and every
destination whose send failed is OFFLINE afterwards. -/
theorem on_queue_available_isolates (srv : ChatServer) (events : Events) (m : Message)
    (rest : List MessagePtr) (herr : events.ERR = false) (hhup : events.HUP = false)
    (hq : srv.out_queue.data_queue = some m :: rest)
    (hc : srv.out_queue.event_counter = srv.out_queue.size)
    (hs : Sound srv.clients) (hk : ∀ d ∈ m.dsts, lookupClient srv.clients d ≠ none) :
    ∃ clients' calls,
      srv.on_queue_available events = .returned
        ({ srv with out_queue := { data_queue := rest, event_counter := rest.length },
                    clients := clients' }, calls) ∧
      calls.map Attempt.dst = m.dsts ∧ (∀ a ∈ calls, a.msg = m.msg) ∧
      (∀ a ∈ calls, ∀ e, a.failure = some e →
        (e.isClientException || e.isSocketException) = true ∧
        ∃ c' : Client, lookupClient clients' a.dst = some (some c') ∧ c'.status = .OFFLINE) := by
  obtain ⟨clients', tr, h1, -, -, h4, h5, h6, h7⟩ :=
    on_queue_available_spec srv events m rest herr hhup hq hc hs hk
  refine ⟨clients', tr, h1, h4, h5, ?_⟩
  intro a ha e hfail
  obtain ⟨c, i, g1, g2, -, g4⟩ := h7 a ha
  rw [hfail] at g4
  constructor
  · rcases deliver_cases m.msg ((deliver m.msg)^[i] c) with ⟨c', -, -, hf⟩ | ⟨e', c', hs', -, hf⟩
    · rw [hf] at g4; simp at g4
    · rw [hf] at g4
      simp only [Option.some.injEq] at g4
      rw [g4]
      exact send_message_throw_kind hs'
  · refine ⟨_, h6 a.dst c g1, ?_⟩
    have hoff : ((deliver m.msg)^[i + 1] c).status = .OFFLINE := by
      rw [Function.iterate_succ_apply']
      exact deliver_failed _ _ (by rw [← g4]; simp)
    have hsplit : m.dsts.count a.dst = (m.dsts.count a.dst - (i + 1)) + (i + 1) := by omega
    rw [hsplit, Function.iterate_add_apply]
    exact iterate_deliver_offline _ _ _ hoff

/-- C14 on a server where the send to bob fails with `EPIPE` and carol is closed:
bob and carol are OFFLINE afterwards, dave has received the frame. -/
theorem on_queue_available_isolates_witness :
    (∃ clients' calls,
      sampleBroken.on_queue_available { IN := true } = .returned
        ({ sampleBroken with
            out_queue := { data_queue := [], event_counter := ([] : List MessagePtr).length },
            clients := clients' }, calls) ∧
      calls.map Attempt.dst = [ascii "bob", ascii "carol", ascii "dave"] ∧
      (∀ a ∈ calls, a.msg = ascii "alice: hi") ∧
      (∀ a ∈ calls, ∀ e, a.failure = some e →
        (e.isClientException || e.isSocketException) = true ∧
        ∃ c' : Client, lookupClient clients' a.dst = some (some c') ∧ c'.status = .OFFLINE)) ∧
    sampleBroken.on_queue_available { IN := true } = .returned
      ({ clients := [onlineClient "alice" 5,
            (ascii "bob", some { status := .OFFLINE, nick := ascii "bob",
                                 sock := { sockfd := -1, closes := 1 } }),
            offlineClient "carol",
            (ascii "dave", some { status := .ONLINE, nick := ascii "dave",
                                  sock := { sockfd := 7, wire := frame (ascii "alice: hi") } })] },
        [⟨ascii "bob", .ONLINE, ascii "alice: hi", some .sock_pipe⟩,
         ⟨ascii "carol", .OFFLINE, ascii "alice: hi", some .sock_errno⟩,
         ⟨ascii "dave", .ONLINE, ascii "alice: hi", none⟩]) :=
  ⟨on_queue_available_isolates sampleBroken { IN := true }
      ⟨ascii "alice: hi", ascii "alice", [ascii "bob", ascii "carol", ascii "dave"]⟩ []
      rfl rfl rfl rfl (by decide) (by decide),
   by decide⟩

/-! ## Connections: receiving, connecting, disconnecting -/

theorem OnlyIn.in_refl (s : Socket) : OnlyIn s s := by
  cases s; rfl

theorem OnlyIn.in_trans {a b c : Socket} (h1 : OnlyIn a b) (h2 : OnlyIn b c) : OnlyIn a c := by
  unfold OnlyIn at *
  rw [h2, h1]

theorem sysRecv_onlyIn (s : Socket) (want : Nat) : OnlyIn s (sysRecv s want).2 := by
  unfold sysRecv
  by_cases hfd : s.sockfd < 0
  · simp only [hfd, if_true]; exact OnlyIn.in_refl s
  · simp only [hfd, if_false]
    rcases hr : s.reads with _ | ⟨e, rest⟩
    · simp only [OnlyIn, hr]
    · cases e <;> simp only [OnlyIn]

theorem recv_onlyIn {s : Socket} {buf : Bytes} {max : Nat} :
    ∀ s' ∈ (s.recv buf max).state?, OnlyIn s s' := by
  intro s' hs'
  have h := sysRecv_onlyIn s (min buf_size max)
  unfold Socket.recv at hs'
  rcases hsys : sysRecv s (min buf_size max) with ⟨r, t⟩
  rw [hsys] at hs' h
  cases r <;> simp only [Res.state?, Option.mem_def, Option.some.injEq] at hs' <;>
    (subst hs'; exact h)

/-- The exceptions `Socket::recv` throws are `SocketException`s. -/
theorem recv_throw_kind {s s' : Socket} {buf : Bytes} {max : Nat} {e : Exn}
    (h : s.recv buf max = .throw e s') : e.isSocketException = true := by
  unfold Socket.recv at h
  split at h <;> simp at h <;> (rw [← h.1]; rfl)

theorem recvallLoop_frame : ∀ (fuel : Nat) (s : Socket) (buf : Bytes) (size recved : Nat),
    (∀ s' ∈ (recvallLoop fuel s buf size recved).state?, OnlyIn s s') ∧
    (∀ e s', recvallLoop fuel s buf size recved = .throw e s' → e.isSocketException = true) := by
  intro fuel
  induction fuel with
  | zero =>
    intro s buf size recved
    unfold recvallLoop
    by_cases he : recved = size
    · simp only [he, if_true, Res.state?, Option.mem_def, Option.some.injEq]
      exact ⟨fun s' hs' => by subst hs'; exact OnlyIn.in_refl s, fun e s' h => by simp at h⟩
    · simp [he, Res.state?]
  | succ fuel ih =>
    intro s buf size recved
    unfold recvallLoop
    by_cases he : recved = size
    · simp only [he, if_true, Res.state?, Option.mem_def, Option.some.injEq]
      exact ⟨fun s' hs' => by subst hs'; exact OnlyIn.in_refl s, fun e s' h => by simp at h⟩
    · simp only [he, if_false]
      rcases hr : s.recv buf size with ⟨⟨m, b1⟩, s1⟩ | ⟨e1, s1⟩ | _
      · simp only
        have h1 : OnlyIn s s1 := recv_onlyIn s1 (by rw [hr]; rfl)
        obtain ⟨i1, i2⟩ := ih s1 b1 size (recved + m)
        exact ⟨fun s' hs' => h1.in_trans (i1 s' hs'), i2⟩
      · simp only [Res.state?, Option.mem_def, Option.some.injEq, Res.throw.injEq]
        refine ⟨fun s' hs' => ?_, fun e s' h => ?_⟩
        · subst hs'; exact recv_onlyIn s1 (by rw [hr]; rfl)
        · rw [← h.1]; exact recv_throw_kind hr
      · simp [Res.state?]

theorem onlyIn_close_fails {s s' : Socket} (h : OnlyIn s s') :
    s'.close_fails = s.close_fails := by
  unfold OnlyIn at h; rw [h]

theorem onlyIn_sockfd {s s' : Socket} (h : OnlyIn s s') : s'.sockfd = s.sockfd := by
  unfold OnlyIn at h; rw [h]

theorem onlyIn_closes {s s' : Socket} (h : OnlyIn s s') : s'.closes = s.closes := by
  unfold OnlyIn at h; rw [h]

/-- Whatever `recv_message` does, it comes back, with a message or with a
`SocketException`, and leaves the status, the nick and the output side of the
socket as they were. -/
theorem recv_message_frame (c : Client) :
    c.recv_message ≠ .diverge ∧
    (∀ e c', c.recv_message = .throw e c' → e.isSocketException = true) ∧
    (∀ c' ∈ c.recv_message.state?,
      c'.status = c.status ∧ c'.nick = c.nick ∧ OnlyIn c.sock c'.sock) := by
  unfold Client.recv_message
  rcases h1 : c.sock.recvall [] 2 with ⟨⟨n1, hdr⟩, s1⟩ | ⟨e1, s1⟩ | _
  · have o1 : OnlyIn c.sock s1 := (recvallLoop_frame _ _ _ _ _).1 s1 (by
      unfold Socket.recvall at h1; rw [h1]; rfl)
    simp only
    rcases h2 : s1.recvall [] (ntohs_bytes hdr) with ⟨⟨n2, body⟩, s2⟩ | ⟨e2, s2⟩ | _
    · have o2 : OnlyIn s1 s2 := (recvallLoop_frame _ _ _ _ _).1 s2 (by
        unfold Socket.recvall at h2; rw [h2]; rfl)
      refine ⟨by simp, fun e c' h => by simp at h, fun c' hc' => ?_⟩
      simp only [Res.state?, Option.mem_def, Option.some.injEq] at hc'
      subst hc'
      exact ⟨rfl, rfl, o1.in_trans o2⟩
    · have o2 : OnlyIn s1 s2 := (recvallLoop_frame _ _ _ _ _).1 s2 (by
        unfold Socket.recvall at h2; rw [h2]; rfl)
      have k2 : e2.isSocketException = true := (recvallLoop_frame _ _ _ _ _).2 e2 s2 (by
        unfold Socket.recvall at h2; exact h2)
      refine ⟨by simp, fun e c' h => ?_, fun c' hc' => ?_⟩
      · simp only [Res.throw.injEq] at h
        rw [← h.1]; exact k2
      · simp only [Res.state?, Option.mem_def, Option.some.injEq] at hc'
        subst hc'
        exact ⟨rfl, rfl, o1.in_trans o2⟩
    · exact absurd h2 (recvall_total _ _ _)
  · have o1 : OnlyIn c.sock s1 := (recvallLoop_frame _ _ _ _ _).1 s1 (by
      unfold Socket.recvall at h1; rw [h1]; rfl)
    have k1 : e1.isSocketException = true := (recvallLoop_frame _ _ _ _ _).2 e1 s1 (by
      unfold Socket.recvall at h1; exact h1)
    refine ⟨by simp, fun e c' h => ?_, fun c' hc' => ?_⟩
    · simp only [Res.throw.injEq] at h
      rw [← h.1]; exact k1
    · simp only [Res.state?, Option.mem_def, Option.some.injEq] at hc'
      subst hc'
      exact ⟨rfl, rfl, o1⟩
  · exact absurd h1 (recvall_total _ _ _)

/-- What `connect()` does, case by case on the result of `recv_message`. -/
theorem connect_cases (c : Client) :
    (∃ nick c', c.recv_message = .ok nick c' ∧
      c.connect = .ok () { c' with nick := nick, status := .ONLINE } ∧
      OnlyIn c.sock c'.sock) ∨
    (∃ e c', c.recv_message = .throw e c' ∧ c.connect = .throw e c' ∧
      e.isSocketException = true ∧ c'.status = c.status ∧ c'.nick = c.nick ∧
      OnlyIn c.sock c'.sock) := by
  obtain ⟨h1, h2, h3⟩ := recv_message_frame c
  rcases h : c.recv_message with ⟨nick, c'⟩ | ⟨e, c'⟩ | _
  · exact Or.inl ⟨nick, c', rfl, by simp [Client.connect, h],
      (h3 c' (by rw [h]; rfl)).2.2⟩
  · obtain ⟨g1, g2, g3⟩ := h3 c' (by rw [h]; rfl)
    exact Or.inr ⟨e, c', rfl, by simp [Client.connect, h], h2 e c' h, g1, g2, g3⟩
  · exact absurd h h1

theorem disconnected_status (c : Client) : c.disconnected.status = .OFFLINE := rfl

theorem disconnected_nick (c : Client) : c.disconnected.nick = c.nick := rfl

theorem disconnected_sockfd (c : Client) (hfd : 0 < c.sock.sockfd ∨ c.sock.sockfd = -1) :
    c.disconnected.sock.sockfd = -1 := by
  unfold Client.disconnected Socket.closed
  by_cases h : c.sock.sockfd > 0
  · simp [h]
  · simp only [h, if_false]
    omega

theorem destroy_ok (c : Client) (h : c.sock.close_fails = false) :
    c.destroy = some c.disconnected := by
  simp [Client.destroy, disconnect_ok c h]

/-- C15 (idempotent disconnect): for every Connection state whose socket
descriptor is an open one (positive) or already -1, `close(2)` succeeding,
`disconnect` leaves the status OFFLINE, the descriptor -1 and the nick as it
was, after one `close(2)` at most; a second `disconnect` returns normally and
leaves status, socket and nick exactly as the first call left them, and it
issues no `close(2)`: it returns in the same way even where a `close(2)` would
fail. -/
theorem disconnect_idempotent (c : Client)
    (hfd : 0 < c.sock.sockfd ∨ c.sock.sockfd = -1) (hclose : c.sock.close_fails = false) :
    ∃ c1 : Client, c.disconnect = .ok () c1 ∧
      c1.status = .OFFLINE ∧ c1.sock.sockfd = -1 ∧ c1.nick = c.nick ∧
      c1.sock.closes ≤ c.sock.closes + 1 ∧
      c1.disconnect = .ok () c1 ∧
      (∀ cf : Bool,
        Client.disconnect { c1 with sock := { c1.sock with close_fails := cf } }
          = .ok () { c1 with sock := { c1.sock with close_fails := cf } }) := by
  have hfd1 := disconnected_sockfd c hfd
  refine ⟨c.disconnected, disconnect_ok c hclose, rfl, hfd1, rfl, ?_, ?_, ?_⟩
  · unfold Client.disconnected Socket.closed
    by_cases h : c.sock.sockfd > 0 <;> simp [h]
  · rw [disconnect_ok _ (by simp [Client.disconnected, closed_close_fails, hclose]),
      disconnected_disconnected]
  · intro cf
    have hn : ¬ c.sock.closed.sockfd > 0 := by
      have : c.disconnected.sock.sockfd = c.sock.closed.sockfd := rfl
      rw [← this, hfd1]; decide
    simp only [Client.disconnect, Socket.close, Client.disconnected, hn, if_false]

/-- C15 on an ONLINE Connection on descriptor 7 and on one already closed. -/
theorem disconnect_idempotent_witness :
    (∃ c1 : Client,
      Client.disconnect { status := .ONLINE, sock := { sockfd := 7 }, nick := ascii "bob" }
        = .ok () c1 ∧
      c1.status = .OFFLINE ∧ c1.sock.sockfd = -1 ∧
      c1.nick = (⟨.ONLINE, { sockfd := 7 }, ascii "bob"⟩ : Client).nick ∧
      c1.sock.closes ≤ (⟨.ONLINE, { sockfd := 7 }, ascii "bob"⟩ : Client).sock.closes + 1 ∧
      c1.disconnect = .ok () c1 ∧
      (∀ cf : Bool,
        Client.disconnect { c1 with sock := { c1.sock with close_fails := cf } }
          = .ok () { c1 with sock := { c1.sock with close_fails := cf } })) ∧
    Client.disconnect { status := .ONLINE, sock := { sockfd := 7 }, nick := ascii "bob" }
      = .ok () { status := .OFFLINE, sock := { sockfd := -1, closes := 1 }, nick := ascii "bob" } ∧
    Client.disconnect { status := .OFFLINE, sock := { sockfd := -1, closes := 1 },
                        nick := ascii "bob" }
      = .ok () { status := .OFFLINE, sock := { sockfd := -1, closes := 1 }, nick := ascii "bob" } :=
  ⟨disconnect_idempotent { status := .ONLINE, sock := { sockfd := 7 }, nick := ascii "bob" }
      (Or.inl (by decide)) rfl,
   by decide, by decide⟩

/-! ## `on_client_connect` and `on_socket_data_available`: the claims -/

/-- C16 (nickname collision): when `on_client_connect` completes a handshake
(`connect()` returns on the accepted socket, `epoll_ctl` succeeds) whose nick is
already a key of the registry, held by a Connection `old` (descriptor positive
or already -1, `close(2)` succeeding), the handler returns; afterwards the
registry maps the nick to the new Connection, which is ONLINE on the accepted
descriptor; the keys of the registry and their order are unchanged; and the
displaced Connection has been destroyed after a `disconnect()`: status OFFLINE,
descriptor -1. -/
theorem on_client_connect_collision (srv : ChatServer) (events : Events) (sock : Socket)
    (c1 old : Client) (herr : events.ERR = false) (hhup : events.HUP = false)
    (hconn : Client.connect { sock := sock } = .ok () c1)
    (hold : lookupClient srv.clients c1.nick = some (some old))
    (hctl : srv.epoll.ctl_fails = false)
    (hclose : old.sock.close_fails = false)
    (hfd : 0 < old.sock.sockfd ∨ old.sock.sockfd = -1) :
    ∃ (srv' : ChatServer) (gone : Client),
      srv.on_client_connect events (some sock) = .returned (srv', [gone]) ∧
      lookupClient srv'.clients c1.nick = some (some c1) ∧
      c1.status = .ONLINE ∧ c1.sock.sockfd = sock.sockfd ∧
      srv'.nicks = srv.nicks ∧
      gone = old.disconnected ∧ gone.status = .OFFLINE ∧ gone.sock.sockfd = -1 ∧
      gone.nick = old.nick := by
  have hc1 : c1.status = .ONLINE ∧ c1.sock.sockfd = sock.sockfd := by
    rcases connect_cases { sock := sock } with ⟨nick, c', -, h2, h3⟩ | ⟨e, c', -, h2, -⟩
    · rw [h2] at hconn
      simp only [Res.ok.injEq, true_and] at hconn
      subst hconn
      exact ⟨rfl, onlyIn_sockfd h3⟩
    · rw [h2] at hconn; simp at hconn
  have hne : lookupClient srv.clients c1.nick ≠ none := by rw [hold]; simp
  refine ⟨{ srv with
      epoll :=
        { srv.epoll with
          handlers :=
            setHandler srv.epoll.handlers sock.sockfd (.on_socket_data_available c1.nick) },
      clients := setClient srv.clients c1.nick (some c1) },
    old.disconnected, ?_, lookup_set_same _ _ _, hc1.1, hc1.2, keys_set _ _ _ hne, rfl, rfl,
    disconnected_sockfd old hfd, rfl⟩
  simp only [ChatServer.on_client_connect, herr, hhup, Bool.or_self, hconn, Epoll.add_handler,
    hctl, hold, destroy_ok old hclose]
  simp

/-- C16 on the sample server: a second "alice" connects on descriptor 9. -/
theorem on_client_connect_collision_witness :
    (∃ (srv' : ChatServer) (gone : Client),
      (sampleServer []).on_client_connect { IN := true }
          (some { sockfd := 9, inbox := frame (ascii "alice") })
        = .returned (srv', [gone]) ∧
      lookupClient srv'.clients
          (⟨.ONLINE, { sockfd := 9 }, ascii "alice"⟩ : Client).nick
        = some (some ⟨.ONLINE, { sockfd := 9 }, ascii "alice"⟩) ∧
      (⟨.ONLINE, { sockfd := 9 }, ascii "alice"⟩ : Client).status = .ONLINE ∧
      (⟨.ONLINE, { sockfd := 9 }, ascii "alice"⟩ : Client).sock.sockfd
        = ({ sockfd := 9, inbox := frame (ascii "alice") } : Socket).sockfd ∧
      srv'.nicks = (sampleServer []).nicks ∧
      gone = Client.disconnected ⟨.ONLINE, { sockfd := 5 }, ascii "alice"⟩ ∧
      gone.status = .OFFLINE ∧ gone.sock.sockfd = -1 ∧
      gone.nick = (⟨.ONLINE, { sockfd := 5 }, ascii "alice"⟩ : Client).nick) ∧
    (sampleServer []).on_client_connect { IN := true }
        (some { sockfd := 9, inbox := frame (ascii "alice") })
      = .returned
        ({ clients := [onlineClient "alice" 9, onlineClient "bob" 6, offlineClient "carol"],
           epoll := { handlers := [(9, .on_socket_data_available (ascii "alice"))] } },
         [⟨.OFFLINE, { sockfd := -1, closes := 1 }, ascii "alice"⟩]) :=
  ⟨on_client_connect_collision (sampleServer []) { IN := true }
      { sockfd := 9, inbox := frame (ascii "alice") }
      ⟨.ONLINE, { sockfd := 9 }, ascii "alice"⟩ ⟨.ONLINE, { sockfd := 5 }, ascii "alice"⟩
      rfl rfl (by decide) (by decide) rfl rfl (Or.inl (by decide)),
   by decide⟩

/-- The catch block of `on_client_connect`: when `connect()` throws on the
accepted socket (`close(2)` succeeding on it), `on_client_connect` returns: the
error does not leave the handler; the state of the server is exactly the state
before, so that no entry of the registry is inserted or replaced and no handler
is added to the `Epoll`; and the new Connection has been destroyed after
`disconnect()`: status OFFLINE and, its descriptor being positive, descriptor -1. -/
theorem on_client_connect_handshake_fails (srv : ChatServer) (events : Events)
    (sock : Socket) (e : Exn) (c1 : Client)
    (herr : events.ERR = false) (hhup : events.HUP = false)
    (hconn : Client.connect { sock := sock } = .throw e c1)
    (hclose : sock.close_fails = false) :
    ∃ gone : Client,
      srv.on_client_connect events (some sock) = .returned (srv, [gone]) ∧
      gone = c1.disconnected ∧ gone.status = .OFFLINE ∧
      (0 < sock.sockfd → gone.sock.sockfd = -1) := by
  rcases connect_cases { sock := sock } with ⟨nick, c', -, h2, -⟩ | ⟨e', c', -, h2, hk, -, -, ho⟩
  · rw [h2] at hconn; simp at hconn
  · rw [h2] at hconn
    simp only [Res.throw.injEq] at hconn
    obtain ⟨he, hc⟩ := hconn
    subst he hc
    have hcf : c'.sock.close_fails = false := by rw [onlyIn_close_fails ho]; exact hclose
    have hcf2 : c'.disconnected.sock.close_fails = false := by
      simp [Client.disconnected, closed_close_fails, hcf]
    refine ⟨c'.disconnected, ?_, rfl, rfl, ?_⟩
    · simp only [ChatServer.on_client_connect, herr, hhup, Bool.or_self, h2, hk, Bool.or_true,
        drop_connection, disconnect_ok c' hcf, destroy_ok _ hcf2, disconnected_disconnected]
      simp
    · intro hpos
      exact disconnected_sockfd c' (Or.inl (by rw [onlyIn_sockfd ho]; exact hpos))

/-- The catch block on the sample server: the peer on descriptor 9 sends one byte
and closes, `connect()` throws and the server is left as it was. -/
theorem on_client_connect_handshake_fails_witness :
    (∃ gone : Client,
      (sampleRegistered).on_client_connect { IN := true } (some { sockfd := 9, inbox := [0x00] })
        = .returned (sampleRegistered, [gone]) ∧
      gone = Client.disconnected { sock := { sockfd := 9 } } ∧ gone.status = .OFFLINE ∧
      (0 < ({ sockfd := 9, inbox := [0x00] } : Socket).sockfd → gone.sock.sockfd = -1)) ∧
    Client.connect { sock := { sockfd := 9, inbox := [0x00] } }
      = .throw .sock_closed { sock := { sockfd := 9 } } ∧
    (sampleRegistered).on_client_connect { IN := true } (some { sockfd := 9, inbox := [0x00] })
      = .returned (sampleRegistered, [⟨.OFFLINE, { sockfd := -1, closes := 1 }, []⟩]) :=
  ⟨on_client_connect_handshake_fails sampleRegistered { IN := true }
      { sockfd := 9, inbox := [0x00] } .sock_closed { sock := { sockfd := 9 } }
      rfl rfl (by decide) rfl,
   by decide, by decide⟩

/-- C17 (handshake failure, same defect as C5): the peer closes before its
nickname frame is complete and `connect()` does not throw, so the registry is
not left as it was. On descriptor 9 the header announces 3 bytes, "ab" arrives
one byte per read and the stream ends: `on_client_connect` returns with the new
key "ab" mapped to an ONLINE Connection and with a handler for descriptor 9 in
the `Epoll`. On descriptor 10 the header announces 7 bytes, "al" and "ice"
arrive and the stream ends: the entry of alice is replaced by the new
Connection and the Connection alice had is destroyed. -/
theorem on_client_connect_truncated_handshake :
    frame (ascii "abc") = [0x00, 0x03, 0x61, 0x62] ++ [0x63] ∧
    sampleRegistered.on_client_connect { IN := true }
        (some { sockfd := 9, inbox := [0x00, 0x03, 0x61, 0x62],
                reads := [.xfer 2, .xfer 1, .xfer 1] })
      = .returned
          ({ sampleRegistered with
              clients := [onlineClient "alice" 5, onlineClient "bob" 6, offlineClient "carol",
                          (ascii "ab", some ⟨.ONLINE, { sockfd := 9 }, ascii "ab"⟩)],
              epoll := { handlers := [(5, .on_socket_data_available (ascii "alice")),
                                      (6, .on_socket_data_available (ascii "bob")),
                                      (9, .on_socket_data_available (ascii "ab"))] } }, []) ∧
    frame (ascii "alice" ++ ascii "xy") = [0x00, 0x07] ++ ascii "alice" ++ ascii "xy" ∧
    sampleRegistered.on_client_connect { IN := true }
        (some { sockfd := 10, inbox := [0x00, 0x07] ++ ascii "alice",
                reads := [.xfer 2, .xfer 2, .xfer 3] })
      = .returned
          ({ sampleRegistered with
              clients := [(ascii "alice", some ⟨.ONLINE, { sockfd := 10 }, ascii "alice"⟩),
                          onlineClient "bob" 6, offlineClient "carol"],
              epoll := { handlers := [(5, .on_socket_data_available (ascii "alice")),
                                      (6, .on_socket_data_available (ascii "bob")),
                                      (10, .on_socket_data_available (ascii "alice"))] } },
           [⟨.OFFLINE, { sockfd := -1, closes := 1 }, ascii "alice"⟩]) := by
  decide

/-- C18, counterexample: the handler of alice is dispatched with HANGUP on the
sample server. Afterwards alice is OFFLINE and her socket is closed, but her
nick is still a key of the registry and the handler of her descriptor is still
in the `handlers` map of the `Epoll`. -/
theorem on_socket_data_available_keeps_entry :
    sampleRegistered.on_socket_data_available { HUP := true } (ascii "alice")
      = .returned { sampleRegistered with
          clients := [(ascii "alice", some ⟨.OFFLINE, { sockfd := -1, closes := 1 }, ascii "alice"⟩),
                      onlineClient "bob" 6, offlineClient "carol"] } ∧
    ascii "alice" ∈ ChatServer.nicks { sampleRegistered with
          clients := [(ascii "alice", some ⟨.OFFLINE, { sockfd := -1, closes := 1 }, ascii "alice"⟩),
                      onlineClient "bob" 6, offlineClient "carol"] } ∧
    (5, Handler.on_socket_data_available (ascii "alice")) ∈ sampleRegistered.epoll.handlers := by
  decide

/-- C18, amended: for every Connection `c` registered under the nick `n`
(`close(2)` succeeding on its socket), when `on_socket_data_available` is
dispatched for it with ERROR, HANGUP or PEER_CLOSED in the event mask, the
handler returns; afterwards `c` is disconnected: status OFFLINE and, its
descriptor being positive, descriptor -1; `n` is still a key of the registry,
mapped to that Connection, the keys and their order being unchanged; the
`Epoll`, its `handlers` map included, and both queues are as before. -/
theorem on_socket_data_available_hangup (srv : ChatServer) (events : Events) (n : Bytes)
    (c : Client) (hl : lookupClient srv.clients n = some (some c))
    (hev : events.ERR = true ∨ events.HUP = true ∨ events.RDHUP = true)
    (hclose : c.sock.close_fails = false) :
    ∃ srv' : ChatServer,
      srv.on_socket_data_available events n = .returned srv' ∧
      lookupClient srv'.clients n = some (some c.disconnected) ∧
      c.disconnected.status = .OFFLINE ∧
      (0 < c.sock.sockfd → c.disconnected.sock.sockfd = -1) ∧
      srv'.nicks = srv.nicks ∧ n ∈ srv'.nicks ∧
      srv'.epoll = srv.epoll ∧ srv'.in_queue = srv.in_queue ∧ srv'.out_queue = srv.out_queue := by
  have hne : lookupClient srv.clients n ≠ none := by rw [hl]; simp
  have hkeys : (setClient srv.clients n (some c.disconnected)).map Prod.fst
      = srv.clients.map Prod.fst := keys_set _ _ _ hne
  refine ⟨{ srv with clients := setClient srv.clients n (some c.disconnected) }, ?_,
    lookup_set_same _ _ _, rfl, fun hpos => disconnected_sockfd c (Or.inl hpos), hkeys, ?_,
    rfl, rfl, rfl⟩
  · unfold ChatServer.on_socket_data_available
    rw [hl]
    simp only
    by_cases h1 : events.ERR = true
    · simp only [h1, if_true, disconnect_at, disconnect_ok c hclose]
    · have h2 : (events.HUP || events.RDHUP) = true := by
        rcases hev with h | h | h
        · exact absurd h h1
        · simp [h]
        · simp [h]
      simp only [h1, h2, if_true, disconnect_at, disconnect_ok c hclose]
      simp
  · show n ∈ (setClient srv.clients n (some c.disconnected)).map Prod.fst
    rw [hkeys, ← lookup_ne_none_iff]
    exact hne

/-- C18, amended, on the sample server with PEER_CLOSED for bob. -/
theorem on_socket_data_available_hangup_witness :
    ∃ srv' : ChatServer,
      sampleRegistered.on_socket_data_available { IN := true, RDHUP := true } (ascii "bob")
        = .returned srv' ∧
      lookupClient srv'.clients (ascii "bob")
        = some (some (Client.disconnected ⟨.ONLINE, { sockfd := 6 }, ascii "bob"⟩)) ∧
      (Client.disconnected ⟨.ONLINE, { sockfd := 6 }, ascii "bob"⟩).status = .OFFLINE ∧
      (0 < (⟨.ONLINE, { sockfd := 6 }, ascii "bob"⟩ : Client).sock.sockfd →
        (Client.disconnected ⟨.ONLINE, { sockfd := 6 }, ascii "bob"⟩).sock.sockfd = -1) ∧
      srv'.nicks = sampleRegistered.nicks ∧ ascii "bob" ∈ srv'.nicks ∧
      srv'.epoll = sampleRegistered.epoll ∧ srv'.in_queue = sampleRegistered.in_queue ∧
      srv'.out_queue = sampleRegistered.out_queue :=
  on_socket_data_available_hangup sampleRegistered { IN := true, RDHUP := true } (ascii "bob")
    ⟨.ONLINE, { sockfd := 6 }, ascii "bob"⟩ (by decide) (Or.inr (Or.inr rfl)) rfl

/-! ## Reachable states: supporting lemmas -/

theorem set_set (cl : List (Bytes × ClientPtr)) (k : Bytes) (v v' : ClientPtr) :
    setClient (setClient cl k v) k v' = setClient cl k v' := by
  induction cl with
  | nil => simp [setClient]
  | cons p rest ih =>
    obtain ⟨k1, v1⟩ := p
    by_cases h : k1 = k
    · simp [setClient, h]
    · simp [setClient, h, ih]

theorem keys_set_subset (cl : List (Bytes × ClientPtr)) (k : Bytes) (v : ClientPtr) :
    ∀ n ∈ cl.map Prod.fst, n ∈ (setClient cl k v).map Prod.fst := by
  intro n hn
  rcases h : lookupClient cl k with _ | w
  · rw [keys_set_new cl k v h]
    exact List.mem_append_left _ hn
  · rw [keys_set cl k v (by rw [h]; simp)]
    exact hn

theorem entriesOk_set {cl : List (Bytes × ClientPtr)} (h : EntriesOk cl) (k : Bytes)
    (c : Client) (hc : c.nick = k) : EntriesOk (setClient cl k (some c)) := by
  intro p hp
  rcases mem_set hp with h' | h'
  · exact h p h'
  · exact ⟨c, by rw [h'], by rw [h', hc]⟩

theorem entriesOk_lookup {cl : List (Bytes × ClientPtr)} (h : EntriesOk cl) {k : Bytes}
    (hk : k ∈ cl.map Prod.fst) :
    ∃ c : Client, lookupClient cl k = some (some c) ∧ c.nick = k := by
  have hne := (lookup_ne_none_iff cl k).2 hk
  rcases hl : lookupClient cl k with _ | v
  · exact absurd hl hne
  · obtain ⟨c, hc, hn⟩ := h (k, v) (lookup_mem hl)
    exact ⟨c, by rw [show v = some c from hc], hn⟩

theorem entriesOk_noNull {cl : List (Bytes × ClientPtr)} (h : EntriesOk cl) :
    ∀ p ∈ cl, p.2 ≠ none := by
  intro p hp
  obtain ⟨c, hc, -⟩ := h p hp
  rw [hc]; simp

/-- Whatever `disconnect()` does, the Connection it leaves is OFFLINE, with its
nick as it was. -/
theorem disconnect_frame (c : Client) :
    c.disconnect ≠ .diverge ∧
    ∀ c' ∈ c.disconnect.state?, c'.nick = c.nick ∧ c'.status = .OFFLINE := by
  unfold Client.disconnect
  rcases h : c.sock.close with ⟨u, s⟩ | ⟨e, s⟩ | _
  · refine ⟨by simp, fun c' hc' => ?_⟩
    simp only [Res.state?, Option.mem_def, Option.some.injEq] at hc'
    subst hc'; exact ⟨rfl, rfl⟩
  · refine ⟨by simp, fun c' hc' => ?_⟩
    simp only [Res.state?, Option.mem_def, Option.some.injEq] at hc'
    subst hc'; exact ⟨rfl, rfl⟩
  · unfold Socket.close at h
    by_cases hfd : c.sock.sockfd > 0
    · by_cases hcf : c.sock.close_fails = true <;> simp [hfd, hcf] at h
    · simp [hfd] at h

/-- One turn of the loop of `on_queue_available` on a key that holds a
Connection never dereferences a null pointer, and when it comes back the
registry differs only in the Connection under that key, whose nick is kept. -/
theorem send_to_defined {clients : List (Bytes × ClientPtr)} {dst : Bytes} {c : Client}
    (msg : Bytes) (hl : lookupClient clients dst = some (some c)) :
    send_to clients dst msg ≠ .undefined ∧
    ∀ cl1 a, send_to clients dst msg = .returned (cl1, a) →
      ∃ c1 : Client, cl1 = setClient clients dst (some c1) ∧ c1.nick = c.nick := by
  unfold send_to
  rw [hl]
  simp only
  rcases hs : c.send_message msg with ⟨u, c'⟩ | ⟨e, c'⟩ | _
  · have hn := (send_message_frame c msg c' (by rw [hs]; rfl)).2.1
    refine ⟨by simp, fun cl1 a h => ?_⟩
    simp only [Ran.returned.injEq, Prod.mk.injEq] at h
    exact ⟨c', h.1.symm, hn⟩
  · have hn := (send_message_frame c msg c' (by rw [hs]; rfl)).2.1
    simp only
    by_cases hk : (e.isClientException || e.isSocketException) = true
    · simp only [hk, if_true]
      obtain ⟨d1, d2⟩ := disconnect_frame c'
      rcases hd : c'.disconnect with ⟨u, c''⟩ | ⟨e', c''⟩ | _
      · have hn2 := (d2 c'' (by rw [hd]; rfl)).1
        refine ⟨by simp, fun cl1 a h => ?_⟩
        simp only [Ran.returned.injEq, Prod.mk.injEq] at h
        exact ⟨c'', h.1.symm, by rw [hn2, hn]⟩
      · exact ⟨by simp, fun cl1 a h => by simp at h⟩
      · exact absurd hd d1
    · simp only [hk]
      exact ⟨by simp, fun cl1 a h => by simp at h⟩
  · exact absurd hs (send_message_total c msg)

/-- The loop of `on_queue_available` on a well-formed registry that holds every
destination never dereferences a null pointer; when it returns, the registry
is well formed and its keys are unchanged. -/
theorem send_loop_defined : ∀ (ds : List Bytes) (msg : Bytes)
    (clients : List (Bytes × ClientPtr)) (done : List Attempt),
    EntriesOk clients → (∀ d ∈ ds, d ∈ clients.map Prod.fst) →
    send_loop ds msg clients done ≠ .undefined ∧
    ∀ cl' tr, send_loop ds msg clients done = .returned (cl', tr) →
      EntriesOk cl' ∧ cl'.map Prod.fst = clients.map Prod.fst := by
  intro ds
  induction ds with
  | nil =>
    intro msg clients done he _
    simp only [send_loop]
    refine ⟨by simp, fun cl' tr h => ?_⟩
    simp only [Ran.returned.injEq, Prod.mk.injEq] at h
    rw [← h.1]
    exact ⟨he, rfl⟩
  | cons d rest ih =>
    intro msg clients done he hk
    obtain ⟨c, hl, hn⟩ := entriesOk_lookup he (hk d (List.mem_cons_self _ _))
    obtain ⟨g1, g2⟩ := send_to_defined msg hl
    simp only [send_loop]
    rcases hst : send_to clients d msg with ⟨cl1, a⟩ | ⟨e, ⟨cl1, a⟩⟩ | _ | _ | _
    · obtain ⟨c1, hc1, hn1⟩ := g2 cl1 a hst
      have hkeys : cl1.map Prod.fst = clients.map Prod.fst := by
        rw [hc1]; exact keys_set _ _ _ (by rw [hl]; simp)
      have he1 : EntriesOk cl1 := by
        rw [hc1]; exact entriesOk_set he d c1 (by rw [hn1, hn])
      obtain ⟨i1, i2⟩ := ih msg cl1 (done ++ [a]) he1 (fun d' hd' => by
        rw [hkeys]; exact hk d' (List.mem_cons_of_mem _ hd'))
      simp only
      refine ⟨i1, fun cl' tr h => ?_⟩
      obtain ⟨j1, j2⟩ := i2 cl' tr h
      exact ⟨j1, by rw [j2, hkeys]⟩
    · simp only
      exact ⟨by simp, fun cl' tr h => by simp at h⟩
    · simp only
      exact ⟨by simp, fun cl' tr h => by simp at h⟩
    · simp only
      exact ⟨by simp, fun cl' tr h => by simp at h⟩
    · exact absurd hst g1

theorem try_pop_cases {α : Type} (q q' : Queue α) (dst v : α) (b : Bool)
    (h : q.try_pop dst = .done (b, v) q') :
    (b = false ∧ q' = q) ∨
    (b = true ∧ ∃ rest, q.data_queue = v :: rest ∧ q'.data_queue = rest) := by
  unfold Queue.try_pop at h
  rcases hq : q.data_queue with _ | ⟨front, rest⟩
  · rw [hq] at h
    simp only [QRes.done.injEq, Prod.mk.injEq] at h
    exact Or.inl ⟨h.1.1.symm, h.2.symm⟩
  · rw [hq] at h
    simp only [Queue.decrement_event_counter] at h
    by_cases hz : q.event_counter = 0
    · simp [hz] at h
    · simp only [hz, if_false, QRes.done.injEq, Prod.mk.injEq] at h
      obtain ⟨⟨hb, hv⟩, hq'⟩ := h
      refine Or.inr ⟨hb.symm, rest, by rw [hv], ?_⟩
      rw [← hq']

theorem wait_pop_cases {α : Type} (q q' : Queue α) (dst v : α)
    (h : q.wait_pop dst = .done v q') :
    ∃ rest, q.data_queue = v :: rest ∧ q'.data_queue = rest := by
  unfold Queue.wait_pop at h
  rcases hq : q.data_queue with _ | ⟨front, rest⟩
  · rw [hq] at h; simp at h
  · rw [hq] at h
    simp only [Queue.decrement_event_counter] at h
    by_cases hz : q.event_counter = 0
    · simp [hz] at h
    · simp only [hz, if_false, QRes.done.injEq] at h
      obtain ⟨hv, hq'⟩ := h
      refine ⟨rest, by rw [hv], ?_⟩
      rw [← hq']

/-- When `on_client_connect` returns, the queues are as before and the registry
is as before or has the new Connection assigned under its nick. -/
theorem on_client_connect_returned {s s' : ChatServer} {events : Events}
    {accepted : Option Socket} {gone : List Client}
    (h : s.on_client_connect events accepted = .returned (s', gone)) :
    s'.in_queue = s.in_queue ∧ s'.out_queue = s.out_queue ∧
    (s'.clients = s.clients ∨
      ∃ c1 : Client, s'.clients = setClient s.clients c1.nick (some c1)) := by
  unfold ChatServer.on_client_connect at h
  by_cases hev : (events.ERR || events.HUP) = true
  · simp [hev] at h
  · simp only [hev] at h
    cases accepted with
    | none => simp at h
    | some sock =>
      simp only [Bool.false_eq_true, if_false] at h
      rcases hc : Client.connect { sock := sock } with ⟨u, c1⟩ | ⟨e, c1⟩ | _
      · rw [hc] at h
        simp only at h
        rcases ha : s.epoll.add_handler sock.sockfd { IN := true, RDHUP := true }
            (.on_socket_data_available c1.nick) with ⟨u, ep⟩ | ⟨e, ep⟩ | _
        · rw [ha] at h
          simp only at h
          rcases hl : lookupClient s.clients c1.nick with _ | v
          · rw [hl] at h
            simp only [Ran.returned.injEq, Prod.mk.injEq] at h
            rw [← h.1]
            exact ⟨rfl, rfl, Or.inr ⟨c1, rfl⟩⟩
          · cases v with
            | none =>
              rw [hl] at h
              simp only [Ran.returned.injEq, Prod.mk.injEq] at h
              rw [← h.1]
              exact ⟨rfl, rfl, Or.inr ⟨c1, rfl⟩⟩
            | some displaced =>
              rw [hl] at h
              simp only at h
              rcases hd : displaced.destroy with _ | g
              · rw [hd] at h; simp at h
              · rw [hd] at h
                simp only [Ran.returned.injEq, Prod.mk.injEq] at h
                rw [← h.1]
                exact ⟨rfl, rfl, Or.inr ⟨c1, rfl⟩⟩
        · rw [ha] at h
          simp only at h
          rcases hd : c1.destroy with _ | g <;> rw [hd] at h <;> simp at h
        · rw [ha] at h; simp at h
      · rw [hc] at h
        simp only at h
        by_cases hk : (e.isClientException || e.isSocketException) = true
        · simp only [hk, if_true, drop_connection] at h
          rcases hd : c1.disconnect with ⟨u, c2⟩ | ⟨e2, c2⟩ | _
          · rw [hd] at h
            simp only at h
            rcases hd2 : c2.destroy with _ | g
            · rw [hd2] at h; simp at h
            · rw [hd2] at h
              simp only [Ran.returned.injEq, Prod.mk.injEq] at h
              rw [← h.1]
              exact ⟨rfl, rfl, Or.inl rfl⟩
          · rw [hd] at h
            simp only at h
            rcases hd2 : c2.destroy with _ | g <;> rw [hd2] at h <;> simp at h
          · rw [hd] at h; simp at h
        · simp only [hk] at h
          rcases hd : c1.destroy with _ | g <;> rw [hd] at h <;> simp at h
      · rw [hc] at h; simp at h

theorem disconnect_at_returned {s s' : ChatServer} {key : Bytes} {c : Client}
    (h : disconnect_at s key c = .returned s') :
    ∃ c1 : Client, s'.clients = setClient s.clients key (some c1) ∧ c1.nick = c.nick ∧
      s'.in_queue = s.in_queue ∧ s'.out_queue = s.out_queue := by
  unfold disconnect_at at h
  obtain ⟨-, d2⟩ := disconnect_frame c
  rcases hd : c.disconnect with ⟨u, c1⟩ | ⟨e, c1⟩ | _
  · rw [hd] at h
    simp only [Ran.returned.injEq] at h
    rw [← h]
    exact ⟨c1, rfl, (d2 c1 (by rw [hd]; rfl)).1, rfl, rfl⟩
  · rw [hd] at h; simp at h
  · rw [hd] at h; simp at h

/-- When `on_socket_data_available` returns, the Connection under `data` has
been replaced by one with the same nick, `out_queue` is as before and
`in_queue` is as before or has one more envelope, whose source is that nick. -/
theorem on_socket_data_available_returned {s s' : ChatServer} {events : Events}
    {data : Bytes} (h : s.on_socket_data_available events data = .returned s') :
    ∃ c c1 : Client, lookupClient s.clients data = some (some c) ∧
      s'.clients = setClient s.clients data (some c1) ∧ c1.nick = c.nick ∧
      s'.out_queue = s.out_queue ∧
      (s'.in_queue = s.in_queue ∨
        ∃ text, s'.in_queue = s.in_queue.push (some { msg := text, src := c.nick })) := by
  unfold ChatServer.on_socket_data_available at h
  rcases hl : lookupClient s.clients data with _ | v
  · rw [hl] at h; simp at h
  · cases v with
    | none => rw [hl] at h; simp at h
    | some c =>
      rw [hl] at h
      simp only at h
      by_cases h1 : events.ERR = true
      · simp only [h1, if_true] at h
        obtain ⟨c1, g1, g2, g3, g4⟩ := disconnect_at_returned h
        exact ⟨c, c1, rfl, g1, g2, g4, Or.inl g3⟩
      · by_cases h2 : (events.HUP || events.RDHUP) = true
        · simp only [h1, h2, if_true] at h
          obtain ⟨c1, g1, g2, g3, g4⟩ := disconnect_at_returned h
          exact ⟨c, c1, rfl, g1, g2, g4, Or.inl g3⟩
        · simp only [h1, h2] at h
          obtain ⟨-, -, r3⟩ := recv_message_frame c
          rcases hr : c.recv_message with ⟨text, c'⟩ | ⟨e, c'⟩ | _
          · have hn := (r3 c' (by rw [hr]; rfl)).2.1
            rw [hr] at h
            simp only [Bool.false_eq_true, if_false, Ran.returned.injEq] at h
            rw [← h]
            exact ⟨c, c', rfl, rfl, hn, rfl, Or.inr ⟨text, by rw [hn]⟩⟩
          · have hn := (r3 c' (by rw [hr]; rfl)).2.1
            rw [hr] at h
            simp only [Bool.false_eq_true, if_false] at h
            by_cases hk : (e.isClientException || e.isSocketException) = true
            · simp only [hk, if_true] at h
              obtain ⟨c1, g1, g2, g3, g4⟩ := disconnect_at_returned h
              refine ⟨c, c1, rfl, ?_, by rw [g2, hn], g4, Or.inl g3⟩
              rw [g1]
              exact set_set _ _ _ _
            · simp only [hk] at h
              simp at h
          · rw [hr] at h; simp at h

/-- When a turn of `message_handler` is done, it has taken the envelope at the
front of `in_queue` and pushed one envelope to `out_queue`, whose destinations
are the source of the request or keys of the registry; the registry is as
before. -/
theorem message_handler_turn_done {s s' : ChatServer} {mp mp' : MessagePtr}
    (h : s.message_handler_turn mp = .done (s', mp')) (he : EntriesOk s.clients) :
    ∃ (m : Message) (rest : List MessagePtr) (resp : Message),
      s.in_queue.data_queue = some m :: rest ∧ s'.in_queue.data_queue = rest ∧
      s'.clients = s.clients ∧
      s'.out_queue.data_queue = s.out_queue.data_queue ++ [some resp] ∧
      (∀ d ∈ resp.dsts, d = m.src ∨ d ∈ s.nicks) := by
  unfold ChatServer.message_handler_turn at h
  rcases hw : s.in_queue.wait_pop mp with ⟨v, q'⟩ | w
  · obtain ⟨rest, hq, hq'⟩ := wait_pop_cases _ _ _ _ hw
    rw [hw] at h
    cases v with
    | none => simp at h
    | some m =>
      simp only at h
      have hnn : ChatServer.noNull { s with in_queue := q' } := entriesOk_noNull he
      by_cases hl : m.msg = ascii "list"
      · simp only [hl, if_true, ChatServer.on_list] at h
        obtain ⟨text, ht⟩ := get_status_list_loop_some s.clients [] (entriesOk_noNull he)
        simp only [ChatServer.get_status_list, ht] at h
        simp only [Outcome.done.injEq, Prod.mk.injEq] at h
        rw [← h.1]
        exact ⟨m, rest, _, hq, hq', rfl, rfl, fun d hd => by
          simp only [Message.add_destination, List.nil_append, List.mem_singleton] at hd
          exact Or.inl hd⟩
      · simp only [hl, if_false, on_send_spec _ m hnn] at h
        simp only [Outcome.done.injEq, Prod.mk.injEq] at h
        rw [← h.1]
        exact ⟨m, rest, _, hq, hq', rfl, rfl, fun d hd =>
          Or.inr ((onlineOthers_sublist s.clients m.src).subset hd)⟩
  · rw [hw] at h; simp at h

/-- `on_queue_available` in a state whose registry covers `out_queue` never
dereferences a null pointer; when it returns, `in_queue` is as before, the
registry is well formed with its keys unchanged, and `out_queue` holds
envelopes it held before. -/
theorem on_queue_available_defined {s : ChatServer} (events : Events) (hr : Registered s) :
    s.on_queue_available events ≠ .undefined ∧
    ∀ s' calls, s.on_queue_available events = .returned (s', calls) →
      s'.in_queue = s.in_queue ∧ EntriesOk s'.clients ∧ s'.nicks = s.nicks ∧
      (∀ mp ∈ s'.out_queue.data_queue, mp ∈ s.out_queue.data_queue) := by
  obtain ⟨he, -, ho⟩ := hr
  unfold ChatServer.on_queue_available
  by_cases hev : (events.ERR || events.HUP) = true
  · simp only [hev, if_true]
    exact ⟨by simp, fun s' calls h => by simp at h⟩
  · simp only [hev]
    rcases hp : s.out_queue.try_pop none with ⟨⟨b, v⟩, q'⟩ | w
    · rcases try_pop_cases _ _ _ _ _ hp with ⟨hb, hq⟩ | ⟨hb, rest, hq, hq'⟩
      · subst hb
        simp only [Bool.false_eq_true, if_false]
        refine ⟨by simp, fun s' calls h => ?_⟩
        simp only [Ran.returned.injEq, Prod.mk.injEq] at h
        rw [← h.1, hq]
        exact ⟨rfl, he, rfl, fun mp hmp => hmp⟩
      · subst hb
        obtain ⟨m, hm, hd⟩ := ho v (by rw [hq]; exact List.mem_cons_self _ _)
        subst hm
        simp only [Bool.false_eq_true, if_false]
        obtain ⟨g1, g2⟩ := send_loop_defined m.dsts m.msg s.clients [] he hd
        rcases hs : send_loop m.dsts m.msg s.clients [] with
          ⟨cl', tr⟩ | ⟨e, ⟨cl', tr⟩⟩ | _ | _ | _
        · obtain ⟨j1, j2⟩ := g2 cl' tr hs
          simp only
          refine ⟨by simp, fun s' calls h => ?_⟩
          simp only [Ran.returned.injEq, Prod.mk.injEq] at h
          rw [← h.1]
          refine ⟨rfl, j1, j2, fun mp hmp => ?_⟩
          simp only [hq'] at hmp
          rw [hq]
          exact List.mem_cons_of_mem _ hmp
        · simp only
          exact ⟨by simp, fun s' calls h => by simp at h⟩
        · simp only
          exact ⟨by simp, fun s' calls h => by simp at h⟩
        · simp only
          exact ⟨by simp, fun s' calls h => by simp at h⟩
        · exact absurd hs g1
    · simp only [Bool.false_eq_true, if_false]
      exact ⟨by simp, fun s' calls h => by simp at h⟩

/-- A step keeps every key of the registry and keeps the registry covering the
queues. -/
theorem step_registered {s s' : ChatServer} (hstep : Step s s') (hr : Registered s) :
    Registered s' ∧ ∀ n ∈ s.nicks, n ∈ s'.nicks := by
  obtain ⟨he, hi, ho⟩ := hr
  cases hstep with
  | client_connect events accepted _ gone h =>
    obtain ⟨g1, g2, g3⟩ := on_client_connect_returned h
    have hsub : ∀ n ∈ s.nicks, n ∈ s'.nicks := by
      rcases g3 with g | ⟨c1, g⟩
      · intro n hn; simp only [ChatServer.nicks, g]; exact hn
      · intro n hn
        simp only [ChatServer.nicks, g]
        exact keys_set_subset _ _ _ n hn
    have he' : EntriesOk s'.clients := by
      rcases g3 with g | ⟨c1, g⟩
      · rw [g]; exact he
      · rw [g]; exact entriesOk_set he c1.nick c1 rfl
    refine ⟨⟨he', ?_, ?_⟩, hsub⟩
    · intro mp hmp
      rw [g1] at hmp
      obtain ⟨m, hm, hsrc⟩ := hi mp hmp
      exact ⟨m, hm, hsub _ hsrc⟩
    · intro mp hmp
      rw [g2] at hmp
      obtain ⟨m, hm, hd⟩ := ho mp hmp
      exact ⟨m, hm, fun d hdd => hsub _ (hd d hdd)⟩
  | socket_data events data _ h =>
    obtain ⟨c, c1, g1, g2, g3, g4, g5⟩ := on_socket_data_available_returned h
    have hne : lookupClient s.clients data ≠ none := by rw [g1]; simp
    have hcn : c.nick = data := by
      obtain ⟨c0, h0, h0n⟩ := he (data, some c) (lookup_mem g1)
      simp only [Option.some.injEq] at h0
      rw [h0]; exact h0n
    have hkeys : s'.nicks = s.nicks := by
      simp only [ChatServer.nicks, g2]
      exact keys_set _ _ _ hne
    have hdata : data ∈ s.nicks := (lookup_ne_none_iff _ _).1 hne
    refine ⟨⟨?_, ?_, ?_⟩, fun n hn => by rw [hkeys]; exact hn⟩
    · rw [g2]; exact entriesOk_set he data c1 (by rw [g3, hcn])
    · intro mp hmp
      rcases g5 with g | ⟨text, g⟩
      · rw [g] at hmp
        obtain ⟨m, hm, hsrc⟩ := hi mp hmp
        exact ⟨m, hm, by rw [hkeys]; exact hsrc⟩
      · rw [g] at hmp
        simp only [Queue.push, Queue.increment_event_counter, List.mem_append,
          List.mem_singleton] at hmp
        rcases hmp with hmp | hmp
        · obtain ⟨m, hm, hsrc⟩ := hi mp hmp
          exact ⟨m, hm, by rw [hkeys]; exact hsrc⟩
        · exact ⟨_, hmp, by rw [hkeys, hcn]; exact hdata⟩
    · intro mp hmp
      rw [g4] at hmp
      obtain ⟨m, hm, hd⟩ := ho mp hmp
      exact ⟨m, hm, fun d hdd => by rw [hkeys]; exact hd d hdd⟩
  | message_turn msg_ptr _ msg_ptr' h =>
    obtain ⟨m, rest, resp, g1, g2, g3, g4, g5⟩ := message_handler_turn_done h he
    have hkeys : s'.nicks = s.nicks := by simp only [ChatServer.nicks, g3]
    obtain ⟨m0, hm0, hsrc0⟩ := hi (some m) (by rw [g1]; exact List.mem_cons_self _ _)
    simp only [Option.some.injEq] at hm0
    subst hm0
    refine ⟨⟨by rw [g3]; exact he, ?_, ?_⟩, fun n hn => by rw [hkeys]; exact hn⟩
    · intro mp hmp
      rw [g2] at hmp
      obtain ⟨m1, hm1, hsrc⟩ := hi mp (by rw [g1]; exact List.mem_cons_of_mem _ hmp)
      exact ⟨m1, hm1, by rw [hkeys]; exact hsrc⟩
    · intro mp hmp
      rw [g4] at hmp
      simp only [List.mem_append, List.mem_singleton] at hmp
      rcases hmp with hmp | hmp
      · obtain ⟨m1, hm1, hd⟩ := ho mp hmp
        exact ⟨m1, hm1, fun d hdd => by rw [hkeys]; exact hd d hdd⟩
      · refine ⟨resp, hmp, fun d hdd => ?_⟩
        rw [hkeys]
        rcases g5 d hdd with g | g
        · rw [g]; exact hsrc0
        · exact g
  | queue_available events _ calls h =>
    obtain ⟨-, g2⟩ := on_queue_available_defined events ⟨he, hi, ho⟩
    obtain ⟨j1, j2, j3, j4⟩ := g2 s' calls h
    refine ⟨⟨j2, ?_, ?_⟩, fun n hn => by rw [j3]; exact hn⟩
    · intro mp hmp
      rw [j1] at hmp
      obtain ⟨m, hm, hsrc⟩ := hi mp hmp
      exact ⟨m, hm, by rw [j3]; exact hsrc⟩
    · intro mp hmp
      obtain ⟨m, hm, hd⟩ := ho mp (j4 mp hmp)
      exact ⟨m, hm, fun d hdd => by rw [j3]; exact hd d hdd⟩

/-- In every reachable state the registry covers the queues. -/
theorem reachable_registered {s : ChatServer} (h : Reachable s) : Registered s := by
  induction h with
  | start epoll =>
    refine ⟨?_, ?_, ?_⟩
    · intro p hp; simp at hp
    · intro mp hmp; simp at hmp
    · intro mp hmp; simp at hmp
  | step _ hstep ih => exact (step_registered hstep ih).1

/-- C19 (destination lookup never misses): in every state reachable by the
handlers taken as sequential steps, the source of every envelope of `in_queue`
is a key of the registry; every destination of every envelope of `out_queue`
is a key of the registry mapped to a non-null Connection; no step removes a
key; `on_queue_available` never dereferences a null pointer, and when it
returns the keys of the registry are the keys it had, none of them mapped to
a null pointer: the lookup `clients[dst]` inserts no entry. -/
theorem registry_holds_destinations (s : ChatServer) (h : Reachable s) :
    (∀ mp ∈ s.in_queue.data_queue, ∃ m : Message, mp = some m ∧ m.src ∈ s.nicks) ∧
    (∀ mp ∈ s.out_queue.data_queue, ∃ m : Message, mp = some m ∧
      ∀ d ∈ m.dsts, ∃ c : Client, lookupClient s.clients d = some (some c)) ∧
    (∀ s', Step s s' → ∀ n ∈ s.nicks, n ∈ s'.nicks) ∧
    (∀ events, s.on_queue_available events ≠ .undefined) ∧
    (∀ events s' calls, s.on_queue_available events = .returned (s', calls) →
      s'.nicks = s.nicks ∧ s'.noNull) := by
  have hr := reachable_registered h
  obtain ⟨he, hi, ho⟩ := hr
  refine ⟨hi, ?_, ?_, ?_, ?_⟩
  · intro mp hmp
    obtain ⟨m, hm, hd⟩ := ho mp hmp
    refine ⟨m, hm, fun d hdd => ?_⟩
    obtain ⟨c, hc, -⟩ := entriesOk_lookup he (hd d hdd)
    exact ⟨c, hc⟩
  · intro s' hstep
    exact (step_registered hstep ⟨he, hi, ho⟩).2
  · intro events
    exact (on_queue_available_defined events ⟨he, hi, ho⟩).1
  · intro events s' calls hq
    obtain ⟨-, j2, j3, -⟩ := (on_queue_available_defined events ⟨he, hi, ho⟩).2 s' calls hq
    exact ⟨j3, entriesOk_noNull j2⟩

/-- C19 in the state reached when alice and bob have connected, a frame of alice
has been read and the processor has answered it. -/
theorem registry_holds_destinations_witness :
    (∀ mp ∈ reached4.in_queue.data_queue, ∃ m : Message, mp = some m ∧ m.src ∈ reached4.nicks) ∧
    (∀ mp ∈ reached4.out_queue.data_queue, ∃ m : Message, mp = some m ∧
      ∀ d ∈ m.dsts, ∃ c : Client, lookupClient reached4.clients d = some (some c)) ∧
    (∀ s', Step reached4 s' → ∀ n ∈ reached4.nicks, n ∈ s'.nicks) ∧
    (∀ events, reached4.on_queue_available events ≠ .undefined) ∧
    (∀ events s' calls, reached4.on_queue_available events = .returned (s', calls) →
      s'.nicks = reached4.nicks ∧ s'.noNull) :=
  registry_holds_destinations reached4
    (Reachable.step
      (Reachable.step
        (Reachable.step
          (Reachable.step (Reachable.start {})
            (Step.client_connect _ { IN := true }
              (some { sockfd := 5, inbox := frame (ascii "alice") ++ frame (ascii "hi") })
              reached1 [] (by decide)))
          (Step.client_connect _ { IN := true }
            (some { sockfd := 6, inbox := frame (ascii "bob") }) reached2 [] (by decide)))
        (Step.socket_data _ { IN := true } (ascii "alice") reached3 (by decide)))
      (Step.message_turn _ none reached4 (some ⟨ascii "hi", ascii "alice", []⟩) (by decide)))

/-! ## The pipeline: supporting lemmas -/

theorem deliverAll_append (a b : List Bytes) (c : Client) :
    deliverAll (a ++ b) c = deliverAll b (deliverAll a c) := by
  induction a generalizing c with
  | nil => rfl
  | cons m ms ih => simp [deliverAll, ih]

/-- One turn of `message_handler` on a registry without null entries: the
envelope at the front of `in_queue` is answered with `response`. -/
theorem message_handler_turn_response (srv : ChatServer) (e : Message)
    (rest : List MessagePtr) (mp : MessagePtr) (hnn : srv.noNull)
    (hq : srv.in_queue = { data_queue := some e :: rest, event_counter := rest.length + 1 }) :
    srv.message_handler_turn mp = .done
      ({ srv with
          in_queue := { data_queue := rest, event_counter := rest.length },
          out_queue := srv.out_queue.push (some (response srv.clients e)) }, some e) := by
  obtain ⟨clients, iq, oq, ep⟩ := srv
  simp only at hq
  subst hq
  have hpop : Queue.wait_pop
      (⟨some e :: rest, rest.length + 1⟩ : Queue MessagePtr) mp
      = .done (some e) ⟨rest, rest.length⟩ := by
    simp [Queue.wait_pop, Queue.decrement_event_counter]
  by_cases hl : e.msg = ascii "list"
  · have ht := get_status_list_loop_eq clients [] hnn
    simp only [List.nil_append] at ht
    simp only [ChatServer.message_handler_turn, hpop, hl, if_true, ChatServer.on_list,
      ChatServer.get_status_list, ht, Message.add_destination, List.nil_append, response]
  · have hs := on_send_spec ⟨clients, ⟨rest, rest.length⟩, oq, ep⟩ e hnn
    simp only [ChatServer.message_handler_turn, hpop, hl, if_false, hs, response]

/-- The processor answers the envelopes of `in_queue` one by one, in order. -/
theorem message_handler_loop_spec : ∀ (es : List Message) (srv : ChatServer) (mp : MessagePtr),
    srv.noNull →
    srv.in_queue = { data_queue := es.map some, event_counter := es.length } →
    ∃ (srv1 : ChatServer) (mp' : MessagePtr),
      message_handler_loop es.length srv mp = .done (srv1, mp') ∧
      srv1.clients = srv.clients ∧ srv1.epoll = srv.epoll ∧
      srv1.in_queue = { data_queue := [], event_counter := 0 } ∧
      srv1.out_queue.data_queue
        = srv.out_queue.data_queue ++ es.map (fun e => some (response srv.clients e)) ∧
      srv1.out_queue.event_counter = srv.out_queue.event_counter + es.length := by
  intro es
  induction es with
  | nil =>
    intro srv mp _ hq
    exact ⟨srv, mp, rfl, rfl, rfl, by simpa using hq, by simp, by simp⟩
  | cons e rest ih =>
    intro srv mp hnn hq
    have hturn := message_handler_turn_response srv e (rest.map some) mp hnn
      (by rw [hq]; simp)
    obtain ⟨srv1, mp', h1, h2, h3, h4, h5, h6⟩ :=
      ih { srv with
            in_queue := { data_queue := rest.map some, event_counter := (rest.map some).length },
            out_queue := srv.out_queue.push (some (response srv.clients e)) } (some e)
        hnn (by simp)
    refine ⟨srv1, mp', ?_, h2, h3, h4, ?_, ?_⟩
    · simp only [List.length_cons, message_handler_loop, hturn]
      exact h1
    · rw [h5]
      simp [Queue.push, Queue.increment_event_counter]
    · rw [h6]
      simp only [Queue.push, Queue.increment_event_counter, List.length_cons]
      omega

end Chat
